import Mathlib

/-!
Verification of the backgrid data-grid widget (src/lib/backgrid.js) against its
natural-language specification.

The JavaScript source is shallowly embedded:

* strings are `List Char` (abbreviated `JStr`), built from Lean string literals
  via `jstr`;
* JavaScript numbers are `JSNum` (`nan`, the two infinities, or an ideal
  rational `ℚ`; IEEE-754 double rounding is idealised away, as none of the
  verified claims depend on double precision);
* functions that can throw are embedded as `Option`-valued functions where
  `none` marks the thrown exception;
* built-in ECMAScript operations used by the source (`Number(string)`,
  `Number.prototype.toFixed`, `String.prototype.split`, `Date.UTC`, the
  `Date` getters) are modelled from the ECMA-262 specification.

All computations that the kernel must evaluate avoid Mathlib's non-reducing
`ℚ` instances by using explicit `mkRat`-based helpers (`qadd`, `qmul`, ...),
which are related to the standard operations by bridge lemmas below.
-/

/-- Embedded JavaScript strings: lists of characters. -/
abbrev JStr := List Char

/-- Convert a Lean string literal to an embedded JavaScript string. -/
def jstr (s : String) : JStr := s.data

/-- Kernel-reducible addition on `ℚ` (Mathlib's `+` does not reduce). -/
def qadd (a b : ℚ) : ℚ := mkRat (a.num * b.den + b.num * a.den) (a.den * b.den)

/-- Kernel-reducible multiplication on `ℚ`. -/
def qmul (a b : ℚ) : ℚ := mkRat (a.num * b.num) (a.den * b.den)

/-- Kernel-reducible negation on `ℚ`. -/
def qneg (a : ℚ) : ℚ := mkRat (-a.num) a.den

/-- Kernel-reducible absolute value on `ℚ`. -/
def qabs (a : ℚ) : ℚ := mkRat a.num.natAbs a.den

/-- Kernel-reducible floor on `ℚ` (the denominator is positive, so Euclidean
division of the numerator by the denominator is the floor). -/
def qfloor (q : ℚ) : ℤ := q.num / (q.den : ℤ)

/-- Kernel-reducible truncation toward zero on `ℚ`; this is ECMAScript's
`ToInteger` on finite values. -/
def qtrunc (q : ℚ) : ℤ := Int.tdiv q.num q.den

/-- Kernel-reducible embedding of `ℤ` into `ℚ`. -/
def qofInt (n : ℤ) : ℚ := mkRat n 1

/-! ## Embedded JavaScript string helpers -/

/-- ECMAScript `StrWhiteSpace` characters (the set used by `String.prototype.trim`
and by `Number(string)`): the ASCII whitespace characters, NBSP, the Unicode line
separators and the BOM.  (Other rare Unicode space code points are not modelled;
no claim depends on them.) -/
def isJsWhitespace (c : Char) : Bool :=
  c.toNat = 9 ∨ c.toNat = 10 ∨ c.toNat = 11 ∨ c.toNat = 12 ∨ c.toNat = 13 ∨
  c.toNat = 32 ∨ c.toNat = 160 ∨ c.toNat = 8232 ∨ c.toNat = 8233 ∨ c.toNat = 65279

/-- The source's `trim` helper (line 35): `String.prototype.trim`, i.e. removal of
leading and trailing whitespace. -/
def jsTrim (s : JStr) : JStr :=
  ((s.dropWhile isJsWhitespace).reverse.dropWhile isJsWhitespace).reverse

/-- Fuel-driven worker for `jsSplit`; the fuel only serves to make the recursion
structural, `jsSplit` always supplies enough of it. -/
def jsSplitGo (sep : JStr) : ℕ → JStr → JStr → List JStr
  | 0, acc, s => [acc.reverse ++ s]
  | _ + 1, acc, [] => [acc.reverse]
  | fuel + 1, acc, c :: rest =>
    if sep.isPrefixOf (c :: rest) then
      acc.reverse :: jsSplitGo sep fuel [] (List.drop (sep.length - 1) rest)
    else
      jsSplitGo sep fuel (c :: acc) rest

/-- ECMAScript `String.prototype.split` with a string separator: splitting on the
empty separator yields the list of single-character strings (and `[]` on the
empty string), otherwise the string is cut at each occurrence of the separator. -/
def jsSplit (sep s : JStr) : List JStr :=
  if sep = [] then s.map (fun c => [c]) else jsSplitGo sep (s.length + 1) [] s

/-- The source's `HUMANIZED_NUM_RE` replacement (line 126/145): after every digit
that is followed (up to the end of the string) by a nonempty run of digits whose
length is a multiple of three, the order separator is inserted.  This is the
global replacement `integerPart.replace(/(\d)(?=(?:\d\x7b3\x7d)+$)/g, "$1" + orderSeparator)`. -/
def humanize (osep : JStr) : JStr → JStr
  | [] => []
  | c :: rest =>
    if c.isDigit ∧ rest ≠ [] ∧ rest.all Char.isDigit ∧ rest.length % 3 = 0 then
      c :: (osep ++ humanize osep rest)
    else
      c :: humanize osep rest

/-- The decimal digit character for `n % 10`. -/
def digitChar (n : ℕ) : Char := Char.ofNat (48 + n % 10)

/-- Numeric value of a decimal digit character. -/
def digitVal (c : Char) : ℕ := c.toNat - 48

/-- Value of a big-endian string of decimal digits. -/
def digitsVal (l : JStr) : ℕ := l.foldl (fun a c => 10 * a + digitVal c) 0

/-- Fuel-driven worker for `natDigits`. -/
def natDigitsGo : ℕ → ℕ → JStr
  | 0, _ => []
  | _ + 1, 0 => []
  | fuel + 1, n => natDigitsGo fuel (n / 10) ++ [digitChar n]

/-- The big-endian decimal digit string of a natural number, without leading
zeros (`"0"` for zero); this is ECMAScript `ToString` on small whole numbers. -/
def natDigits (n : ℕ) : JStr := if n = 0 then ['0'] else natDigitsGo n n

/-- ECMAScript `ToString` of an integer (used for the number-valued arguments
the source passes to its `lpad` helper). -/
def intDigits (n : ℤ) : JStr :=
  if n < 0 then '-' :: natDigits n.natAbs else natDigits n.natAbs

/-- The source's `lpad` helper (line 47): left-pad a string to the requested
length with copies of the padding character. -/
def lpad (str : JStr) (len : ℕ) (padchar : Char) : JStr :=
  List.replicate (len - str.length) padchar ++ str

/-! ## Embedded JavaScript numbers -/

/-- A JavaScript number: `NaN`, an infinity, or an ideal finite value. -/
inductive JSNum where
  | nan : JSNum
  | posInf : JSNum
  | negInf : JSNum
  | num : ℚ → JSNum
deriving DecidableEq

/-- Negation of a JavaScript number (for the sign of a parsed literal). -/
def JSNum.negate : JSNum → JSNum
  | .nan => .nan
  | .posInf => .negInf
  | .negInf => .posInf
  | .num q => .num (qneg q)

/-- Power of ten as a kernel-reducible rational, for scientific notation. -/
def qpow10 (e : ℤ) : ℚ :=
  if 0 ≤ e then mkRat ((10 : ℕ) ^ e.toNat : ℕ) 1 else mkRat 1 ((10 : ℕ) ^ (-e).toNat)

/-- A nonempty all-digit exponent digit string, as an integer. -/
def expDigits (d : JStr) : Option ℤ :=
  if d ≠ [] ∧ d.all Char.isDigit then some (digitsVal d) else none

/-- Parse the exponent suffix of a decimal literal (empty, or `e`/`E` with an
optionally signed digit string); `none` when malformed. -/
def parseExponent (r : JStr) : Option ℤ :=
  if r = [] then some 0
  else if r.head? = some 'e' ∨ r.head? = some 'E' then
    let t := r.tail
    if t.head? = some '+' then expDigits t.tail
    else if t.head? = some '-' then (expDigits t.tail).map (fun n => -n)
    else expDigits t
  else none

/-- Parse an ECMAScript `StrUnsignedDecimalLiteral`: `Infinity`, or decimal
digits with an optional fraction and exponent.  `none` when the string is not a
complete such literal. -/
def parseUnsignedDecimal (s : JStr) : Option JSNum :=
  if s = jstr "Infinity" then some .posInf
  else
    let ip := s.takeWhile Char.isDigit
    let r1 := s.dropWhile Char.isDigit
    let fp := if r1.head? = some '.' then r1.tail.takeWhile Char.isDigit else []
    let r2 := if r1.head? = some '.' then r1.tail.dropWhile Char.isDigit else r1
    if ip = [] ∧ fp = [] then none
    else
      match parseExponent r2 with
      | none => none
      | some e =>
        some (.num (qmul (mkRat (digitsVal (ip ++ fp) : ℕ) ((10 : ℕ) ^ fp.length)) (qpow10 e)))

/-- Is the character a digit of the given radix (16, 8 or 2)? -/
def isRadixDigit (radix : ℕ) (c : Char) : Bool :=
  if radix = 16 then
    c.isDigit ∨ ('a' ≤ c ∧ c ≤ 'f') ∨ ('A' ≤ c ∧ c ≤ 'F')
  else if radix = 8 then '0' ≤ c ∧ c ≤ '7'
  else c = '0' ∨ c = '1'

/-- Value of a radix digit character. -/
def radixDigitVal (c : Char) : ℕ :=
  if c.isDigit then digitVal c
  else if 'a' ≤ c ∧ c ≤ 'f' then c.toNat - 87
  else c.toNat - 55

/-- Parse the digits of a `0x`/`0o`/`0b` literal. -/
def parseRadix (radix : ℕ) (s : JStr) : JSNum :=
  if s ≠ [] ∧ s.all (isRadixDigit radix) then
    .num (mkRat (s.foldl (fun a c => radix * a + radixDigitVal c) 0 : ℕ) 1)
  else .nan

/-- An ECMAScript `StrDecimalLiteral` with optional sign; `NaN` when malformed. -/
def parseSignedDecimal (t : JStr) : JSNum :=
  if t.head? = some '+' then (parseUnsignedDecimal t.tail).getD .nan
  else if t.head? = some '-' then ((parseUnsignedDecimal t.tail).getD .nan).negate
  else (parseUnsignedDecimal t).getD .nan

/-- ECMAScript `ToNumber` applied to a string (the source's `1 * string`
coercions): trim whitespace, the empty string is `0`, a non-decimal integer
literal (`0x`, `0o`, `0b`, unsigned only) uses its radix, anything else is a
signed decimal literal, and any malformed input is `NaN`. -/
def jsStringToNumber (s : JStr) : JSNum :=
  let t := jsTrim s
  if t = [] then .num 0
  else if t.head? = some '0' ∧ (t[1]? = some 'x' ∨ t[1]? = some 'X') then
    parseRadix 16 (t.drop 2)
  else if t.head? = some '0' ∧ (t[1]? = some 'o' ∨ t[1]? = some 'O') then
    parseRadix 8 (t.drop 2)
  else if t.head? = some '0' ∧ (t[1]? = some 'b' ∨ t[1]? = some 'B') then
    parseRadix 2 (t.drop 2)
  else parseSignedDecimal t

/-- The rounding `Number.prototype.toFixed` performs: the magnitude is scaled by
`10 ^ d` and rounded to the nearest integer, ties away from zero (ECMA-262:
the sign is removed first, and of two equally near integers the larger is
chosen). -/
def toFixedScaled (d : ℕ) (q : ℚ) : ℕ :=
  (qfloor (qadd (qmul (qabs q) (qofInt ((10 : ℕ) ^ d : ℕ))) (mkRat 1 2))).toNat

/-- The digit part of `toFixed`: the scaled integer `m` printed with a decimal
point `d` digits from the right (no point when `d = 0`). -/
def fixedDigits (d : ℕ) (m : ℕ) : JStr :=
  natDigits (m / 10 ^ d) ++
    (if d = 0 then [] else '.' :: lpad (natDigits (m % 10 ^ d)) d '0')

/-- ECMAScript `Number.prototype.toFixed` on the embedded numbers.  `NaN` prints
as `"NaN"` and the infinities as `"±Infinity"`; a finite value is printed in
fixed notation with `d` fraction digits, rounding half away from zero.  (The
ECMA branch that falls back to `ToString` for magnitudes `≥ 10^21` is not
modelled; theorems about values that large would not transfer.) -/
def jsToFixed (d : ℕ) : JSNum → JStr
  | .nan => jstr "NaN"
  | .posInf => jstr "Infinity"
  | .negInf => '-' :: jstr "Infinity"
  | .num q => (if q.num < 0 then ['-'] else []) ++ fixedDigits d (toFixedScaled d q)

/-- ECMAScript `ToInt32` restricted to finite inputs (the source's `~~decimals`;
`NaN` and the infinities map to `0`). -/
def jsToInt32 : JSNum → ℤ
  | .num q => (qtrunc q + 2 ^ 31).emod (2 ^ 32) - 2 ^ 31
  | _ => 0

/-! ## The number formatter (`Backgrid.NumberFormatter`, lines 110-177) -/

namespace Backgrid

/-- The configuration state of a constructed `NumberFormatter` (`decimals`,
`decimalSeparator`, `orderSeparator`, after merging with the defaults). -/
structure NFConfig where
  decimals : ℚ
  decimalSeparator : JStr
  orderSeparator : JStr
deriving DecidableEq

/-- The `NumberFormatter` defaults (line 121). -/
def NFdefaults : NFConfig := ⟨mkRat 2 1, jstr ".", jstr ","⟩

/-- The effective number of decimals, `~~this.decimals` (line 141/170). -/
def decimalsN (cfg : NFConfig) : ℕ := (jsToInt32 (.num cfg.decimals)).toNat

namespace NumberFormatter

/-- `NumberFormatter.prototype.fromRaw` (lines 137-146) on a number argument:
`NaN` maps to the empty string; otherwise the value is printed with `toFixed`,
split at the literal decimal point, the integer part is humanized with the
order separator and the fraction part re-attached behind the configured
decimal separator.  (The `null` argument and the TypeError on non-number
arguments are handled by `fromRawVal` below.) -/
def fromRaw (cfg : NFConfig) (number : JSNum) : JStr :=
  if number = .nan then []
  else
    let fixed := jsToFixed (decimalsN cfg) number
    let parts := jsSplit (jstr ".") fixed
    let integerPart := parts.headD []
    let decimalPart :=
      match parts.drop 1 with
      | p :: _ =>
        if p = [] then []
        else (if cfg.decimalSeparator = [] then jstr "." else cfg.decimalSeparator) ++ p
      | [] => []
    humanize cfg.orderSeparator integerPart ++ decimalPart

/-- `NumberFormatter.prototype.toRaw` (lines 156-176): concatenate the pieces
obtained by splitting on the order separator, re-join the pieces obtained by
splitting on the decimal separator with literal dots (stripping the one
trailing dot the loop adds), coerce to a number, round through `toFixed` and
coerce again; `undefined` (here `none`) exactly when the result is `NaN`. -/
def toRaw (cfg : NFConfig) (formattedData : JStr) : Option JSNum :=
  let thousands := jsSplit cfg.orderSeparator (jsTrim formattedData)
  let rawData1 := thousands.foldl (· ++ ·) ([] : JStr)
  let decimalParts := jsSplit cfg.decimalSeparator rawData1
  let rawData2 := decimalParts.foldl (fun acc p => acc ++ p ++ ['.']) ([] : JStr)
  let rawData3 := if rawData2.getLast? = some '.' then rawData2.dropLast else rawData2
  let result := jsStringToNumber (jsToFixed (decimalsN cfg) (jsStringToNumber rawData3))
  if result = .nan then none else some result

end NumberFormatter

end Backgrid

/-- Specification-side reference definition: `n` rounded to `d` decimal places,
rounding half away from zero (the spec's "standard round-half-away-from-zero"). -/
def roundHalfAway (d : ℕ) (q : ℚ) : ℚ :=
  (if q < 0 then -1 else 1) * (⌊|q| * 10 ^ d + 1 / 2⌋ : ℚ) / 10 ^ d

/-- Proof-side helper for the decimal-separator re-join loop in
`NumberFormatter.toRaw`: join a list of strings with single dots. -/
def joinDots : List JStr → JStr
  | [] => []
  | [p] => p
  | p :: q :: rest => p ++ '.' :: joinDots (q :: rest)

/-! ## The header cell sort cycle (`Backgrid.HeaderCell`, lines 1241-1353) -/

namespace Backgrid

/-- Sort direction of a header cell; the initial `null` state is `none` at the
`Option` level. -/
inductive SortDirection where
  | ascending
  | descending
deriving DecidableEq

/-- A sort-event comparator as emitted by `HeaderCell.triggerSort`: a three-way
function over two records, where a record is modelled by its `get` function
from column names to (integer) values. -/
abbrev SortComparator := (String → ℤ) → (String → ℤ) → ℤ

/-- The comparator closure emitted together with the `"ascending"` direction
(lines 1328-1339): `0` when the two records' values for the column are equal
(`===`), `-1` when the left value is smaller, `1` otherwise. -/
def ascComparator (columnName : String) : SortComparator := fun left right =>
  let leftVal := left columnName
  let rightVal := right columnName
  if leftVal = rightVal then 0 else if leftVal < rightVal then -1 else 1

/-- The comparator closure emitted together with the `"descending"` direction
(lines 1312-1323): `0` on equality, `-1` when the left value is greater, `1`
otherwise. -/
def descComparator (columnName : String) : SortComparator := fun left right =>
  let leftVal := left columnName
  let rightVal := right columnName
  if leftVal = rightVal then 0 else if leftVal > rightVal then -1 else 1

/-- The payload of the Backbone `sort` event fired by `triggerSort`:
`(comparator, columnName, direction)`, where the third-click event carries a
`null` comparator and `null` direction. -/
structure SortEvent where
  comparator : Option SortComparator
  columnName : String
  direction : Option SortDirection

/-- `HeaderCell.triggerSort` (lines 1299-1343) as a function of the cell's
current direction, its column's `sortable` flag and name: nothing is fired when
the column is not sortable; from `"ascending"` the descending comparator is
fired with direction `"descending"`; from `"descending"` a `null` comparator
with `null` direction; from any other state (the initial `null`) the ascending
comparator with direction `"ascending"`. -/
def HeaderCell.triggerSort (direction : Option SortDirection) (sortable : Bool)
    (columnName : String) : Option SortEvent :=
  if sortable then
    if direction = some .ascending then
      some ⟨some (descComparator columnName), columnName, some .descending⟩
    else if direction = some .descending then
      some ⟨none, columnName, none⟩
    else
      some ⟨some (ascComparator columnName), columnName, some .ascending⟩
  else none

/-- `HeaderCell.toggle` (lines 1277-1288): when the sort event's column name
matches the cell's column, the fired direction is stored; otherwise the stored
direction resets to `null`. -/
def HeaderCell.toggle (columnName : String) (direction : Option SortDirection)
    (cellColumnName : String) : Option SortDirection :=
  if columnName = cellColumnName then direction else none

/-- One click on a header cell's sort anchor: fire `triggerSort` and, as
`Header.dispatchSortEvent` (lines 1419-1424) does, feed the fired column name
and direction back into the cell through `toggle`.  Returns the cell's new
stored direction together with the fired event. -/
def HeaderCell.step (direction : Option SortDirection) (sortable : Bool)
    (columnName : String) : Option SortDirection × Option SortEvent :=
  match HeaderCell.triggerSort direction sortable columnName with
  | none => (direction, none)
  | some ev => (HeaderCell.toggle ev.columnName ev.direction columnName, some ev)

end Backgrid

/-! ## Constructors and their validation (claim C7) -/

/-- Kernel-reducible strict comparison on `ℚ` (cross-multiplication of the
normalised fractions). -/
def qblt (a b : ℚ) : Bool := a.num * (b.den : ℤ) < b.num * (a.den : ℤ)

namespace Backgrid

/-- Options hash for the `NumberFormatter` constructor; absent keys fall back
to the defaults when `_.extend(this, this.defaults, options)` merges them. -/
structure NFOptions where
  decimals : Option ℚ := none
  decimalSeparator : Option JStr := none
  orderSeparator : Option JStr := none

/-- The `NumberFormatter` constructor (lines 110-116): merge defaults and
options, then throw a `RangeError` when the merged `decimals` is below 0 or
above 20; the error is modelled as `Except.error`. -/
def NumberFormatter.construct (options : NFOptions) : Except String NFConfig :=
  let cfg : NFConfig :=
    ⟨options.decimals.getD NFdefaults.decimals,
     options.decimalSeparator.getD NFdefaults.decimalSeparator,
     options.orderSeparator.getD NFdefaults.orderSeparator⟩
  if qblt cfg.decimals (qofInt 0) || qblt (qofInt 20) cfg.decimals then
    Except.error "decimals must be between 0 and 20"
  else
    Except.ok cfg

/-- Configuration of a constructed `DatetimeFormatter`. -/
structure DTConfig where
  includeDate : Bool
  includeTime : Bool
  includeMilli : Bool
deriving DecidableEq

/-- The `DatetimeFormatter` defaults (lines 209-213). -/
def DTdefaults : DTConfig := ⟨true, true, false⟩

/-- Options hash for the `DatetimeFormatter` constructor. -/
structure DTOptions where
  includeDate : Option Bool := none
  includeTime : Option Bool := none
  includeMilli : Option Bool := none

/-- The `DatetimeFormatter` constructor (lines 198-204): merge defaults and
options, then throw when both `includeDate` and `includeTime` are false. -/
def DatetimeFormatter.construct (options : DTOptions) : Except String DTConfig :=
  let cfg : DTConfig :=
    ⟨options.includeDate.getD DTdefaults.includeDate,
     options.includeTime.getD DTdefaults.includeTime,
     options.includeMilli.getD DTdefaults.includeMilli⟩
  if !cfg.includeDate && !cfg.includeTime then
    Except.error "Either includeDate or includeTime must be true"
  else
    Except.ok cfg

/-- A `cell` attribute value: either a type-name string that is looked up on
the `Backgrid` module object, or a cell class supplied directly. -/
inductive CellValue where
  | typeName (s : JStr)
  | cellClass
deriving DecidableEq

/-- The attributes hash passed to the `Column` constructor.  A missing key is
`none`; JavaScript falsiness additionally makes the empty string count as
absent in the `!attrs.cell` / `!attrs.name` checks. -/
structure ColumnAttrs where
  name : Option JStr := none
  cell : Option CellValue := none
  label : Option JStr := none

/-- JavaScript falsiness of an optional string (`undefined` or `""`). -/
def jsFalsyStr : Option JStr → Bool
  | none => true
  | some s => s.isEmpty

/-- JavaScript falsiness of the `cell` attribute. -/
def jsFalsyCell : Option CellValue → Bool
  | none => true
  | some (.typeName s) => s.isEmpty
  | some .cellClass => false

/-- The source's `capitalize` helper (line 43): subtract 32 from the first
character code. -/
def jsCapitalize : JStr → JStr
  | [] => []
  | c :: t => Char.ofNat (c.toNat - 32) :: t

/-- The cell classes registered on the `Backgrid` module object, i.e. the names
`Backgrid[capitalize(cell) + "Cell"]` can resolve. -/
def builtinCellClasses : List JStr :=
  [jstr "Cell", jstr "StringCell", jstr "UriCell", jstr "EmailCell", jstr "NumberCell",
   jstr "IntegerCell", jstr "DatetimeCell", jstr "DateCell", jstr "TimeCell",
   jstr "BooleanCell", jstr "SelectCell", jstr "HeaderCell"]

/-- The state of a successfully constructed `Column`. -/
structure ColumnState where
  name : JStr
  label : JStr
  cell : CellValue

/-- `Column.initialize` (lines 1123-1154): default the label to the name, throw
when the `cell` attribute is falsy, throw when the `name` attribute is falsy,
and resolve a string-valued `cell` against the `Backgrid` registry (throwing a
`ReferenceError` when the class is not found). -/
def Column.initializeAttrs (attrs : ColumnAttrs) : Except String ColumnState :=
  let name := attrs.name.getD []
  let label := attrs.label.getD name
  if jsFalsyCell attrs.cell then Except.error "cell is required"
  else if jsFalsyStr attrs.name then Except.error "name is required"
  else
    match attrs.cell with
    | some (.typeName s) =>
      if (jsCapitalize s ++ jstr "Cell") ∈ builtinCellClasses then
        Except.ok ⟨name, label, .typeName s⟩
      else
        Except.error "Cell type not found"
    | some .cellClass => Except.ok ⟨name, label, .cellClass⟩
    | none => Except.error "cell is required"

end Backgrid

/-! ## The cell editor commit machine (claim C6) -/

namespace Backgrid

/-- The mode of a `Cell`: display, or editing with an attached editor. -/
inductive CellMode where
  | display
  | editing
deriving DecidableEq

/-- Events `DivCellEditor.saveOrCancel` receives (lines 438-467): a `keydown`
with its key code (13 enter, 9 tab, 27 escape), or a `blur`. -/
inductive EditorEvent where
  | keydown (keyCode : ℕ)
  | blur
deriving DecidableEq

/-- A formatter as the editor sees it (the editing contract is
formatter-generic): a conversion pair over an abstract raw-value type. -/
structure EFormatter (V : Type) where
  fromRaw : V → JStr
  toRaw : JStr → Option V

/-- The combined state of one editing cell, its editor and the attribute store:
the model's attributes, the editor's current text, the cell's mode, its
`error` CSS marker, whether an editor instance is attached, the display text
last rendered, and a count of write attempts made on the store. -/
structure EditState (V : Type) where
  modelAttrs : String → V
  editorText : JStr
  mode : CellMode
  errorClass : Bool
  editorPresent : Bool
  displayText : JStr
  writes : ℕ

/-- `Backbone.Model.set` as the editor calls it (line 448): the store's own
validation may reject the write, in which case `set` returns false and the
attributes are unchanged; on acceptance the attribute is updated. -/
def modelSet (V : Type) (validate : String → V → Bool) (attrs : String → V)
    (name : String) (v : V) : (String → V) × Bool :=
  if validate name v then (fun n => if n = name then v else attrs n, true)
  else (attrs, false)

/-- `Cell.renderError` (lines 603-605): add the `error` CSS class; nothing else
changes — the editor stays attached and the mode stays `editing`. -/
def Cell.renderError (V : Type) (st : EditState V) : EditState V :=
  { st with errorClass := true }

/-- `Cell.exitEditMode` (lines 609-617): remove the `error` class, discard the
editor, re-render the display text from the (possibly updated) model value and
return to display mode. -/
def Cell.exitEditMode (V : Type) (fmt : EFormatter V) (column : String)
    (st : EditState V) : EditState V :=
  { st with errorClass := false, editorPresent := false, mode := .display,
            displayText := fmt.fromRaw (st.modelAttrs column) }

/-- `DivCellEditor.saveOrCancel` (lines 438-467) combined with the cell's
reaction to the `done` / `error` events it triggers (`exitEditMode` and
`renderError`, wired at lines 584-585): enter or tab converts the editor text
through the formatter and, when conversion succeeds, makes exactly one write
attempt on the store; escape restores the original text and exits without
mutation; blur does the same.  Returns the new combined state and the list of
events the editor triggered. -/
def DivCellEditor.saveOrCancel (V : Type) (validate : String → V → Bool)
    (fmt : EFormatter V) (column : String) (e : EditorEvent) (st : EditState V) :
    EditState V × List String :=
  match e with
  | .keydown code =>
    if code = 13 ∨ code = 9 then
      match fmt.toRaw st.editorText with
      | none => (Cell.renderError V st, ["error"])
      | some v =>
        let res := modelSet V validate st.modelAttrs column v
        let st2 := { st with modelAttrs := res.1, writes := st.writes + 1 }
        if res.2 then (Cell.exitEditMode V fmt column st2, ["done"])
        else (Cell.renderError V st2, ["error"])
    else if code = 27 then
      let st2 := { st with editorText := fmt.fromRaw (st.modelAttrs column) }
      (Cell.exitEditMode V fmt column st2, ["done"])
    else (st, [])
  | .blur =>
    let st2 := { st with editorText := fmt.fromRaw (st.modelAttrs column) }
    (Cell.exitEditMode V fmt column st2, ["done"])

end Backgrid

/-! ## The ECMAScript date model (`Date`, ES5.1 section 15.9.1), used by the
`DatetimeFormatter` (claims C4 and C5).  Time values are integers counting
milliseconds from the 1970 epoch; the host's local offset is modelled as a
fixed integer `L` of milliseconds (`LocalTZA` with no daylight-saving
adjustment). -/

def msPerDay : ℤ := 86400000

/-- ES5 `DayFromYear`: the day number of January 1 of year `y`. -/
def dayFromYear (y : ℤ) : ℤ :=
  365 * (y - 1970) + (y - 1969) / 4 - (y - 1901) / 100 + (y - 1601) / 400

/-- ES5 `InLeapYear`, phrased on the year number. -/
def inLeapYear (y : ℤ) : Bool :=
  (y % 4 = 0 ∧ ¬(y % 100 = 0)) ∨ y % 400 = 0

/-- First day-within-year of month `m` (`0 ≤ m ≤ 11`; `12` gives the year
length), from ES5 `DayWithinYear`/`MonthFromTime`'s cumulative bounds. -/
def monthStart (leap : Bool) (m : ℤ) : ℤ :=
  let f : ℤ := if leap then 1 else 0
  if m ≤ 0 then 0
  else if m = 1 then 31
  else if m = 2 then 59 + f
  else if m = 3 then 90 + f
  else if m = 4 then 120 + f
  else if m = 5 then 151 + f
  else if m = 6 then 181 + f
  else if m = 7 then 212 + f
  else if m = 8 then 243 + f
  else if m = 9 then 273 + f
  else if m = 10 then 304 + f
  else if m = 11 then 334 + f
  else 365 + f

/-- ES5 `MonthFromTime` on a day-within-year `w` (`0 ≤ w <` year length). -/
def monthFromDayWithinYear (leap : Bool) (w : ℤ) : ℤ :=
  let f : ℤ := if leap then 1 else 0
  if w < 31 then 0
  else if w < 59 + f then 1
  else if w < 90 + f then 2
  else if w < 120 + f then 3
  else if w < 151 + f then 4
  else if w < 181 + f then 5
  else if w < 212 + f then 6
  else if w < 243 + f then 7
  else if w < 273 + f then 8
  else if w < 304 + f then 9
  else if w < 334 + f then 10
  else 11

/-- ES5 `YearFromTime`, phrased on day numbers: the unique `y` with
`dayFromYear y ≤ d < dayFromYear (y + 1)`, computed from a linear estimate
and a bounded correction. -/
def yearFromDay (d : ℤ) : ℤ :=
  let g := 1970 + 400 * d / 146097
  if dayFromYear (g + 1) ≤ d then g + 1
  else if dayFromYear g ≤ d then g
  else g - 1

/-- The day number of time value `t` (ES5 `Day(t) = floor(t / msPerDay)`). -/
def jsDayOf (t : ℤ) : ℤ := t / msPerDay

/-- The millisecond within the day of time value `t` (ES5 `TimeWithinDay`). -/
def msWithinDay (t : ℤ) : ℤ := t % msPerDay

/-- `getUTCFullYear` of a time value. -/
def jsYearOf (t : ℤ) : ℤ := yearFromDay (jsDayOf t)

/-- The day within the year of a time value. -/
def jsDayWithinYear (t : ℤ) : ℤ := jsDayOf t - dayFromYear (jsYearOf t)

/-- `getUTCMonth` of a time value (0-based month). -/
def jsMonthOf (t : ℤ) : ℤ :=
  monthFromDayWithinYear (inLeapYear (jsYearOf t)) (jsDayWithinYear t)

/-- `getUTCDate` of a time value (1-based day of month, ES5 `DateFromTime`). -/
def jsDateOf (t : ℤ) : ℤ :=
  jsDayWithinYear t - monthStart (inLeapYear (jsYearOf t)) (jsMonthOf t) + 1

/-- `getUTCHours` of a time value. -/
def jsHoursOf (t : ℤ) : ℤ := msWithinDay t / 3600000

/-- `getUTCMinutes` of a time value. -/
def jsMinutesOf (t : ℤ) : ℤ := msWithinDay t / 60000 % 60

/-- `getUTCSeconds` of a time value. -/
def jsSecondsOf (t : ℤ) : ℤ := msWithinDay t / 1000 % 60

/-- `getUTCMilliseconds` of a time value. -/
def jsMillisOf (t : ℤ) : ℤ := msWithinDay t % 1000

/-- ES5 `MakeTime` with integral hour/minute/second and a (possibly
fractional) millisecond argument; `ToInteger` truncates the milliseconds. -/
def MakeTime (h m s : ℤ) (milli : ℚ) : ℤ :=
  h * 3600000 + m * 60000 + s * 1000 + qtrunc milli

/-- ES5 `MakeDay`: year plus an arbitrary integral month (overflow rolls into
the year) plus a 1-based day that may also overflow its month. -/
def MakeDay (y m dt : ℤ) : ℤ :=
  let ym := y + m / 12
  let mn := m % 12
  dayFromYear ym + monthStart (inLeapYear ym) mn + dt - 1

/-- ES5 `MakeDate`. -/
def MakeDate (day time : ℤ) : ℤ := day * msPerDay + time

/-- ES5 `TimeClip`: a time value farther than 8.64e15 from the epoch is an
invalid date (`NaN`, modelled `none`). -/
def TimeClip (t : ℤ) : Option ℤ :=
  if t ≤ 8640000000000000 ∧ -8640000000000000 ≤ t then some t else none

/-- The two-digit-year remapping both `Date.UTC` and the `Date` constructor
apply: integral years 0 through 99 mean 1900 through 1999. -/
def remapYear (y : ℤ) : ℤ := if 0 ≤ y ∧ y ≤ 99 then 1900 + y else y

/-- `Date.UTC(y, mon, d, h, mi, s, ms)` (ES5 15.9.4.3) followed by the `Date`
constructor on its result: the clipped UTC time value of the given fields. -/
def jsDateUTC (y mon d h mi s : ℤ) (ms : ℚ) : Option ℤ :=
  TimeClip (MakeDate (MakeDay (remapYear y) mon d) (MakeTime h mi s ms))

/-- `new Date(y, mon, d, h, mi, s, ms)` (ES5 15.9.3.1): the fields denote
local time, so the fixed local offset `L` is subtracted to reach UTC. -/
def jsDateLocal (L : ℤ) (y mon d h mi s : ℤ) (ms : ℚ) : Option ℤ :=
  TimeClip (MakeDate (MakeDay (remapYear y) mon d) (MakeTime h mi s ms) - L)

/-! ## The datetime formatter (`Backgrid.DatetimeFormatter`, lines 198-311) -/

/-- `String.prototype.split` on `ISO_SPLITTER_RE` (`/T|Z| +/`, line 217): the
string is cut at each single `T` or `Z` and at each maximal run of spaces
(fueled structural recursion; the fuel bounds the remaining length). -/
def isoSplitGo : ℕ → JStr → JStr → List JStr
  | 0, acc, _ => [acc.reverse]
  | _ + 1, acc, [] => [acc.reverse]
  | fuel + 1, acc, c :: rest =>
    if c = 'T' ∨ c = 'Z' then acc.reverse :: isoSplitGo fuel [] rest
    else if c = ' ' then
      acc.reverse :: isoSplitGo fuel [] (rest.dropWhile (fun x => x = ' '))
    else isoSplitGo fuel (c :: acc) rest

/-- `rawData.split(this.ISO_SPLITTER_RE)` (lines 230/266). -/
def isoSplit (s : JStr) : List JStr := isoSplitGo s.length [] s

/-- `DATE_RE.exec` (line 214, pattern `[+-]?dddd-dd-dd` anchored): the year
(with its sign), month and day capture strings on success. -/
def matchDATE (s : JStr) : Option (JStr × JStr × JStr) :=
  let sgn : JStr :=
    match s.head? with
    | some c => if c = '+' ∨ c = '-' then [c] else []
    | none => []
  let r := s.drop sgn.length
  if r.length = 10 ∧ (r.take 4).all Char.isDigit ∧ r[4]? = some '-' ∧
      ((r.drop 5).take 2).all Char.isDigit ∧ r[7]? = some '-' ∧
      ((r.drop 8).take 2).all Char.isDigit then
    some (sgn ++ r.take 4, (r.drop 5).take 2, (r.drop 8).take 2)
  else none

/-- `TIME_RE.exec` (line 215, pattern `dd:dd:dd(.ddd)?` anchored): hour, minute
and second capture strings, plus the optional millisecond capture, which keeps
its leading dot exactly as the regex group does. -/
def matchTIME (s : JStr) : Option (JStr × JStr × JStr × Option JStr) :=
  if (s.length = 8 ∨ s.length = 12) ∧ (s.take 2).all Char.isDigit ∧
      s[2]? = some ':' ∧ ((s.drop 3).take 2).all Char.isDigit ∧ s[5]? = some ':' ∧
      ((s.drop 6).take 2).all Char.isDigit ∧
      (s.length = 8 ∨ (s[8]? = some '.' ∧ (s.drop 9).all Char.isDigit)) then
    some (s.take 2, (s.drop 3).take 2, (s.drop 6).take 2,
      if s.length = 12 then some (s.drop 8) else none)
  else none

/-- `ZONE_RE.exec` (line 216, pattern `[+-]dd:?dd` anchored): the signed-hour
and the minute capture strings. -/
def matchZONE (s : JStr) : Option (JStr × JStr) :=
  match s.head? with
  | some c =>
    if (c = '+' ∨ c = '-') ∧ ((s.drop 1).take 2).all Char.isDigit ∧
        ((s.length = 5 ∧ (s.drop 3).all Char.isDigit) ∨
          (s.length = 6 ∧ s[3]? = some ':' ∧ (s.drop 4).all Char.isDigit)) then
      some (c :: (s.drop 1).take 2, if s.length = 5 then s.drop 3 else s.drop 4)
    else none
  | none => none

/-- `1 * capture || 0` on a regex capture (lines 237-239/287-289): a missing
capture is `NaN`, which `|| 0` turns into 0; a present capture is parsed by
the string-number grammar.  The matchers above only produce short digit
captures, so a present capture has an integral, non-infinite value, which
`|| 0` preserves (the `NaN` fallback arm realizes `|| 0`). -/
def capIntOr0 (c : Option JStr) : ℤ :=
  match c with
  | none => 0
  | some s =>
    match jsStringToNumber s with
    | .num q => qtrunc q
    | _ => 0

/-- `1 * YYYYMMDD[2] - 1 || 0` (the month argument): a missing capture gives
`NaN - 1 = NaN`, hence 0; a present digit capture gives its value minus one
(a zero result is re-created by `|| 0`). -/
def capMonthArg (c : Option JStr) : ℤ :=
  match c with
  | none => 0
  | some s =>
    (match jsStringToNumber s with
      | .num q => qtrunc q
      | _ => 1) - 1

/-- `1 * HHmmssSSS[4] || null` (the millisecond argument): the capture keeps
its dot, so a present capture such as `".123"` has the fractional value
`0.123` (which `MakeTime`'s `ToInteger` later truncates to 0); a missing
capture is `null`, i.e. 0, as is a `".000"` capture via `|| null`. -/
def capMilliArg (c : Option JStr) : ℚ :=
  match c with
  | none => 0
  | some s =>
    match jsStringToNumber s with
    | .num q => q
    | _ => 0

/-- A getter result printed as the source's string coercion does: an invalid
date's getters are `NaN`, printing as `"NaN"`. -/
def optInt (v : Option ℤ) : JStr :=
  match v with
  | some n => intDigits n
  | none => jstr "NaN"

/-- `lpad(getter, w, 0)` (lines 242-247/295-303). -/
def renderNum (v : Option ℤ) (w : ℕ) : JStr := lpad (optInt v) w '0'

/-- JavaScript truthiness of a possibly-undefined string. -/
def truthyOpt : Option JStr → Bool
  | none => false
  | some s => ¬(s = [])

namespace Backgrid

namespace DatetimeFormatter

/-- `DatetimeFormatter.prototype.fromRaw` (lines 228-251): trim, split on the
ISO splitter, distribute the parts to date/time/zone slots, run the three
regexes (a missing part, like a failed match, contributes empty captures),
build a UTC time value from the fields with the zone offset ADDED to the
clock fields, and render the local fields (`t + L` for the fixed local offset
`L`) of the result, space-joined, with no zone designator. -/
def fromRaw (cfg : DTConfig) (L : ℤ) (rawData : JStr) : JStr :=
  let parts := isoSplit (jsTrim rawData)
  let date : JStr := if cfg.includeDate then parts.headD [] else []
  let time : Option JStr := if cfg.includeDate then parts[1]? else some (parts.headD [])
  let zone : Option JStr := if cfg.includeDate then parts[2]? else some (parts.getD 1 [])
  let YYYYMMDD := matchDATE date
  let HHmmssSSS := time.bind matchTIME
  let zzZZ := zone.bind matchZONE
  let zh := capIntOr0 (zzZZ.map (fun z => z.1))
  let zm := capIntOr0 (zzZZ.map (fun z => z.2))
  let t? := jsDateUTC (capIntOr0 (YYYYMMDD.map (fun z => z.1)))
      (capMonthArg (YYYYMMDD.map (fun z => z.2.1)))
      (capIntOr0 (YYYYMMDD.map (fun z => z.2.2)))
      (capIntOr0 (HHmmssSSS.map (fun z => z.1)) + zh)
      (capIntOr0 (HHmmssSSS.map (fun z => z.2.1)) + zm)
      (capIntOr0 (HHmmssSSS.map (fun z => z.2.2.1)))
      (capMilliArg (HHmmssSSS.bind (fun z => z.2.2.2)))
  let tl := t?.map (fun t => t + L)
  (if cfg.includeDate then
      renderNum (tl.map jsYearOf) 4 ++ jstr "-" ++
      renderNum (tl.map (fun t => jsMonthOf t + 1)) 2 ++ jstr "-" ++
      renderNum (tl.map jsDateOf) 2
    else []) ++
  (if cfg.includeTime then
      jstr " " ++ renderNum (tl.map jsHoursOf) 2 ++ jstr ":" ++
      renderNum (tl.map jsMinutesOf) 2 ++ jstr ":" ++
      renderNum (tl.map jsSecondsOf) 2 ++
      (if cfg.includeMilli then jstr "." ++ renderNum (tl.map jsMillisOf) 3 else [])
    else [])

/-- `DatetimeFormatter.prototype.toRaw` (lines 264-310): like `fromRaw`, but a
required segment that fails its regex, or a present segment excluded by the
configuration, yields `undefined`; with a matched zone the fields are treated
as UTC (the zone offset again ADDED to the clock fields), without one they are
treated as local time (`L` subtracted); the result's UTC fields are rendered
with `T` and `Z` designators when both date and time are included. -/
def toRaw (cfg : DTConfig) (L : ℤ) (formattedData : JStr) : Option JStr :=
  let parts := isoSplit (jsTrim formattedData)
  let date : JStr := if cfg.includeDate then parts.headD [] else []
  let time : Option JStr := if cfg.includeDate then parts[1]? else some (parts.headD [])
  let zone : Option JStr := if cfg.includeDate then parts[2]? else some (parts.getD 1 [])
  let YYYYMMDD : Option (JStr × JStr × JStr) := matchDATE date
  let HHmmssSSS : Option (JStr × JStr × JStr × Option JStr) := time.bind matchTIME
  let zzZZ : Option (JStr × JStr) := zone.bind matchZONE
  let Y : ℤ := capIntOr0 (YYYYMMDD.map (fun w => w.1))
  let Mon : ℤ := capMonthArg (YYYYMMDD.map (fun w => w.2.1))
  let D : ℤ := capIntOr0 (YYYYMMDD.map (fun w => w.2.2))
  let hh : ℤ := capIntOr0 (HHmmssSSS.map (fun w => w.1))
  let mm : ℤ := capIntOr0 (HHmmssSSS.map (fun w => w.2.1))
  let ss : ℤ := capIntOr0 (HHmmssSSS.map (fun w => w.2.2.1))
  let msq : ℚ := capMilliArg (HHmmssSSS.bind (fun w => w.2.2.2))
  if cfg.includeDate ∧ YYYYMMDD = none then none
  else if cfg.includeTime ∧ HHmmssSSS = none then none
  else if ¬cfg.includeDate ∧ date ≠ [] then none
  else if ¬cfg.includeTime ∧ truthyOpt time then none
  else
    let t? : Option ℤ :=
      match zzZZ with
      | some z =>
        jsDateUTC Y Mon D (hh + capIntOr0 (some z.1)) (mm + capIntOr0 (some z.2)) ss msq
      | none => jsDateLocal L Y Mon D hh mm ss msq
    some (
      (if cfg.includeDate then
          renderNum (t?.map jsYearOf) 4 ++ jstr "-" ++
          renderNum (t?.map (fun t => jsMonthOf t + 1)) 2 ++ jstr "-" ++
          renderNum (t?.map jsDateOf) 2
        else []) ++
      (if cfg.includeTime then
          (if cfg.includeDate then jstr "T" else []) ++
          renderNum (t?.map jsHoursOf) 2 ++ jstr ":" ++
          renderNum (t?.map jsMinutesOf) 2 ++ jstr ":" ++
          renderNum (t?.map jsSecondsOf) 2 ++
          (if cfg.includeMilli then jstr "." ++ renderNum (t?.map jsMillisOf) 3 else []) ++
          (if cfg.includeDate then jstr "Z" else [])
        else []))

end DatetimeFormatter

end Backgrid

/-- Specification-side reference definition (for the refinement comparison in
claim C4): the UTC instant denoted by an ISO-8601 `YYYY-MM-DDTHH:mm:ss`
string carrying an explicit trailing `Z` or `±HH[:]MM` offset, with the
offset SUBTRACTED from the clock fields as ISO 8601 prescribes.  This is the
spec's reading, not the code's. -/
def specIsoInstant (s : JStr) : Option ℤ :=
  if s[10]? = some 'T' then
    match matchDATE (s.take 10), matchTIME ((s.drop 11).take 8) with
    | some (ys, mos, ds), some (hs, mis, ses, _) =>
      let rest := s.drop 19
      let off? : Option ℤ :=
        if rest = ['Z'] then some 0
        else
          match matchZONE rest with
          | some z =>
            some ((if z.1.head? = some '-' then (-1 : ℤ) else 1) *
              ((digitsVal (z.1.drop 1) : ℤ) * 3600000 + (digitsVal z.2 : ℤ) * 60000))
          | none => none
      off?.map (fun off =>
        MakeDate (MakeDay (digitsVal ys : ℤ) ((digitsVal mos : ℤ) - 1) (digitsVal ds : ℤ))
            (MakeTime (digitsVal hs : ℤ) (digitsVal mis : ℤ) (digitsVal ses : ℤ) 0) - off)
    | _, _ => none
  else none

/-! ## Concrete input and output shapes for the datetime round-trip (C4) -/

/-- The sign factor of a rendered zone offset. -/
def zsignum (neg : Bool) : ℤ := if neg then -1 else 1

/-- A `YYYY-MM-DDTHH:mm:ss ±ZH:ZM` input built from numeric fields (zero-padded
to the fixed widths the formatter's regexes require). -/
def mkDTInput (Y Mo D h mi se : ℕ) (neg : Bool) (zh zm : ℕ) : JStr :=
  lpad (natDigits Y) 4 '0' ++ '-' :: lpad (natDigits Mo) 2 '0' ++
    '-' :: lpad (natDigits D) 2 '0' ++
  'T' :: lpad (natDigits h) 2 '0' ++ ':' :: lpad (natDigits mi) 2 '0' ++
    ':' :: lpad (natDigits se) 2 '0' ++
  ' ' :: (if neg then '-' else '+') :: lpad (natDigits zh) 2 '0' ++
    ':' :: lpad (natDigits zm) 2 '0'

/-- The UTC time value `fromRaw` builds from such an input: the zone offset is
ADDED to the clock fields (the source's sign convention; ISO 8601 would
subtract it), and the minute offset is added unsigned (the regex's second
capture group excludes the sign). -/
def dtInstant (Y Mo D h mi se : ℕ) (neg : Bool) (zh zm : ℕ) : ℤ :=
  MakeDate (MakeDay (Y : ℤ) ((Mo : ℤ) - 1) (D : ℤ))
    (MakeTime ((h : ℤ) + zsignum neg * (zh : ℤ)) ((mi : ℤ) + (zm : ℤ)) (se : ℤ) 0)

/-- The local-time string `fromRaw` renders for a valid time value `u` (already
shifted by the local offset), with the defaults' space joint and no zone. -/
def localRender (u : ℤ) : JStr :=
  renderNum (some (jsYearOf u)) 4 ++ '-' :: renderNum (some (jsMonthOf u + 1)) 2 ++
  '-' :: renderNum (some (jsDateOf u)) 2 ++ ' ' :: renderNum (some (jsHoursOf u)) 2 ++
  ':' :: renderNum (some (jsMinutesOf u)) 2 ++ ':' :: renderNum (some (jsSecondsOf u)) 2

/-- The ISO UTC string `toRaw` renders for a valid time value `t` under the
default configuration (`T` joint, trailing `Z`). -/
def isoUTC (t : ℤ) : JStr :=
  renderNum (some (jsYearOf t)) 4 ++ '-' :: renderNum (some (jsMonthOf t + 1)) 2 ++
  '-' :: renderNum (some (jsDateOf t)) 2 ++ 'T' :: renderNum (some (jsHoursOf t)) 2 ++
  ':' :: renderNum (some (jsMinutesOf t)) 2 ++ ':' :: renderNum (some (jsSecondsOf t)) 2 ++
  ['Z']

/-! ## Raw JavaScript values and the formatters on them (claim C5) -/

/-- A JavaScript value appearing as a cell's raw data: `null`, `undefined`, a
number, or a string.  Wrappers below return `Option`, with `none` modelling a
thrown exception. -/
inductive JSVal where
  | vNull : JSVal
  | vUndefined : JSVal
  | vNum : JSNum → JSVal
  | vStr : JStr → JSVal
deriving DecidableEq

/-- The global `isNaN` (ECMA-262): `ToNumber`, then the NaN test.
`ToNumber(null) = 0`, `ToNumber(undefined) = NaN`, strings go through the
string-number grammar. -/
def jsIsNaN (v : JSVal) : Bool :=
  match v with
  | .vNull => false
  | .vUndefined => true
  | .vNum x => x = JSNum.nan
  | .vStr s => jsStringToNumber s = JSNum.nan

/-- The smallest number of decimal digits after the point that expresses
`1 / den` exactly, searched up to 1100 digits (enough for every dyadic
denominator an IEEE-754 double can have); 0 when there is none in range. -/
def findDecExp (den : ℕ) : ℕ :=
  ((List.range 1100).find? (fun k => 10 ^ k % den = 0)).getD 0

/-- JavaScript `ToString` on a number, idealised to the embedding's exact
rationals: `NaN` and the infinities print their names, and a finite value
prints its exact decimal expansion without trailing zeros (ECMA-262 prints
the shortest decimal denoting the double; on the ideal rationals of this
embedding the exact expansion plays that role; the exponent notations for
magnitudes outside the fixed-notation range are not modelled). -/
def jsNumToStr : JSNum → JStr
  | .nan => jstr "NaN"
  | .posInf => jstr "Infinity"
  | .negInf => '-' :: jstr "Infinity"
  | .num q =>
    let k := findDecExp q.den
    (if q.num < 0 then ['-'] else []) ++
      fixedDigits k (qmul (qabs q) (qofInt ((10 : ℕ) ^ k : ℕ))).num.toNat

namespace Backgrid

/-- The base `Formatter.prototype.fromRaw` (lines 77-79) on an arbitrary raw
value: the identity.  Total — it never throws (`none` would model a throw) —
though it returns the raw value itself, not necessarily a string. -/
def Formatter.fromRawVal (v : JSVal) : Option JSVal := some v

/-- `NumberFormatter.prototype.fromRaw` (lines 137-146) on an arbitrary raw
value: `isNaN(number) || null === number` yields `""`; any surviving value
receives `.toFixed(...)`, a method only numbers have, so a surviving
non-number (e.g. a string with a non-`NaN` numeric coercion) throws a
`TypeError`, modelled as `none`. -/
def NumberFormatter.fromRawVal (cfg : NFConfig) (v : JSVal) : Option JStr :=
  if jsIsNaN v ∨ v = .vNull then some []
  else
    match v with
    | .vNum x => some (NumberFormatter.fromRaw cfg x)
    | _ => none

/-- `DatetimeFormatter.prototype.fromRaw` (lines 228-251) on an arbitrary raw
value: the first step is `trim(rawData)`, i.e. `String.prototype.trim.call`,
which throws a `TypeError` on `null` and `undefined` (modelled `none`); a
string proceeds normally and a number is first coerced through `ToString`. -/
def DatetimeFormatter.fromRawVal (cfg : DTConfig) (L : ℤ) (v : JSVal) : Option JStr :=
  match v with
  | .vNull => none
  | .vUndefined => none
  | .vStr s => some (DatetimeFormatter.fromRaw cfg L s)
  | .vNum x => some (DatetimeFormatter.fromRaw cfg L (jsNumToStr x))

end Backgrid

/-! # Theorems -/

theorem qadd_eq (a b : ℚ) : qadd a b = a + b := by
  have ha : ((a.den : ℤ)) ≠ 0 := Int.natCast_ne_zero.mpr a.den_nz
  have hb : ((b.den : ℤ)) ≠ 0 := Int.natCast_ne_zero.mpr b.den_nz
  conv_rhs => rw [← Rat.num_divInt_den a, ← Rat.num_divInt_den b]
  rw [Rat.divInt_add_divInt _ _ ha hb, qadd, Rat.mkRat_eq_divInt]
  push_cast
  ring_nf

theorem qmul_eq (a b : ℚ) : qmul a b = a * b := by
  conv_rhs => rw [← Rat.num_divInt_den a, ← Rat.num_divInt_den b]
  rw [Rat.divInt_mul_divInt', qmul, Rat.mkRat_eq_divInt]
  push_cast
  ring_nf

theorem qneg_eq (a : ℚ) : qneg a = -a := by
  rw [qneg, Rat.mkRat_eq_divInt, Rat.neg_def]

theorem qabs_eq (a : ℚ) : qabs a = |a| := by
  rw [qabs, Rat.mkRat_eq_divInt]
  rcases le_or_lt 0 a.num with h | h
  · rw [Int.natAbs_of_nonneg h, Rat.num_divInt_den, abs_of_nonneg (Rat.num_nonneg.mp h)]
  · rw [Int.ofNat_natAbs_of_nonpos h.le, ← Rat.neg_divInt, Rat.num_divInt_den,
      abs_of_neg (by rw [← not_le, ← Rat.num_nonneg]; omega)]

theorem qfloor_eq (q : ℚ) : qfloor q = ⌊q⌋ := (Rat.floor_def).symm

theorem qofInt_eq (n : ℤ) : qofInt n = (n : ℚ) := by
  rw [qofInt, Rat.mkRat_eq_div]
  norm_num


/-! ## List and string lemmas -/

theorem foldl_append_eq_append_flatten (l : List JStr) (a : JStr) :
    l.foldl (· ++ ·) a = a ++ l.flatten := by
  induction l generalizing a with
  | nil => simp
  | cons x xs ih => simp [List.foldl_cons, ih, List.flatten]

theorem dropWhile_eq_self_of_forall {p : Char → Bool} {s : JStr}
    (h : ∀ c ∈ s, p c = false) : s.dropWhile p = s := by
  cases s with
  | nil => rfl
  | cons c t => simp [List.dropWhile, h c (by simp)]

theorem jsTrim_eq_self {s : JStr} (h : ∀ c ∈ s, isJsWhitespace c = false) :
    jsTrim s = s := by
  rw [jsTrim, dropWhile_eq_self_of_forall h, dropWhile_eq_self_of_forall (by
    intro c hc
    exact h c (List.mem_reverse.mp hc)), List.reverse_reverse]

theorem dropWhile_eq_nil_of_forall {p : Char → Bool} {s : JStr}
    (h : ∀ c ∈ s, p c = true) : s.dropWhile p = [] := by
  induction s with
  | nil => rfl
  | cons c t ih => simp [List.dropWhile, h c (by simp), ih (fun x hx => h x (by simp [hx]))]

theorem jsTrim_eq_nil_of_forall {s : JStr} (h : ∀ c ∈ s, isJsWhitespace c = true) :
    jsTrim s = [] := by
  rw [jsTrim, dropWhile_eq_nil_of_forall h]
  simp

/-- Splitting on a single character and concatenating the pieces removes exactly
the occurrences of that character. -/
theorem jsSplitGo_flatten_single (c : Char) :
    ∀ (fuel : ℕ) (s acc : JStr), s.length < fuel →
      (jsSplitGo [c] fuel acc s).flatten = acc.reverse ++ s.filter (· ≠ c) := by
  intro fuel
  induction fuel with
  | zero => intro s acc h; omega
  | succ fuel ih =>
    intro s acc h
    cases s with
    | nil => simp [jsSplitGo]
    | cons x rest =>
      by_cases hx : x = c
      · subst hx
        simp only [jsSplitGo, List.isPrefixOf, List.isPrefixOf_nil_left, Bool.and_true,
          beq_self_eq_true, if_pos]
        simp only [List.length, show (0 + 1 - 1 : ℕ) = 0 from rfl, List.drop_zero] at *
        simp only [List.flatten_cons]
        rw [ih rest [] (by omega)]
        simp [List.filter]
      · simp only [jsSplitGo, List.isPrefixOf, List.isPrefixOf_nil_left, Bool.and_true]
        rw [if_neg (by simp [beq_iff_eq]; exact fun h2 => hx h2.symm)]
        simp only [List.length] at h
        rw [ih rest (x :: acc) (by omega)]
        simp [List.filter, hx]

theorem jsSplit_flatten_single (c : Char) (s : JStr) :
    (jsSplit [c] s).flatten = s.filter (· ≠ c) := by
  rw [jsSplit, if_neg (by simp)]
  exact jsSplitGo_flatten_single c (s.length + 1) s [] (by omega)

/-- Splitting on a single character that does not occur leaves the string whole. -/
theorem jsSplitGo_not_mem (c : Char) :
    ∀ (fuel : ℕ) (s acc : JStr), s.length < fuel → (∀ x ∈ s, x ≠ c) →
      jsSplitGo [c] fuel acc s = [acc.reverse ++ s] := by
  intro fuel
  induction fuel with
  | zero => intro s acc h; omega
  | succ fuel ih =>
    intro s acc h hmem
    cases s with
    | nil => simp [jsSplitGo]
    | cons x rest =>
      simp only [jsSplitGo, List.isPrefixOf, List.isPrefixOf_nil_left, Bool.and_true]
      rw [if_neg (by simp [beq_iff_eq]; exact fun h2 => (hmem x (by simp)) h2.symm)]
      simp only [List.length] at h
      rw [ih rest (x :: acc) (by omega) (fun y hy => hmem y (by simp [hy]))]
      simp

theorem jsSplit_not_mem (c : Char) (s : JStr) (hmem : ∀ x ∈ s, x ≠ c) :
    jsSplit [c] s = [s] := by
  rw [jsSplit, if_neg (by simp)]
  simpa using jsSplitGo_not_mem c (s.length + 1) s [] (by omega) hmem

/-- Splitting on a single character occurring exactly once cuts the string in two. -/
theorem jsSplit_single_sep (c : Char) (a b : JStr)
    (ha : ∀ x ∈ a, x ≠ c) (hb : ∀ x ∈ b, x ≠ c) :
    jsSplit [c] (a ++ c :: b) = [a, b] := by
  rw [jsSplit, if_neg (by simp)]
  have main : ∀ (fuel : ℕ) (a acc : JStr), a.length + b.length + 1 < fuel →
      (∀ x ∈ a, x ≠ c) →
      jsSplitGo [c] fuel acc (a ++ c :: b) = [acc.reverse ++ a, b] := by
    intro fuel
    induction fuel with
    | zero => intro a acc h; omega
    | succ fuel ih =>
      intro a acc h hmem
      cases a with
      | nil =>
        simp only [List.nil_append, jsSplitGo, List.isPrefixOf, List.isPrefixOf_nil_left,
          Bool.and_true, beq_self_eq_true, if_pos]
        simp only [List.length, show (0 + 1 - 1 : ℕ) = 0 from rfl, List.drop_zero]
        rw [jsSplitGo_not_mem c fuel b [] (by simp at h; omega) hb]
        simp
      | cons x a2 =>
        simp only [List.cons_append, jsSplitGo, List.isPrefixOf, List.isPrefixOf_nil_left,
          Bool.and_true]
        rw [if_neg (by simp [beq_iff_eq]; exact fun h2 => (hmem x (by simp)) h2.symm)]
        simp only [List.length] at h
        simp only [List.append_eq]
        rw [ih a2 (x :: acc) (by omega) (fun y hy => hmem y (by simp [hy]))]
        simp
  simpa using main (a ++ c :: b).length.succ a []
    (by simp only [List.length_append, List.length_cons, Nat.succ_eq_add_one]; omega) ha

/-- `humanize` only inserts separator characters: filtering the separator
character out of the humanized string recovers the original (when the original
does not contain it). -/
theorem humanize_filter (c : Char) (s : JStr) (h : ∀ x ∈ s, x ≠ c) :
    (humanize [c] s).filter (· ≠ c) = s := by
  induction s with
  | nil => rfl
  | cons x rest ih =>
    have hx : x ≠ c := h x (by simp)
    have ihr := ih (fun y hy => h y (by simp [hy]))
    rw [humanize]
    by_cases hcond : x.isDigit ∧ rest ≠ [] ∧ rest.all Char.isDigit ∧ rest.length % 3 = 0
    · rw [if_pos hcond]
      simpa [List.filter, List.filter_append, hx] using ihr
    · rw [if_neg hcond]
      simpa [List.filter, hx] using ihr

/-! ## Digit and character lemmas -/

theorem jstr_dot : jstr "." = ['.'] := rfl

theorem jstr_comma : jstr "," = [','] := rfl

theorem digitVal_digitChar (n : ℕ) : digitVal (digitChar n) = n % 10 := by
  have h10 : n % 10 < 10 := Nat.mod_lt _ (by norm_num)
  rw [digitChar, digitVal]
  generalize n % 10 = k at h10 ⊢
  interval_cases k <;> rfl

theorem isDigit_digitChar (n : ℕ) : (digitChar n).isDigit = true := by
  have h10 : n % 10 < 10 := Nat.mod_lt _ (by norm_num)
  rw [digitChar]
  generalize n % 10 = k at h10
  interval_cases k <;> decide

theorem digitChar_props (n : ℕ) :
    isJsWhitespace (digitChar n) = false ∧ digitChar n ≠ '.' ∧ digitChar n ≠ ',' ∧
    digitChar n ≠ '-' ∧ digitChar n ≠ '+' ∧ digitChar n ≠ 'I' ∧ digitChar n ≠ 'e' ∧
    digitChar n ≠ 'E' ∧ digitChar n ≠ 'x' ∧ digitChar n ≠ 'X' ∧ digitChar n ≠ 'o' ∧
    digitChar n ≠ 'O' ∧ digitChar n ≠ 'b' ∧ digitChar n ≠ 'B' := by
  have h10 : n % 10 < 10 := Nat.mod_lt _ (by norm_num)
  rw [digitChar]
  generalize n % 10 = k at h10
  interval_cases k <;> exact (by decide)

theorem mem_natDigitsGo {c : Char} :
    ∀ {fuel n : ℕ}, c ∈ natDigitsGo fuel n → ∃ m, c = digitChar m := by
  intro fuel
  induction fuel with
  | zero => intro n h; simp [natDigitsGo] at h
  | succ fuel ih =>
    intro n h
    cases n with
    | zero => simp [natDigitsGo] at h
    | succ k =>
      have hunf : natDigitsGo (fuel + 1) (k + 1) =
          natDigitsGo fuel ((k + 1) / 10) ++ [digitChar (k + 1)] := rfl
      rw [hunf] at h
      rcases List.mem_append.mp h with h | h
      · exact ih h
      · exact ⟨k + 1, by simpa using h⟩

theorem mem_natDigits {c : Char} {n : ℕ} (h : c ∈ natDigits n) : ∃ m, c = digitChar m := by
  rw [natDigits] at h
  split at h
  · exact ⟨0, by simpa using h⟩
  · exact mem_natDigitsGo h

theorem foldl_digits (l : JStr) : ∀ init : ℕ,
    l.foldl (fun a c => 10 * a + digitVal c) init = init * 10 ^ l.length + digitsVal l := by
  induction l with
  | nil => intro init; simp [digitsVal]
  | cons c t ih =>
    intro init
    have h2 : digitsVal (c :: t) = digitVal c * 10 ^ t.length + digitsVal t := by
      rw [digitsVal, List.foldl_cons, ih]
      norm_num
    rw [List.foldl_cons, ih, h2, List.length_cons]
    ring

theorem digitsVal_cons (c : Char) (t : JStr) :
    digitsVal (c :: t) = digitVal c * 10 ^ t.length + digitsVal t := by
  rw [digitsVal, List.foldl_cons, foldl_digits]
  norm_num

theorem digitsVal_append (a b : JStr) :
    digitsVal (a ++ b) = digitsVal a * 10 ^ b.length + digitsVal b := by
  rw [digitsVal, List.foldl_append, ← digitsVal, foldl_digits]

theorem digitsVal_replicate_zero (k : ℕ) : digitsVal (List.replicate k '0') = 0 := by
  induction k with
  | zero => rfl
  | succ k ih =>
    rw [List.replicate_succ, digitsVal_cons, ih]
    simp [show digitVal '0' = 0 from rfl]

theorem digitsVal_natDigitsGo : ∀ fuel n, n ≤ fuel → digitsVal (natDigitsGo fuel n) = n := by
  intro fuel
  induction fuel with
  | zero => intro n h; interval_cases n; rfl
  | succ fuel ih =>
    intro n h
    cases n with
    | zero => rfl
    | succ k =>
      have hunf : natDigitsGo (fuel + 1) (k + 1) =
          natDigitsGo fuel ((k + 1) / 10) ++ [digitChar (k + 1)] := rfl
      rw [hunf, digitsVal_append, ih ((k + 1) / 10)
        (by have h2 : (k + 1) / 10 < k + 1 := Nat.div_lt_self (Nat.succ_pos k) (by norm_num); omega)]
      have h1 : digitsVal [digitChar (k + 1)] = (k + 1) % 10 := by
        rw [show [digitChar (k+1)] = digitChar (k+1) :: [] from rfl, digitsVal_cons,
          digitVal_digitChar]
        simp [digitsVal]
      rw [h1]
      simp only [List.length_cons, List.length_nil, pow_one, zero_add]
      omega

theorem digitsVal_natDigits (n : ℕ) : digitsVal (natDigits n) = n := by
  rw [natDigits]
  split
  · subst n; rfl
  · exact digitsVal_natDigitsGo n n le_rfl

theorem length_natDigitsGo_le : ∀ fuel n k, n < 10 ^ k → (natDigitsGo fuel n).length ≤ k := by
  intro fuel
  induction fuel with
  | zero => intro n k h; simp [natDigitsGo]
  | succ fuel ih =>
    intro n k h
    cases n with
    | zero => simp [natDigitsGo]
    | succ m =>
      have hunf : natDigitsGo (fuel + 1) (m + 1) =
          natDigitsGo fuel ((m + 1) / 10) ++ [digitChar (m + 1)] := rfl
      rw [hunf]
      have hk : k ≠ 0 := by
        intro h0
        subst h0
        norm_num at h
      obtain ⟨k2, rfl⟩ : ∃ k2, k = k2 + 1 := ⟨k - 1, by omega⟩
      have hdiv : (m + 1) / 10 < 10 ^ k2 := by
        rw [Nat.div_lt_iff_lt_mul (by norm_num)]
        calc m + 1 < 10 ^ (k2 + 1) := h
        _ = 10 ^ k2 * 10 := by ring
      have := ih ((m + 1) / 10) k2 hdiv
      simp only [List.length_append, List.length_cons, List.length_nil]
      omega

theorem length_natDigits_le {n k : ℕ} (hk : 1 ≤ k) (h : n < 10 ^ k) :
    (natDigits n).length ≤ k := by
  rw [natDigits]
  split
  · simpa using hk
  · exact length_natDigitsGo_le n n k h

theorem natDigits_all_digit {c : Char} {n : ℕ} (h : c ∈ natDigits n) : c.isDigit = true := by
  obtain ⟨m, rfl⟩ := mem_natDigits h
  exact isDigit_digitChar m

theorem natDigits_ne_nil (n : ℕ) : natDigits n ≠ [] := by
  rw [natDigits]
  split
  · simp
  · rename_i h
    obtain ⟨m, rfl⟩ : ∃ m, n = m + 1 := ⟨n - 1, by omega⟩
    have hunf : natDigitsGo (m + 1) (m + 1) =
        natDigitsGo m ((m + 1) / 10) ++ [digitChar (m + 1)] := rfl
    rw [hunf]
    simp

/-! ## takeWhile and dropWhile lemmas -/

theorem takeWhile_all_true {p : Char → Bool} {l : JStr} (hl : ∀ x ∈ l, p x = true) :
    l.takeWhile p = l ∧ l.dropWhile p = [] := by
  induction l with
  | nil => simp
  | cons x t ih =>
    have hx := hl x (by simp)
    have iht := ih (fun y hy => hl y (by simp [hy]))
    simp [List.takeWhile, List.dropWhile, hx, iht.1, iht.2]

theorem takeWhile_append_stop {p : Char → Bool} {l r : JStr} {c : Char}
    (hl : ∀ x ∈ l, p x = true) (hc : p c = false) :
    (l ++ c :: r).takeWhile p = l ∧ (l ++ c :: r).dropWhile p = c :: r := by
  induction l with
  | nil => simp [List.takeWhile, List.dropWhile, hc]
  | cons x t ih =>
    have hx := hl x (by simp)
    have iht := ih (fun y hy => hl y (by simp [hy]))
    simp [List.takeWhile, List.dropWhile, hx, iht.1, iht.2]

/-! ## Lemmas about the split and re-join stages of `NumberFormatter.toRaw` -/

theorem jsSplitGo_ne_nil (sep : JStr) :
    ∀ (fuel : ℕ) (acc s : JStr), jsSplitGo sep fuel acc s ≠ [] := by
  intro fuel
  induction fuel with
  | zero => intro acc s; simp [jsSplitGo]
  | succ fuel ih =>
    intro acc s
    cases s with
    | nil => simp [jsSplitGo]
    | cons c rest =>
      rw [jsSplitGo]
      split
      · simp
      · exact ih (c :: acc) rest

theorem joinDots_jsSplitGo :
    ∀ (fuel : ℕ) (s acc : JStr), s.length < fuel →
      joinDots (jsSplitGo ['.'] fuel acc s) = acc.reverse ++ s := by
  intro fuel
  induction fuel with
  | zero => intro s acc h; omega
  | succ fuel ih =>
    intro s acc h
    cases s with
    | nil => simp [jsSplitGo, joinDots]
    | cons x rest =>
      by_cases hx : x = '.'
      · subst hx
        simp only [jsSplitGo, List.isPrefixOf, List.isPrefixOf_nil_left, Bool.and_true,
          beq_self_eq_true, if_pos]
        simp only [List.length, show (0 + 1 - 1 : ℕ) = 0 from rfl, List.drop_zero] at *
        rcases hgo : jsSplitGo ['.'] fuel [] rest with _ | ⟨h1, t1⟩
        · exact absurd hgo (jsSplitGo_ne_nil ['.'] fuel [] rest)
        · rw [joinDots]
          rw [← hgo, ih rest [] (by omega)]
          simp
      · simp only [jsSplitGo, List.isPrefixOf, List.isPrefixOf_nil_left, Bool.and_true]
        rw [if_neg (by simp [beq_iff_eq]; exact fun h2 => hx h2.symm)]
        simp only [List.length] at h
        rw [ih rest (x :: acc) (by omega)]
        simp

theorem joinDots_jsSplit (s : JStr) : joinDots (jsSplit ['.'] s) = s := by
  rw [jsSplit, if_neg (by simp)]
  simpa using joinDots_jsSplitGo (s.length + 1) s [] (by omega)

theorem foldl_dots (parts : List JStr) (hne : parts ≠ []) (a : JStr) :
    parts.foldl (fun acc p => acc ++ p ++ ['.']) a = a ++ joinDots parts ++ ['.'] := by
  induction parts generalizing a with
  | nil => exact absurd rfl hne
  | cons p rest ih =>
    rcases rest with _ | ⟨q, t⟩
    · simp [joinDots]
    · rw [List.foldl_cons, ih (by simp), joinDots]
      simp [List.append_assoc]

/-- The decimal-separator stage of `toRaw` (split on the separator, re-join with
dots, strip the one trailing dot) is the identity when the separator is `"."`. -/
theorem dotStage_id (s : JStr) :
    (if ((jsSplit ['.'] s).foldl (fun acc p => acc ++ p ++ (['.'] : JStr)) []).getLast? =
        some '.' then
      ((jsSplit ['.'] s).foldl (fun acc p => acc ++ p ++ (['.'] : JStr)) []).dropLast
    else
      (jsSplit ['.'] s).foldl (fun acc p => acc ++ p ++ (['.'] : JStr)) []) = s := by
  have hne : jsSplit ['.'] s ≠ [] := by
    rw [jsSplit, if_neg (by simp)]
    exact jsSplitGo_ne_nil ['.'] (s.length + 1) [] s
  rw [foldl_dots _ hne, joinDots_jsSplit]
  simp only [List.nil_append]
  rw [List.getLast?_concat, if_pos rfl, List.dropLast_concat]

/-! ## Membership lemmas for `humanize` and `lpad` -/

theorem mem_humanize {osep s : JStr} {c : Char} (h : c ∈ humanize osep s) :
    c ∈ s ∨ c ∈ osep := by
  induction s with
  | nil => simp [humanize] at h
  | cons x rest ih =>
    rw [humanize] at h
    split at h
    · rcases List.mem_cons.mp h with h | h
      · exact Or.inl (by simp [h])
      · rcases List.mem_append.mp h with h | h
        · exact Or.inr h
        · rcases ih h with h | h
          · exact Or.inl (by simp [h])
          · exact Or.inr h
    · rcases List.mem_cons.mp h with h | h
      · exact Or.inl (by simp [h])
      · rcases ih h with h | h
        · exact Or.inl (by simp [h])
        · exact Or.inr h

theorem mem_lpad {s : JStr} {len : ℕ} {pad c : Char} (h : c ∈ lpad s len pad) :
    c = pad ∨ c ∈ s := by
  rw [lpad] at h
  rcases List.mem_append.mp h with h | h
  · exact Or.inl (List.eq_of_mem_replicate h)
  · exact Or.inr h

theorem length_lpad (s : JStr) (len : ℕ) (pad : Char) :
    (lpad s len pad).length = max len s.length := by
  simp [lpad]
  omega

/-! ## Parsing the fixed-point rendering of a number -/

theorem ws_digitChar (k : ℕ) : isJsWhitespace (digitChar k) = false := (digitChar_props k).1

theorem mem_fixedDigits {c : Char} {d m : ℕ} (h : c ∈ fixedDigits d m) :
    (∃ k, c = digitChar k) ∨ c = '.' := by
  rw [fixedDigits] at h
  rcases List.mem_append.mp h with h | h
  · exact Or.inl (mem_natDigits h)
  · split at h
    · simp at h
    · rcases List.mem_cons.mp h with h | h
      · exact Or.inr h
      · rcases mem_lpad h with h | h
        · exact Or.inl ⟨0, by rw [h]; rfl⟩
        · exact Or.inl (mem_natDigits h)

theorem natDigits_head (n : ℕ) :
    ∃ i0 I2, natDigits n = i0 :: I2 ∧ ∃ k, i0 = digitChar k := by
  rcases hI : natDigits n with _ | ⟨i0, I2⟩
  · exact absurd hI (natDigits_ne_nil n)
  · exact ⟨i0, I2, rfl, mem_natDigits (by rw [hI]; simp)⟩

theorem fixedDigits_zero (m : ℕ) : fixedDigits 0 m = natDigits m := by
  simp [fixedDigits]

theorem fixedDigits_pos (d m : ℕ) (hd : d ≠ 0) :
    fixedDigits d m = natDigits (m / 10 ^ d) ++ '.' :: lpad (natDigits (m % 10 ^ d)) d '0' := by
  simp [fixedDigits, hd]

theorem qpow10_zero : qpow10 0 = 1 := by
  rw [qpow10, if_pos le_rfl]
  norm_num [Rat.mkRat_eq_div]

theorem value_helper (m den : ℕ) :
    qmul (mkRat (m : ℤ) den) (qpow10 0) = (m : ℚ) / (den : ℚ) := by
  rw [qmul_eq, qpow10_zero, mul_one, Rat.mkRat_eq_div]
  norm_num

theorem parseUnsignedDecimal_fixedDigits (d m : ℕ) :
    parseUnsignedDecimal (fixedDigits d m) = some (.num ((m : ℚ) / (10 : ℚ) ^ d)) := by
  have hinf : fixedDigits d m ≠ jstr "Infinity" := by
    intro he
    obtain ⟨i0, I2, hI, k, hk⟩ := natDigits_head (m / 10 ^ d)
    have hhead : (fixedDigits d m).head? = some i0 := by
      rw [fixedDigits, hI]
      rfl
    rw [he] at hhead
    have : i0 = 'I' := by
      simpa [jstr] using hhead.symm
    subst this
    exact (digitChar_props k).2.2.2.2.2.1 hk.symm
  rcases Nat.eq_zero_or_pos d with hd | hdpos
  · subst hd
    rw [parseUnsignedDecimal, if_neg hinf]
    simp only [fixedDigits_zero]
    have htw := takeWhile_all_true (p := Char.isDigit) (l := natDigits m)
      (fun x hx => natDigits_all_digit hx)
    rw [htw.1, htw.2]
    simp only [List.head?_nil]
    have hcond : ¬((none : Option Char) = some '.') := by simp
    simp only [if_neg hcond]
    rw [if_neg (by simp [natDigits_ne_nil m])]
    have hexp : parseExponent [] = some 0 := by rfl
    rw [hexp]
    simp only [List.append_nil, List.length_nil, pow_zero]
    rw [digitsVal_natDigits]
    simp only [Option.some.injEq, JSNum.num.injEq]
    rw [value_helper]
    norm_num
  · have hd : d ≠ 0 := by omega
    rw [parseUnsignedDecimal, if_neg hinf, fixedDigits_pos d m hd]
    set I := natDigits (m / 10 ^ d) with hIdef
    set F := lpad (natDigits (m % 10 ^ d)) d '0' with hFdef
    have hFdig : ∀ x ∈ F, x.isDigit = true := by
      intro x hx
      rcases mem_lpad hx with h | h
      · rw [h]; decide
      · exact natDigits_all_digit h
    have hsplit := takeWhile_append_stop (p := Char.isDigit) (l := I) (r := F) (c := '.')
      (fun x hx => natDigits_all_digit hx) (by decide)
    have hFtw := takeWhile_all_true (p := Char.isDigit) (l := F) hFdig
    have hFlen : F.length = d := by
      rw [hFdef, length_lpad]
      have : (natDigits (m % 10 ^ d)).length ≤ d :=
        length_natDigits_le (by omega) (Nat.mod_lt _ (by positivity))
      omega
    rw [hsplit.1, hsplit.2]
    simp only [List.head?_cons, List.tail_cons]
    simp only [reduceIte]
    rw [hFtw.1, hFtw.2]
    rw [if_neg (by simp [hIdef, natDigits_ne_nil])]
    have hexp : parseExponent [] = some 0 := by rfl
    rw [hexp]
    rw [digitsVal_append, hFlen]
    have hFval : digitsVal F = m % 10 ^ d := by
      rw [hFdef, lpad, digitsVal_append, digitsVal_replicate_zero, digitsVal_natDigits]
      simp
    rw [hFval, hIdef, digitsVal_natDigits]
    have hm : m / 10 ^ d * 10 ^ d + m % 10 ^ d = m := Nat.div_add_mod' m (10 ^ d)
    rw [hm]
    simp only [Option.some.injEq, JSNum.num.injEq]
    rw [value_helper]
    push_cast
    ring

theorem head?_some_mem {l : JStr} {a : Char} (h : l.head? = some a) : a ∈ l := by
  cases l with
  | nil => simp at h
  | cons x t =>
    simp at h
    simp [h]

theorem jsTrim_fixed (d m : ℕ) (pre : JStr) (hpre : ∀ c ∈ pre, isJsWhitespace c = false) :
    jsTrim (pre ++ fixedDigits d m) = pre ++ fixedDigits d m := by
  apply jsTrim_eq_self
  intro c hc
  rcases List.mem_append.mp hc with h | h
  · exact hpre c h
  · rcases mem_fixedDigits h with ⟨k, rfl⟩ | rfl
    · exact ws_digitChar k
    · decide

theorem jsStringToNumber_fixed (d m : ℕ) (neg : Bool) :
    jsStringToNumber ((if neg then ['-'] else []) ++ fixedDigits d m) =
      .num ((if neg then (-1 : ℚ) else 1) * ((m : ℚ) / (10 : ℚ) ^ d)) := by
  obtain ⟨i0, I2, hI, k, hk⟩ := natDigits_head (m / 10 ^ d)
  obtain ⟨rest0, hfd⟩ : ∃ rest0, fixedDigits d m = i0 :: rest0 := by
    rw [fixedDigits, hI]
    exact ⟨I2 ++ _, rfl⟩
  obtain ⟨hw, hdot, hcom, hdash, hplus, hI', he', hE', hx', hX', ho', hO', hb', hB'⟩ :=
    digitChar_props k
  have h2 : ∀ ch : Char, (i0 :: rest0)[1]? = some ch →
      (∃ k2, ch = digitChar k2) ∨ ch = '.' := by
    intro ch hch
    have hh : rest0.head? = some ch := by
      cases rest0 with
      | nil => simp at hch
      | cons a l => simpa using hch
    exact mem_fixedDigits (by rw [hfd]; exact List.mem_cons_of_mem _ (head?_some_mem hh))
  have hnoletter : ∀ ch : Char, (i0 :: rest0)[1]? = some ch →
      ch ≠ 'x' ∧ ch ≠ 'X' ∧ ch ≠ 'o' ∧ ch ≠ 'O' ∧ ch ≠ 'b' ∧ ch ≠ 'B' := by
    intro ch hch
    rcases h2 ch hch with ⟨k2, rfl⟩ | rfl
    · obtain ⟨_, _, _, _, _, _, _, _, c1, c2, c3, c4, c5, c6⟩ := digitChar_props k2
      exact ⟨c1, c2, c3, c4, c5, c6⟩
    · refine ⟨by decide, by decide, by decide, by decide, by decide, by decide⟩
  cases neg with
  | false =>
    rw [show (if (false : Bool) = true then ['-'] else ([] : JStr)) = [] from rfl,
      List.nil_append]
    simp only [jsStringToNumber]
    have htr : jsTrim (fixedDigits d m) = fixedDigits d m := by
      simpa using jsTrim_fixed d m [] (by simp)
    rw [htr]
    rw [if_neg (by rw [hfd]; simp)]
    rw [if_neg (by
      rw [hfd]
      rintro ⟨hh, hxx⟩
      rcases hxx with hxx | hxx
      · exact (hnoletter _ hxx).1 rfl
      · exact (hnoletter _ hxx).2.1 rfl)]
    rw [if_neg (by
      rw [hfd]
      rintro ⟨hh, hxx⟩
      rcases hxx with hxx | hxx
      · exact (hnoletter _ hxx).2.2.1 rfl
      · exact (hnoletter _ hxx).2.2.2.1 rfl)]
    rw [if_neg (by
      rw [hfd]
      rintro ⟨hh, hxx⟩
      rcases hxx with hxx | hxx
      · exact (hnoletter _ hxx).2.2.2.2.1 rfl
      · exact (hnoletter _ hxx).2.2.2.2.2 rfl)]
    rw [parseSignedDecimal]
    rw [if_neg (by
      rw [hfd]
      simp only [List.head?_cons, Option.some.injEq]
      rw [hk]
      exact fun hcc => hplus hcc)]
    rw [if_neg (by
      rw [hfd]
      simp only [List.head?_cons, Option.some.injEq]
      rw [hk]
      exact fun hcc => hdash hcc)]
    rw [parseUnsignedDecimal_fixedDigits]
    rw [show (if (false : Bool) = true then (-1 : ℚ) else 1) = 1 from rfl]
    simp
  | true =>
    rw [show (if (true : Bool) = true then ['-'] else ([] : JStr)) = ['-'] from rfl,
      List.singleton_append]
    simp only [jsStringToNumber]
    have htr : jsTrim ('-' :: fixedDigits d m) = '-' :: fixedDigits d m := by
      simpa using jsTrim_fixed d m ['-'] (by intro c hc; simp at hc; subst hc; decide)
    rw [htr]
    rw [if_neg (by simp)]
    rw [if_neg (by rintro ⟨hh, _⟩; simp at hh)]
    rw [if_neg (by rintro ⟨hh, _⟩; simp at hh)]
    rw [if_neg (by rintro ⟨hh, _⟩; simp at hh)]
    rw [parseSignedDecimal]
    rw [if_neg (by simp)]
    rw [if_pos (by simp)]
    simp only [List.tail_cons]
    rw [parseUnsignedDecimal_fixedDigits]
    simp [JSNum.negate, qneg_eq]

/-! ## Rounding lemmas for `toFixed` -/

theorem mkRat_half : mkRat 1 2 = (1 / 2 : ℚ) := by
  rw [Rat.mkRat_eq_div]
  norm_num

theorem qofInt_pow_cast (d : ℕ) : qofInt ((10 : ℕ) ^ d : ℕ) = ((10 : ℚ) ^ d) := by
  rw [qofInt_eq]
  push_cast
  ring

theorem toFixedScaled_floor (d : ℕ) (q : ℚ) :
    (toFixedScaled d q : ℤ) = ⌊|q| * 10 ^ d + 1 / 2⌋ := by
  rw [toFixedScaled, qfloor_eq, qadd_eq, qmul_eq, qabs_eq, qofInt_pow_cast, mkRat_half]
  have h0 : (0 : ℤ) ≤ ⌊|q| * 10 ^ d + 1 / 2⌋ := by
    apply Int.floor_nonneg.mpr
    positivity
  omega

theorem num_neg_iff (q : ℚ) : q.num < 0 ↔ q < 0 := by
  rw [← not_le, Rat.num_nonneg, not_le]

theorem toFixedScaled_exact (d m : ℕ) (neg : Bool) :
    toFixedScaled d ((if neg then (-1 : ℚ) else 1) * ((m : ℚ) / 10 ^ d)) = m := by
  have hpow : (0 : ℚ) < 10 ^ d := by positivity
  have habs : |(if neg then (-1 : ℚ) else 1) * ((m : ℚ) / 10 ^ d)| = (m : ℚ) / 10 ^ d := by
    rw [abs_mul]
    have h1 : |(if neg then (-1 : ℚ) else 1)| = 1 := by cases neg <;> simp
    rw [h1, one_mul, abs_of_nonneg (by positivity)]
  have hthis := toFixedScaled_floor d ((if neg then (-1 : ℚ) else 1) * ((m : ℚ) / 10 ^ d))
  rw [habs, div_mul_cancel₀ _ (ne_of_gt hpow)] at hthis
  have hfl : ⌊(m : ℚ) + 1 / 2⌋ = m := by
    rw [add_comm, Int.floor_add_nat]
    have : ⌊(1 / 2 : ℚ)⌋ = 0 := by
      rw [Int.floor_eq_zero_iff]
      constructor <;> norm_num
    rw [this, zero_add]
  rw [hfl] at hthis
  exact_mod_cast hthis

theorem jsStringToNumber_fixedP (d m : ℕ) :
    jsStringToNumber (fixedDigits d m) = .num ((m : ℚ) / (10 : ℚ) ^ d) := by
  have h := jsStringToNumber_fixed d m false
  simpa using h

theorem jsStringToNumber_fixedN (d m : ℕ) :
    jsStringToNumber ('-' :: fixedDigits d m) = .num (-((m : ℚ) / (10 : ℚ) ^ d)) := by
  have h := jsStringToNumber_fixed d m true
  simpa using h

theorem parse_toFixed_num (d : ℕ) (q : ℚ) :
    jsStringToNumber (jsToFixed d (.num q)) =
      .num ((if q.num < 0 then (-1 : ℚ) else 1) * ((toFixedScaled d q : ℚ) / 10 ^ d)) := by
  rw [show jsToFixed d (.num q) =
    (if q.num < 0 then ['-'] else []) ++ fixedDigits d (toFixedScaled d q) from rfl]
  by_cases h : q.num < 0
  · rw [if_pos h, if_pos h, List.singleton_append, jsStringToNumber_fixedN]
    rw [neg_one_mul]
  · rw [if_neg h, if_neg h, List.nil_append, jsStringToNumber_fixedP]
    rw [one_mul]

theorem roundHalfAway_eq (d : ℕ) (q : ℚ) :
    (if q.num < 0 then (-1 : ℚ) else 1) * ((toFixedScaled d q : ℚ) / 10 ^ d) =
      roundHalfAway d q := by
  rw [roundHalfAway]
  have hcast : ((toFixedScaled d q : ℕ) : ℚ) = ((⌊|q| * 10 ^ d + 1 / 2⌋ : ℤ) : ℚ) := by
    exact_mod_cast toFixedScaled_floor d q
  rw [hcast]
  have hsame : (if q.num < 0 then (-1 : ℚ) else 1) = (if q < 0 then (-1 : ℚ) else 1) := by
    by_cases h : q < 0
    · rw [if_pos h, if_pos ((num_neg_iff q).mpr h)]
    · rw [if_neg h, if_neg (fun hc => h ((num_neg_iff q).mp hc))]
  rw [hsame, mul_div_assoc]

theorem parse_toFixed_exact (d m : ℕ) (neg : Bool) :
    jsStringToNumber (jsToFixed d (.num ((if neg then (-1 : ℚ) else 1) * ((m : ℚ) / 10 ^ d)))) =
      .num ((if neg then (-1 : ℚ) else 1) * ((m : ℚ) / 10 ^ d)) := by
  rw [parse_toFixed_num, toFixedScaled_exact]
  congr 1
  by_cases hm : m = 0
  · subst hm
    simp
  · have hpos : (0 : ℚ) < (m : ℚ) / 10 ^ d := by
      have h1 : (0 : ℚ) < (m : ℚ) := by exact_mod_cast Nat.pos_of_ne_zero hm
      positivity
    cases neg with
    | false =>
      rw [if_neg (by
        rw [num_neg_iff]
        simp only [show (if (false : Bool) = true then (-1 : ℚ) else 1) = 1 from rfl, one_mul]
        exact not_lt.mpr hpos.le)]
      norm_num
    | true =>
      rw [if_pos (by
        rw [num_neg_iff]
        simpa using hpos)]
      norm_num

theorem decimalsN_nat (d : ℕ) (ds os : JStr) (hd : d < 2 ^ 31) :
    Backgrid.decimalsN ⟨mkRat d 1, ds, os⟩ = d := by
  rw [Backgrid.decimalsN]
  show (jsToInt32 (.num (mkRat d 1))).toNat = d
  have h1 : qtrunc (mkRat (d : ℤ) 1) = d := by
    rw [qtrunc, Rat.mkRat_one]
    rw [Rat.num_intCast, Rat.den_intCast]
    exact Int.tdiv_one _
  show ((qtrunc (mkRat (d : ℤ) 1) + 2 ^ 31).emod (2 ^ 32) - 2 ^ 31).toNat = d
  rw [h1]
  have h2 : ((d : ℤ) + 2 ^ 31).emod (2 ^ 32) = (d : ℤ) + 2 ^ 31 :=
    Int.emod_eq_of_lt (by positivity) (by omega)
  rw [h2]
  omega

/-! ## The round trip through the default-separator number formatter -/

theorem fromRaw_default_sep (d : ℕ) (hd : d < 2 ^ 31) (q : ℚ) :
    Backgrid.NumberFormatter.fromRaw ⟨mkRat d 1, jstr ".", jstr ","⟩ (.num q) =
      humanize [','] ((if q.num < 0 then ['-'] else []) ++
          natDigits (toFixedScaled d q / 10 ^ d)) ++
        (if d = 0 then [] else '.' :: lpad (natDigits (toFixedScaled d q % 10 ^ d)) d '0') := by
  simp only [Backgrid.NumberFormatter.fromRaw]
  rw [if_neg (by simp)]
  rw [decimalsN_nat d _ _ hd]
  set m := toFixedScaled d q with hm
  rw [show jsToFixed d (.num q) = (if q.num < 0 then ['-'] else []) ++ fixedDigits d m from rfl]
  rcases Nat.eq_zero_or_pos d with h0 | hpos
  · subst h0
    rw [fixedDigits_zero]
    have hmem : ∀ x ∈ (if q.num < 0 then ['-'] else []) ++ natDigits m, x ≠ '.' := by
      intro x hx
      rcases List.mem_append.mp hx with h | h
      · split at h
        · simp at h
          subst h
          decide
        · simp at h
      · obtain ⟨k, rfl⟩ := mem_natDigits h
        exact (digitChar_props k).2.1
    rw [jstr_dot, jsSplit_not_mem '.' _ hmem]
    simp [jstr_comma, Nat.div_one]
  · rw [fixedDigits_pos d m (by omega)]
    set F := lpad (natDigits (m % 10 ^ d)) d '0' with hF
    have hassoc : (if q.num < 0 then ['-'] else []) ++ (natDigits (m / 10 ^ d) ++ '.' :: F) =
        ((if q.num < 0 then ['-'] else []) ++ natDigits (m / 10 ^ d)) ++ '.' :: F := by
      simp [List.append_assoc]
    rw [hassoc, jstr_dot]
    have hmemA : ∀ x ∈ (if q.num < 0 then ['-'] else []) ++ natDigits (m / 10 ^ d),
        x ≠ '.' := by
      intro x hx
      rcases List.mem_append.mp hx with h | h
      · split at h
        · simp at h
          subst h
          decide
        · simp at h
      · obtain ⟨k, rfl⟩ := mem_natDigits h
        exact (digitChar_props k).2.1
    have hmemF : ∀ x ∈ F, x ≠ '.' := by
      intro x hx
      rcases mem_lpad hx with h | h
      · subst h; decide
      · obtain ⟨k, rfl⟩ := mem_natDigits h
        exact (digitChar_props k).2.1
    rw [jsSplit_single_sep '.' _ F hmemA hmemF]
    have hFne : F ≠ [] := by
      intro h
      have h2 := congrArg List.length h
      rw [hF, length_lpad] at h2
      simp at h2
      omega
    simp only [List.headD_cons, List.drop_succ_cons, List.drop_zero]
    rw [if_neg hFne]
    rw [ite_self]
    rw [if_neg (show ¬(d = 0) by omega)]
    rfl

theorem toRaw_fromRaw_default (d : ℕ) (hd : d < 2 ^ 31) (q : ℚ) :
    Backgrid.NumberFormatter.toRaw ⟨mkRat d 1, jstr ".", jstr ","⟩
        (Backgrid.NumberFormatter.fromRaw ⟨mkRat d 1, jstr ".", jstr ","⟩ (.num q)) =
      some (.num (roundHalfAway d q)) := by
  rw [fromRaw_default_sep d hd q]
  set m := toFixedScaled d q with hm
  set sgn := (if q.num < 0 then ['-'] else ([] : JStr)) with hsgn
  set A := sgn ++ natDigits (m / 10 ^ d) with hA
  set dec := (if d = 0 then ([] : JStr)
    else '.' :: lpad (natDigits (m % 10 ^ d)) d '0') with hdec
  simp only [Backgrid.NumberFormatter.toRaw]
  have hsgnchar : ∀ x ∈ sgn, x = '-' := by
    rw [hsgn]
    split <;> simp
  have hAchar : ∀ x ∈ A, x = '-' ∨ ∃ k, x = digitChar k := by
    intro x hx
    rw [hA] at hx
    rcases List.mem_append.mp hx with h | h
    · exact Or.inl (hsgnchar x h)
    · exact Or.inr (mem_natDigits h)
  have hdecchar : ∀ x ∈ dec, x = '.' ∨ ∃ k, x = digitChar k := by
    intro x hx
    rw [hdec] at hx
    split at hx
    · simp at hx
    · rcases List.mem_cons.mp hx with h | h
      · exact Or.inl h
      · rcases mem_lpad h with h | h
        · exact Or.inr ⟨0, by rw [h]; rfl⟩
        · exact Or.inr (mem_natDigits h)
  have hhum : ∀ x ∈ humanize [','] A, x = ',' ∨ x = '-' ∨ ∃ k, x = digitChar k := by
    intro x hx
    rcases mem_humanize hx with h | h
    · rcases hAchar x h with h | h
      · exact Or.inr (Or.inl h)
      · exact Or.inr (Or.inr h)
    · simp at h
      exact Or.inl h
  have htrim : jsTrim (humanize [','] A ++ dec) = humanize [','] A ++ dec := by
    apply jsTrim_eq_self
    intro c hc
    rcases List.mem_append.mp hc with h | h
    · rcases hhum c h with rfl | rfl | ⟨k, rfl⟩
      · decide
      · decide
      · exact ws_digitChar k
    · rcases hdecchar c h with rfl | ⟨k, rfl⟩
      · decide
      · exact ws_digitChar k
  rw [jstr_comma, jstr_dot, htrim]
  rw [foldl_append_eq_append_flatten, List.nil_append, jsSplit_flatten_single]
  have hfilter : (humanize [','] A ++ dec).filter (· ≠ ',') = A ++ dec := by
    rw [List.filter_append]
    rw [humanize_filter ',' A (by
      intro x hx
      rcases hAchar x hx with rfl | ⟨k, rfl⟩
      · decide
      · exact (digitChar_props k).2.2.1)]
    rw [List.filter_eq_self.mpr (by
      intro a ha
      rcases hdecchar a ha with rfl | ⟨k, rfl⟩
      · decide
      · simp [(digitChar_props k).2.2.1])]
  rw [hfilter]
  rw [dotStage_id (A ++ dec)]
  rw [decimalsN_nat d ['.'] [','] hd]
  have hre : A ++ dec = sgn ++ fixedDigits d m := by
    rw [hA, hdec, List.append_assoc]
    rfl
  rw [hre, hsgn]
  by_cases hq : q.num < 0
  · rw [if_pos hq, List.singleton_append, jsStringToNumber_fixedN]
    have hx := parse_toFixed_exact d m true
    simp at hx
    rw [hx]
    rw [if_neg (by simp)]
    have hval : roundHalfAway d q = -((m : ℚ) / 10 ^ d) := by
      rw [← roundHalfAway_eq d q, ← hm, if_pos hq, neg_one_mul]
    rw [hval]
  · rw [if_neg hq, List.nil_append, jsStringToNumber_fixedP]
    have hx := parse_toFixed_exact d m false
    simp at hx
    rw [hx]
    rw [if_neg (by simp)]
    have hval : roundHalfAway d q = ((m : ℚ) / 10 ^ d) := by
      rw [← roundHalfAway_eq d q, ← hm, if_neg hq, one_mul]
    rw [hval]

theorem toRaw_default_none_iff (s : JStr) :
    Backgrid.NumberFormatter.toRaw Backgrid.NFdefaults s = none ↔
      jsStringToNumber ((jsTrim s).filter (· ≠ ',')) = .nan := by
  simp only [Backgrid.NumberFormatter.toRaw]
  rw [show Backgrid.NFdefaults.orderSeparator = [','] from rfl,
    show Backgrid.NFdefaults.decimalSeparator = ['.'] from rfl,
    show Backgrid.decimalsN Backgrid.NFdefaults = 2 from by decide]
  rw [foldl_append_eq_append_flatten, List.nil_append, jsSplit_flatten_single]
  rw [dotStage_id ((jsTrim s).filter (· ≠ ','))]
  rcases hx : jsStringToNumber ((jsTrim s).filter (· ≠ ',')) with _ | _ | _ | q
  · rw [show jsToFixed 2 JSNum.nan = jstr "NaN" from rfl,
      show jsStringToNumber (jstr "NaN") = JSNum.nan from by decide]
    simp
  · rw [show jsToFixed 2 JSNum.posInf = jstr "Infinity" from rfl,
      show jsStringToNumber (jstr "Infinity") = JSNum.posInf from by decide]
    simp
  · rw [show jsToFixed 2 JSNum.negInf = '-' :: jstr "Infinity" from rfl,
      show jsStringToNumber ('-' :: jstr "Infinity") = JSNum.negInf from by decide]
    simp
  · rw [parse_toFixed_num]
    simp

theorem toRaw_default_whitespace (s : JStr) (h : ∀ c ∈ s, isJsWhitespace c = true) :
    Backgrid.NumberFormatter.toRaw Backgrid.NFdefaults s = some (.num 0) := by
  simp only [Backgrid.NumberFormatter.toRaw]
  rw [jsTrim_eq_nil_of_forall h]
  decide

/-! ## Claim C1 -/

/-- **C1** (amended).  For the `NumberFormatter` with integer `decimals` `d ∈ [0, 20]`
and the DEFAULT separators (`decimalSeparator "."`, `orderSeparator ","`), and for
every finite number `n`, `toRaw (fromRaw n)` equals `n` rounded to `d` decimal
places with rounding half away from zero.  The original claim, quantified over
arbitrary separator strings, is false — see `C1_counterexample_equal_separators`:
when the two separators collide the display string cannot be re-parsed. -/
theorem C1_roundtrip_default_separators (d : ℕ) (hd : d ≤ 20) (q : ℚ) :
    Backgrid.NumberFormatter.toRaw ⟨mkRat d 1, jstr ".", jstr ","⟩
        (Backgrid.NumberFormatter.fromRaw ⟨mkRat d 1, jstr ".", jstr ","⟩ (.num q)) =
      some (.num (roundHalfAway d q)) :=
  toRaw_fromRaw_default d (by omega) q

/-- Witness for `C1_roundtrip_default_separators` at `d = 2`, `n = 1234.5`. -/
theorem C1_witness :
    (2 : ℕ) ≤ 20 ∧
      Backgrid.NumberFormatter.toRaw ⟨mkRat 2 1, jstr ".", jstr ","⟩
          (Backgrid.NumberFormatter.fromRaw ⟨mkRat 2 1, jstr ".", jstr ","⟩
            (.num (mkRat 2469 2))) =
        some (.num (roundHalfAway 2 (mkRat 2469 2))) :=
  ⟨by norm_num, C1_roundtrip_default_separators 2 (by norm_num) (mkRat 2469 2)⟩

/-- **C1 counterexample**.  With `decimals = 2` (an integer in `[0, 20]`) and the
separator configuration `decimalSeparator = "."`, `orderSeparator = "."` (legal
strings per the claim), the round trip of `n = 1234.5` returns `123450`, not
`n` rounded to two decimals (`1234.5`): the claim as stated is false. -/
theorem C1_counterexample_equal_separators :
    Backgrid.NumberFormatter.toRaw ⟨mkRat 2 1, jstr ".", jstr "."⟩
        (Backgrid.NumberFormatter.fromRaw ⟨mkRat 2 1, jstr ".", jstr "."⟩
          (.num (mkRat 2469 2))) =
      some (.num (mkRat 123450 1)) ∧
    roundHalfAway 2 (mkRat 2469 2) = mkRat 2469 2 ∧
    (mkRat 123450 1 : ℚ) ≠ mkRat 2469 2 := by
  refine ⟨by decide, ?_, by decide⟩
  rw [← roundHalfAway_eq 2 (mkRat 2469 2),
    show toFixedScaled 2 (mkRat 2469 2) = 123450 from by decide,
    if_neg (show ¬((mkRat 2469 2).num < 0) from by decide), one_mul]
  rw [Rat.mkRat_eq_div]
  norm_num

/-! ## Claim C8 -/

/-- **C8**.  `NumberFormatter.fromRaw` rounds to the configured number of decimals
using round-half-away-from-zero and inserts the order separator every three
integer digits from the right: `fromRaw 1234.5 = "1,234.50"` with the defaults,
`fromRaw 3.7 = "4"` with `decimals = 0`; halves round away from zero in both
directions (`2.5 ↦ "3"`, `-2.5 ↦ "-3"`); grouping repeats every three digits
(`1234567 ↦ "1,234,567.00"`); and in general the numeric value printed by the
fixed-point conversion is exactly `roundHalfAway d n`. -/
theorem C8_fromRaw_rounding_and_grouping :
    Backgrid.NumberFormatter.fromRaw Backgrid.NFdefaults (.num (mkRat 24690 20)) =
        jstr "1,234.50" ∧
    Backgrid.NumberFormatter.fromRaw ⟨mkRat 0 1, jstr ".", jstr ","⟩ (.num (mkRat 37 10)) =
        jstr "4" ∧
    Backgrid.NumberFormatter.fromRaw ⟨mkRat 0 1, jstr ".", jstr ","⟩ (.num (mkRat 5 2)) =
        jstr "3" ∧
    Backgrid.NumberFormatter.fromRaw ⟨mkRat 0 1, jstr ".", jstr ","⟩ (.num (mkRat (-5) 2)) =
        jstr "-3" ∧
    Backgrid.NumberFormatter.fromRaw Backgrid.NFdefaults (.num (mkRat 1234567 1)) =
        jstr "1,234,567.00" ∧
    ∀ (d : ℕ) (q : ℚ),
      jsStringToNumber (jsToFixed d (.num q)) = .num (roundHalfAway d q) := by
  refine ⟨by decide, by decide, by decide, by decide, by decide, ?_⟩
  intro d q
  rw [parse_toFixed_num, roundHalfAway_eq]

/-! ## Claim C9 -/

/-- **C9** (amended).  `NumberFormatter.toRaw` removes all order-separator
occurrences, replaces the decimal separator with `"."`, parses the cleaned
string as a number and re-rounds through `toFixed`; it returns undefined
exactly when the parse yields `NaN`.  In particular `toRaw "12x3"` is undefined.
The original clause "undefined whenever the result is not a finite number" is
false: `"Infinity"` parses to a non-finite value that is returned, not
rejected — see `C9_counterexample_infinity`. -/
theorem C9_toRaw_none_iff_nan :
    (∀ s : JStr, Backgrid.NumberFormatter.toRaw Backgrid.NFdefaults s = none ↔
        jsStringToNumber ((jsTrim s).filter (· ≠ ',')) = .nan) ∧
    Backgrid.NumberFormatter.toRaw Backgrid.NFdefaults (jstr "12x3") = none ∧
    Backgrid.NumberFormatter.toRaw Backgrid.NFdefaults (jstr "Infinity") = some .posInf :=
  ⟨toRaw_default_none_iff, by decide, by decide⟩

/-- **C9 counterexample**.  The input `"Infinity"` parses to the non-finite value
`Infinity`, yet `toRaw` returns it instead of undefined, contradicting the
claim's "returns undefined whenever the parse result is not a finite number". -/
theorem C9_counterexample_infinity :
    jsStringToNumber (jstr "Infinity") = JSNum.posInf ∧
    Backgrid.NumberFormatter.toRaw Backgrid.NFdefaults (jstr "Infinity") = some JSNum.posInf ∧
    some JSNum.posInf ≠ (none : Option JSNum) := ⟨by decide, by decide, by simp⟩

/-! ## Claim C10 -/

/-- **C10**.  `NumberFormatter.toRaw` applied to the empty string or to any
whitespace-only string returns the number `0` rather than undefined: the
cleaned string coerces to `0`, so blank editor input is committed as `0`. -/
theorem C10_blank_input_is_zero (s : JStr) (h : ∀ c ∈ s, isJsWhitespace c = true) :
    Backgrid.NumberFormatter.toRaw Backgrid.NFdefaults s = some (.num 0) :=
  toRaw_default_whitespace s h

/-- Witness for `C10_blank_input_is_zero` on the two-space string (and the empty
string falls out by instantiation as well). -/
theorem C10_witness :
    (∀ c ∈ jstr "  ", isJsWhitespace c = true) ∧
      Backgrid.NumberFormatter.toRaw Backgrid.NFdefaults (jstr "  ") = some (.num 0) :=
  ⟨by decide, C10_blank_input_is_zero (jstr "  ") (by decide)⟩

/-! ## Claims C2 and C3: the sort cycle -/

/-- **C2**.  For a sortable column starting in the initial (`null`) direction,
three successive sort triggers yield the direction sequence ascending,
descending, none: the first fires direction `"ascending"` with the comparator
returning `-1` when the left record's value is smaller, `0` on equality and `1`
otherwise; the second fires `"descending"` with the mirror comparator returning
`-1` when the left value is greater; the third fires a `null` comparator and
`null` direction. -/
theorem C2_sort_cycle_three_clicks (col : String) :
    (Backgrid.HeaderCell.step none true col =
      (some .ascending, some ⟨some (Backgrid.ascComparator col), col, some .ascending⟩)) ∧
    (Backgrid.HeaderCell.step (some .ascending) true col =
      (some .descending, some ⟨some (Backgrid.descComparator col), col, some .descending⟩)) ∧
    (Backgrid.HeaderCell.step (some .descending) true col =
      (none, some ⟨none, col, none⟩)) ∧
    (∀ left right : String → ℤ,
      (left col < right col → Backgrid.ascComparator col left right = -1) ∧
      (left col = right col → Backgrid.ascComparator col left right = 0) ∧
      (left col > right col → Backgrid.ascComparator col left right = 1) ∧
      (left col > right col → Backgrid.descComparator col left right = -1) ∧
      (left col = right col → Backgrid.descComparator col left right = 0) ∧
      (left col < right col → Backgrid.descComparator col left right = 1)) := by
  refine ⟨?_, ?_, ?_, ?_⟩
  · simp [Backgrid.HeaderCell.step, Backgrid.HeaderCell.triggerSort, Backgrid.HeaderCell.toggle]
  · simp [Backgrid.HeaderCell.step, Backgrid.HeaderCell.triggerSort, Backgrid.HeaderCell.toggle]
  · simp [Backgrid.HeaderCell.step, Backgrid.HeaderCell.triggerSort, Backgrid.HeaderCell.toggle]
  · intro left right
    refine ⟨?_, ?_, ?_, ?_, ?_, ?_⟩ <;> intro h <;>
      simp [Backgrid.ascComparator, Backgrid.descComparator, h] <;> omega
  
/-- Witness for `C2_sort_cycle_three_clicks` at a concrete column and records. -/
theorem C2_witness :
    (Backgrid.HeaderCell.step none true "a" =
      (some .ascending, some ⟨some (Backgrid.ascComparator "a"), "a", some .ascending⟩)) ∧
    Backgrid.ascComparator "a" (fun _ => 1) (fun _ => 2) = -1 ∧
    Backgrid.descComparator "a" (fun _ => 3) (fun _ => 2) = -1 := by
  obtain ⟨h1, h2, h3, h4⟩ := C2_sort_cycle_three_clicks "a"
  exact ⟨h1, (h4 (fun _ => 1) (fun _ => 2)).1 (by decide),
    (h4 (fun _ => 3) (fun _ => 2)).2.2.2.1 (by decide)⟩

/-- **C3 counterexample**.  The comparator the header cell emits under the
`"ascending"` direction label follows the standard convention: for a left value
strictly greater than the right one it returns `1`, not `-1` as the claim (the
spec's "naming inversion bug" note) asserts. -/
theorem C3_counterexample_no_inversion :
    Backgrid.HeaderCell.triggerSort none true "a" =
      some ⟨some (Backgrid.ascComparator "a"), "a", some .ascending⟩ ∧
    ((5 : ℤ) > 3) ∧
    Backgrid.ascComparator "a" (fun _ => 5) (fun _ => 3) = 1 ∧
    (1 : ℤ) ≠ -1 := by
  refine ⟨?_, by decide, by decide, by decide⟩
  simp [Backgrid.HeaderCell.triggerSort]

/-- **C3** (amended).  There is no naming inversion: the comparator emitted
under the `"ascending"` label returns `1` (not `-1`) when the left record's
value for the column is strictly greater than the right's, and `-1` when it is
smaller; the `-1`-for-greater logic lives under the `"descending"` label. -/
theorem C3_ascending_label_standard (col : String) (left right : String → ℤ) :
    Backgrid.HeaderCell.triggerSort none true col =
      some ⟨some (Backgrid.ascComparator col), col, some .ascending⟩ ∧
    (left col > right col → Backgrid.ascComparator col left right = 1) ∧
    (left col < right col → Backgrid.ascComparator col left right = -1) ∧
    (left col > right col → Backgrid.descComparator col left right = -1) := by
  refine ⟨by simp [Backgrid.HeaderCell.triggerSort], ?_, ?_, ?_⟩ <;> intro h <;>
    simp [Backgrid.ascComparator, Backgrid.descComparator, h] <;> omega

/-- Witness for `C3_ascending_label_standard` at a concrete column and records. -/
theorem C3_witness :
    Backgrid.HeaderCell.triggerSort none true "a" =
      some ⟨some (Backgrid.ascComparator "a"), "a", some .ascending⟩ ∧
    Backgrid.ascComparator "a" (fun _ => 5) (fun _ => 3) = 1 := by
  obtain ⟨h1, h2, h3, h4⟩ := C3_ascending_label_standard "a" (fun _ => 5) (fun _ => 3)
  exact ⟨h1, h2 (by decide)⟩

/-! ## Claim C7: construction errors -/

theorem qblt_iff (a b : ℚ) : qblt a b = true ↔ a < b := by
  rw [qblt, decide_eq_true_eq]
  rw [show (a < b ↔ (a.num : ℚ) / (a.den : ℚ) < (b.num : ℚ) / (b.den : ℚ)) by
    rw [Rat.num_div_den, Rat.num_div_den]]
  rw [div_lt_div_iff
    (by exact_mod_cast Nat.pos_of_ne_zero a.den_nz)
    (by exact_mod_cast Nat.pos_of_ne_zero b.den_nz)]
  constructor <;> intro h <;> exact_mod_cast h

/-- **C7**.  Missing or out-of-range required configuration fails immediately at
construction: `Column` construction throws when the cell type or the name is
absent; `NumberFormatter` construction throws a `RangeError` exactly when
`decimals < 0` or `decimals > 20` (so `decimals = 21` fails and `decimals = 0`
succeeds); `DatetimeFormatter` construction throws exactly when `includeDate`
and `includeTime` are both false. -/
theorem C7_construction_validation :
    (∀ attrs : Backgrid.ColumnAttrs, attrs.cell = none ∨ attrs.name = none →
      ∃ e, Backgrid.Column.initializeAttrs attrs = .error e) ∧
    (∀ q : ℚ, (∃ e, Backgrid.NumberFormatter.construct {decimals := some q} = .error e) ↔
      (q < 0 ∨ q > 20)) ∧
    (∃ e, Backgrid.NumberFormatter.construct {decimals := some (mkRat 21 1)} = .error e) ∧
    Backgrid.NumberFormatter.construct {decimals := some (mkRat 0 1)} =
      .ok ⟨mkRat 0 1, jstr ".", jstr ","⟩ ∧
    (∀ b1 b2 : Bool,
      (∃ e, Backgrid.DatetimeFormatter.construct
          {includeDate := some b1, includeTime := some b2} = .error e) ↔
        (b1 = false ∧ b2 = false)) := by
  refine ⟨?_, ?_, ?_, rfl, ?_⟩
  · intro attrs h
    simp only [Backgrid.Column.initializeAttrs]
    rcases h with h | h
    · rw [h]
      exact ⟨"cell is required", rfl⟩
    · by_cases hc : Backgrid.jsFalsyCell attrs.cell = true
      · rw [if_pos hc]
        exact ⟨"cell is required", rfl⟩
      · rw [if_neg hc, if_pos (by rw [h]; rfl)]
        exact ⟨"name is required", rfl⟩
  · intro q
    simp only [Backgrid.NumberFormatter.construct, Option.getD_some]
    constructor
    · intro ⟨e, he⟩
      by_cases hcond : (qblt q (qofInt 0) || qblt (qofInt 20) q) = true
      · rcases Bool.or_eq_true_iff.mp hcond with h | h
        · left
          have := (qblt_iff q (qofInt 0)).mp h
          rwa [qofInt_eq, Int.cast_zero] at this
        · right
          have := (qblt_iff (qofInt 20) q).mp h
          rw [qofInt_eq] at this
          exact_mod_cast this
      · rw [if_neg hcond] at he
        exact absurd he (by simp)
    · intro h
      refine ⟨"decimals must be between 0 and 20", ?_⟩
      rw [if_pos ?_]
      rcases h with h | h
      · apply Bool.or_eq_true_iff.mpr
        left
        apply (qblt_iff q (qofInt 0)).mpr
        rwa [qofInt_eq, Int.cast_zero]
      · apply Bool.or_eq_true_iff.mpr
        right
        apply (qblt_iff (qofInt 20) q).mpr
        rw [qofInt_eq]
        exact_mod_cast h
  · exact ⟨"decimals must be between 0 and 20", rfl⟩
  · intro b1 b2
    cases b1 <;> cases b2 <;> simp [Backgrid.DatetimeFormatter.construct]

/-- Witness for `C7_construction_validation`: a column attribute hash with the
cell type absent is rejected. -/
theorem C7_witness :
    ({ name := some (jstr "age"), cell := none } : Backgrid.ColumnAttrs).cell = none ∧
      ∃ e, Backgrid.Column.initializeAttrs { name := some (jstr "age"), cell := none } =
        .error e :=
  ⟨rfl, C7_construction_validation.1 { name := some (jstr "age"), cell := none }
    (Or.inl rfl)⟩

/-! ## C6: editor commit semantics -/

/-- **C6.**  On a commit gesture (enter, key code 13, or tab, key code 9) in
the cell editor: when `toRaw` on the current editor text fails, the editor
emits `error`, no write attempt is made, the model is unchanged and the cell
stays in edit mode with its editor attached and the `error` class set; when
`toRaw` succeeds, exactly one write attempt is made, and if the store accepts
it the editor emits `done` and the cell exits to display mode with the display
text re-rendered from the newly written value (a write rejected by the store's
validation is treated like a conversion failure).  Escape and blur exit with
`done`, restoring the formatted model value without any write attempt. -/
theorem C6_commit_semantics {V : Type} (validate : String → V → Bool)
    (fmt : Backgrid.EFormatter V) (column : String) (code : ℕ)
    (st : Backgrid.EditState V)
    (_hmode : st.mode = .editing) (_hed : st.editorPresent = true)
    (hcommit : code = 13 ∨ code = 9) :
    (fmt.toRaw st.editorText = none →
      Backgrid.DivCellEditor.saveOrCancel V validate fmt column (.keydown code) st =
        ({ st with errorClass := true }, ["error"])) ∧
    (∀ v, fmt.toRaw st.editorText = some v →
      (validate column v = true →
        Backgrid.DivCellEditor.saveOrCancel V validate fmt column (.keydown code) st =
          ({ modelAttrs := fun n => if n = column then v else st.modelAttrs n,
             editorText := st.editorText,
             mode := .display,
             errorClass := false,
             editorPresent := false,
             displayText := fmt.fromRaw v,
             writes := st.writes + 1 }, ["done"])) ∧
      (validate column v = false →
        Backgrid.DivCellEditor.saveOrCancel V validate fmt column (.keydown code) st =
          ({ st with errorClass := true, writes := st.writes + 1 }, ["error"]))) ∧
    (Backgrid.DivCellEditor.saveOrCancel V validate fmt column (.keydown 27) st =
      ({ st with editorText := fmt.fromRaw (st.modelAttrs column),
                 mode := .display, errorClass := false, editorPresent := false,
                 displayText := fmt.fromRaw (st.modelAttrs column) }, ["done"])) ∧
    (Backgrid.DivCellEditor.saveOrCancel V validate fmt column .blur st =
      ({ st with editorText := fmt.fromRaw (st.modelAttrs column),
                 mode := .display, errorClass := false, editorPresent := false,
                 displayText := fmt.fromRaw (st.modelAttrs column) }, ["done"])) := by
  refine ⟨?_, ?_, ?_, ?_⟩
  · intro hnone
    rcases hcommit with h | h <;> subst h <;>
      simp [Backgrid.DivCellEditor.saveOrCancel, hnone, Backgrid.Cell.renderError]
  · intro v hv
    refine ⟨?_, ?_⟩
    · intro hval
      rcases hcommit with h | h <;> subst h <;>
        simp [Backgrid.DivCellEditor.saveOrCancel, hv, Backgrid.modelSet, hval,
          Backgrid.Cell.exitEditMode]
    · intro hval
      rcases hcommit with h | h <;> subst h <;>
        simp [Backgrid.DivCellEditor.saveOrCancel, hv, Backgrid.modelSet, hval,
          Backgrid.Cell.renderError]
  · simp [Backgrid.DivCellEditor.saveOrCancel, Backgrid.Cell.exitEditMode]
  · simp [Backgrid.DivCellEditor.saveOrCancel, Backgrid.Cell.exitEditMode]

/-- Concrete run of the commit semantics: committing unparsable text emits
`error` and leaves the cell editing with the error class set; committing
parsable text that the store accepts emits `done` and leaves the cell in
display mode with one write recorded. -/
theorem C6_witness :
    (Backgrid.DivCellEditor.saveOrCancel ℕ (fun _ _ => true)
        ⟨fun _ => jstr "ok", fun _ => none⟩ "name" (.keydown 13)
        ⟨fun _ => 0, jstr "bad", .editing, false, true, jstr "0", 0⟩) =
      (⟨fun _ => 0, jstr "bad", .editing, true, true, jstr "0", 0⟩, ["error"]) ∧
    (Backgrid.DivCellEditor.saveOrCancel ℕ (fun _ _ => true)
        ⟨fun _ => jstr "ok", fun _ => some 7⟩ "name" (.keydown 9)
        ⟨fun _ => 0, jstr "7", .editing, false, true, jstr "0", 0⟩).1.mode =
      Backgrid.CellMode.display := by
  have h1 := C6_commit_semantics (fun _ _ => true)
    ⟨fun _ => jstr "ok", fun _ => none⟩ "name" 13
    ⟨fun _ => 0, jstr "bad", .editing, false, true, jstr "0", 0⟩ rfl rfl (Or.inl rfl)
  have h2 := C6_commit_semantics (fun _ _ => true)
    ⟨fun _ => jstr "ok", fun _ => some 7⟩ "name" 9
    ⟨fun _ => 0, jstr "7", .editing, false, true, jstr "0", 0⟩ rfl rfl (Or.inr rfl)
  exact ⟨h1.1 rfl, by rw [(h2.2.1 7 rfl).1 rfl]⟩

/-! ## Calendar lemmas for the datetime round trip (C4) -/

/-- The day count of year `y` under ES5 `DayFromYear` steps by the year
length. -/
theorem dayFromYear_step (y : ℤ) :
    dayFromYear (y + 1) = dayFromYear y + (if inLeapYear y then 366 else 365) := by
  by_cases h4 : y % 4 = 0 <;> by_cases h100 : y % 100 = 0 <;>
    by_cases h400 : y % 400 = 0 <;>
    simp [dayFromYear, inLeapYear, h4, h100, h400] <;> omega

/-- Linear bounds for `dayFromYear` in terms of the 400-year cycle. -/
theorem dfy_bound (y : ℤ) :
    146097 * (y - 1970) - 506 ≤ 400 * dayFromYear y ∧
      400 * dayFromYear y ≤ 146097 * (y - 1970) + 589 := by
  simp only [dayFromYear]
  omega

/-- The year estimate of `yearFromDay` is correct: day `d` falls inside the
span of the returned year. -/
theorem yearFromDay_spec (d : ℤ) :
    dayFromYear (yearFromDay d) ≤ d ∧ d < dayFromYear (yearFromDay d + 1) := by
  have hb2 := dfy_bound (1970 + 400 * d / 146097 + 1 + 1)
  have hb1 := dfy_bound (1970 + 400 * d / 146097 + 1)
  have hb0 := dfy_bound (1970 + 400 * d / 146097)
  have hbm := dfy_bound (1970 + 400 * d / 146097 - 1)
  simp only [yearFromDay]
  split_ifs with h1 h2 <;> (try simp only [sub_add_cancel]) <;> exact ⟨by omega, by omega⟩

/-- The day within the year of a time value is within the year's length. -/
theorem dayWithinYear_bounds (t : ℤ) :
    0 ≤ jsDayWithinYear t ∧
      jsDayWithinYear t < (if inLeapYear (jsYearOf t) then 366 else 365) := by
  have h := yearFromDay_spec (jsDayOf t)
  have hs := dayFromYear_step (yearFromDay (jsDayOf t))
  simp only [jsDayWithinYear, jsYearOf]
  by_cases hl : inLeapYear (yearFromDay (jsDayOf t)) = true
  · rw [if_pos hl] at hs ⊢
    omega
  · rw [if_neg hl] at hs ⊢
    omega

/-- Packaging helper for the month decomposition case analysis. -/
theorem mdc_helper (leap : Bool) (w k a b : ℤ)
    (hM : monthFromDayWithinYear leap w = k) (hk0 : 0 ≤ k) (hk1 : k ≤ 11)
    (ha : monthStart leap k = a) (hb : monthStart leap (k + 1) = b)
    (hw1 : a ≤ w) (hw2 : w < b) :
    0 ≤ monthFromDayWithinYear leap w ∧ monthFromDayWithinYear leap w ≤ 11 ∧
      monthStart leap (monthFromDayWithinYear leap w) ≤ w ∧
      w < monthStart leap (monthFromDayWithinYear leap w + 1) := by
  rw [hM, ha, hb]
  exact ⟨hk0, hk1, hw1, hw2⟩

/-- Month decomposition of a day within a year: the computed month is in
range and its day span contains the day. -/
theorem month_decomp (leap : Bool) (w : ℤ) (h0 : 0 ≤ w)
    (h1 : w < if leap then 366 else 365) :
    0 ≤ monthFromDayWithinYear leap w ∧ monthFromDayWithinYear leap w ≤ 11 ∧
      monthStart leap (monthFromDayWithinYear leap w) ≤ w ∧
      w < monthStart leap (monthFromDayWithinYear leap w + 1) := by
  cases leap
  case false =>
    have h1b : w < 365 := by simpa using h1
    rcases (by omega :
      w < 31 ∨ 31 ≤ w ∧ w < 59 ∨ 59 ≤ w ∧ w < 90 ∨ 90 ≤ w ∧ w < 120 ∨
        120 ≤ w ∧ w < 151 ∨ 151 ≤ w ∧ w < 181 ∨ 181 ≤ w ∧ w < 212 ∨
        212 ≤ w ∧ w < 243 ∨ 243 ≤ w ∧ w < 273 ∨ 273 ≤ w ∧ w < 304 ∨
        304 ≤ w ∧ w < 334 ∨ 334 ≤ w) with
      c | c | c | c | c | c | c | c | c | c | c | c
    · exact mdc_helper false w 0 0 31 (by simp [monthFromDayWithinYear]; omega)
        (by norm_num) (by norm_num) rfl rfl (by omega) (by omega)
    · exact mdc_helper false w 1 31 59 (by simp [monthFromDayWithinYear]; omega)
        (by norm_num) (by norm_num) rfl rfl (by omega) (by omega)
    · exact mdc_helper false w 2 59 90 (by simp [monthFromDayWithinYear]; omega)
        (by norm_num) (by norm_num) rfl rfl (by omega) (by omega)
    · exact mdc_helper false w 3 90 120 (by simp [monthFromDayWithinYear]; omega)
        (by norm_num) (by norm_num) rfl rfl (by omega) (by omega)
    · exact mdc_helper false w 4 120 151 (by simp [monthFromDayWithinYear]; omega)
        (by norm_num) (by norm_num) rfl rfl (by omega) (by omega)
    · exact mdc_helper false w 5 151 181 (by simp [monthFromDayWithinYear]; omega)
        (by norm_num) (by norm_num) rfl rfl (by omega) (by omega)
    · exact mdc_helper false w 6 181 212 (by simp [monthFromDayWithinYear]; omega)
        (by norm_num) (by norm_num) rfl rfl (by omega) (by omega)
    · exact mdc_helper false w 7 212 243 (by simp [monthFromDayWithinYear]; omega)
        (by norm_num) (by norm_num) rfl rfl (by omega) (by omega)
    · exact mdc_helper false w 8 243 273 (by simp [monthFromDayWithinYear]; omega)
        (by norm_num) (by norm_num) rfl rfl (by omega) (by omega)
    · exact mdc_helper false w 9 273 304 (by simp [monthFromDayWithinYear]; omega)
        (by norm_num) (by norm_num) rfl rfl (by omega) (by omega)
    · exact mdc_helper false w 10 304 334 (by simp [monthFromDayWithinYear]; omega)
        (by norm_num) (by norm_num) rfl rfl (by omega) (by omega)
    · exact mdc_helper false w 11 334 365 (by simp [monthFromDayWithinYear]; omega)
        (by norm_num) (by norm_num) rfl rfl (by omega) (by omega)
  case true =>
    have h1b : w < 366 := by simpa using h1
    rcases (by omega :
      w < 31 ∨ 31 ≤ w ∧ w < 60 ∨ 60 ≤ w ∧ w < 91 ∨ 91 ≤ w ∧ w < 121 ∨
        121 ≤ w ∧ w < 152 ∨ 152 ≤ w ∧ w < 182 ∨ 182 ≤ w ∧ w < 213 ∨
        213 ≤ w ∧ w < 244 ∨ 244 ≤ w ∧ w < 274 ∨ 274 ≤ w ∧ w < 305 ∨
        305 ≤ w ∧ w < 335 ∨ 335 ≤ w) with
      c | c | c | c | c | c | c | c | c | c | c | c
    · exact mdc_helper true w 0 0 31 (by simp [monthFromDayWithinYear]; omega)
        (by norm_num) (by norm_num) rfl rfl (by omega) (by omega)
    · exact mdc_helper true w 1 31 60 (by simp [monthFromDayWithinYear]; omega)
        (by norm_num) (by norm_num) rfl rfl (by omega) (by omega)
    · exact mdc_helper true w 2 60 91 (by simp [monthFromDayWithinYear]; omega)
        (by norm_num) (by norm_num) rfl rfl (by omega) (by omega)
    · exact mdc_helper true w 3 91 121 (by simp [monthFromDayWithinYear]; omega)
        (by norm_num) (by norm_num) rfl rfl (by omega) (by omega)
    · exact mdc_helper true w 4 121 152 (by simp [monthFromDayWithinYear]; omega)
        (by norm_num) (by norm_num) rfl rfl (by omega) (by omega)
    · exact mdc_helper true w 5 152 182 (by simp [monthFromDayWithinYear]; omega)
        (by norm_num) (by norm_num) rfl rfl (by omega) (by omega)
    · exact mdc_helper true w 6 182 213 (by simp [monthFromDayWithinYear]; omega)
        (by norm_num) (by norm_num) rfl rfl (by omega) (by omega)
    · exact mdc_helper true w 7 213 244 (by simp [monthFromDayWithinYear]; omega)
        (by norm_num) (by norm_num) rfl rfl (by omega) (by omega)
    · exact mdc_helper true w 8 244 274 (by simp [monthFromDayWithinYear]; omega)
        (by norm_num) (by norm_num) rfl rfl (by omega) (by omega)
    · exact mdc_helper true w 9 274 305 (by simp [monthFromDayWithinYear]; omega)
        (by norm_num) (by norm_num) rfl rfl (by omega) (by omega)
    · exact mdc_helper true w 10 305 335 (by simp [monthFromDayWithinYear]; omega)
        (by norm_num) (by norm_num) rfl rfl (by omega) (by omega)
    · exact mdc_helper true w 11 335 366 (by simp [monthFromDayWithinYear]; omega)
        (by norm_num) (by norm_num) rfl rfl (by omega) (by omega)

/-- No month spans more than 31 days. -/
theorem monthStart_gap (leap : Bool) (m : ℤ) (h0 : 0 ≤ m) (h1 : m ≤ 11) :
    monthStart leap (m + 1) ≤ monthStart leap m + 31 := by
  cases leap <;> simp [monthStart] <;> omega

/-- `monthStart` stays within the year length. -/
theorem monthStart_bounds (leap : Bool) (m : ℤ) :
    0 ≤ monthStart leap m ∧ monthStart leap m ≤ 366 := by
  cases leap <;> simp [monthStart] <;> omega

/-- Recomposition: rebuilding a time value from its UTC getters through
`MakeDay`/`MakeTime`/`MakeDate` reproduces it, provided its millisecond part
is zero. -/
theorem recompose (u : ℤ) (hms : u % 1000 = 0) :
    MakeDate (MakeDay (jsYearOf u) (jsMonthOf u) (jsDateOf u))
      (MakeTime (jsHoursOf u) (jsMinutesOf u) (jsSecondsOf u) 0) = u := by
  obtain ⟨hy1, hy2⟩ := yearFromDay_spec (jsDayOf u)
  have hYdef : jsYearOf u = yearFromDay (jsDayOf u) := rfl
  rw [← hYdef] at hy1 hy2
  obtain ⟨hw0, hw1⟩ := dayWithinYear_bounds u
  obtain ⟨hm0, hm1, hm2, hm3⟩ :=
    month_decomp (inLeapYear (jsYearOf u)) (jsDayWithinYear u) hw0 hw1
  have hM : jsMonthOf u =
      monthFromDayWithinYear (inLeapYear (jsYearOf u)) (jsDayWithinYear u) := rfl
  rw [← hM] at hm0 hm1 hm2 hm3
  have e1 : jsMonthOf u / 12 = 0 := by omega
  have e2 : jsMonthOf u % 12 = jsMonthOf u := by omega
  have hq : qtrunc 0 = 0 := rfl
  simp only [MakeDate, MakeDay, MakeTime, e1, e2, add_zero, hq, jsDateOf,
    jsHoursOf, jsMinutesOf, jsSecondsOf, jsDayWithinYear, jsDayOf, msWithinDay,
    msPerDay] at hy1 hy2 hm2 hm3 ⊢
  omega

/-- Ranges of the clock and day getters used when re-rendering a time value. -/
theorem getters_range (u : ℤ) :
    0 ≤ jsHoursOf u ∧ jsHoursOf u ≤ 23 ∧ 0 ≤ jsMinutesOf u ∧ jsMinutesOf u ≤ 59 ∧
      0 ≤ jsSecondsOf u ∧ jsSecondsOf u ≤ 59 ∧ 1 ≤ jsMonthOf u + 1 ∧
      jsMonthOf u + 1 ≤ 12 ∧ 1 ≤ jsDateOf u ∧ jsDateOf u ≤ 31 := by
  obtain ⟨hw0, hw1⟩ := dayWithinYear_bounds u
  obtain ⟨hm0, hm1, hm2, hm3⟩ :=
    month_decomp (inLeapYear (jsYearOf u)) (jsDayWithinYear u) hw0 hw1
  have hM : jsMonthOf u =
      monthFromDayWithinYear (inLeapYear (jsYearOf u)) (jsDayWithinYear u) := rfl
  rw [← hM] at hm0 hm1 hm2 hm3
  have hgap := monthStart_gap (inLeapYear (jsYearOf u)) (jsMonthOf u) hm0 hm1
  refine ⟨?_, ?_, ?_, ?_, ?_, ?_, by omega, by omega, ?_, ?_⟩ <;>
    simp only [jsHoursOf, jsMinutesOf, jsSecondsOf, jsDateOf, msWithinDay, msPerDay] <;>
    omega

/-- A time value whose UTC year is between 0 and 9999 is comfortably inside
the `TimeClip` range. -/
theorem year_range_bound (t : ℤ) (h0 : 0 ≤ jsYearOf t) (h1 : jsYearOf t ≤ 9999) :
    -100000000000000 ≤ t ∧ t ≤ 300000000000000 := by
  obtain ⟨hy1, hy2⟩ := yearFromDay_spec (jsDayOf t)
  have hYdef : jsYearOf t = yearFromDay (jsDayOf t) := rfl
  rw [← hYdef] at hy1 hy2
  have hb1 := dfy_bound (jsYearOf t)
  have hb2 := dfy_bound (jsYearOf t + 1)
  simp only [jsDayOf, msPerDay] at hy1 hy2
  omega

/-! ## Digit-string and splitter lemmas for the datetime formatter -/

/-- Further character facts about digits: they are none of the ISO separator
or punctuation characters. -/
theorem digitChar_props2 (n : ℕ) :
    digitChar n ≠ 'T' ∧ digitChar n ≠ 'Z' ∧ digitChar n ≠ ' ' ∧ digitChar n ≠ ':' := by
  have h10 : n % 10 < 10 := Nat.mod_lt _ (by norm_num)
  rw [digitChar]
  generalize n % 10 = k at h10
  interval_cases k <;> exact (by decide)

/-- Every character of a zero-padded digit rendering is a digit character. -/
theorem lpad_digits_mem {n w : ℕ} {c : Char} (h : c ∈ lpad (natDigits n) w '0') :
    ∃ m, c = digitChar m := by
  rcases mem_lpad h with h | h
  · exact ⟨0, by rw [h]; rfl⟩
  · exact mem_natDigits h

/-- Length of a zero-padded digit rendering with the value in range. -/
theorem lpad_digits_length {n : ℕ} (w : ℕ) (h1 : 1 ≤ w) (h : n < 10 ^ w) :
    (lpad (natDigits n) w '0').length = w := by
  have hle := length_natDigits_le h1 h
  rw [length_lpad]
  omega

/-- Zero padding does not change the numeric value of a digit string. -/
theorem lpad_digits_val (n w : ℕ) : digitsVal (lpad (natDigits n) w '0') = n := by
  rw [lpad, digitsVal_append, digitsVal_replicate_zero, digitsVal_natDigits]
  simp

/-- All characters of a zero-padded digit rendering satisfy `Char.isDigit`. -/
theorem lpad_digits_all (n w : ℕ) : (lpad (natDigits n) w '0').all Char.isDigit = true := by
  rw [List.all_eq_true]
  intro c hc
  obtain ⟨m, rfl⟩ := lpad_digits_mem hc
  exact isDigit_digitChar m

/-- A run of the ISO splitter over separator-free text keeps it in one piece. -/
theorem isoSplitGo_clean (s : JStr) : ∀ (acc : JStr) (fuel : ℕ), s.length ≤ fuel →
    (∀ c ∈ s, c ≠ 'T' ∧ c ≠ 'Z' ∧ c ≠ ' ') →
    isoSplitGo fuel acc s = [acc.reverse ++ s] := by
  induction s with
  | nil =>
    intro acc fuel _ _
    cases fuel <;> simp [isoSplitGo]
  | cons c rest ih =>
    intro acc fuel hf hc
    obtain ⟨f, rfl⟩ : ∃ f, fuel = f + 1 := ⟨fuel - 1, by simp at hf; omega⟩
    have hcc := hc c (by simp)
    have hunf : isoSplitGo (f + 1) acc (c :: rest) =
        if c = 'T' ∨ c = 'Z' then acc.reverse :: isoSplitGo f [] rest
        else if c = ' ' then
          acc.reverse :: isoSplitGo f [] (rest.dropWhile (fun x => x = ' '))
        else isoSplitGo f (c :: acc) rest := rfl
    rw [hunf, if_neg (by tauto), if_neg hcc.2.2,
      ih (c :: acc) f (by simp at hf; omega) (fun x hx => hc x (by simp [hx]))]
    simp

/-- A run of the ISO splitter cuts at a `T` or `Z` after separator-free text. -/
theorem isoSplitGo_sep (d : JStr) : ∀ (rest acc : JStr) (n : ℕ) (c : Char),
    (∀ x ∈ d, x ≠ 'T' ∧ x ≠ 'Z' ∧ x ≠ ' ') → (c = 'T' ∨ c = 'Z') →
    isoSplitGo (d.length + 1 + n) acc (d ++ c :: rest) =
      (acc.reverse ++ d) :: isoSplitGo n [] rest := by
  induction d with
  | nil =>
    intro rest acc n c _ hc
    have hlen : ([] : JStr).length + 1 + n = n + 1 := by simp; omega
    rw [hlen]
    have hunf : isoSplitGo (n + 1) acc ([] ++ c :: rest) =
        if c = 'T' ∨ c = 'Z' then acc.reverse :: isoSplitGo n [] rest
        else if c = ' ' then
          acc.reverse :: isoSplitGo n [] (rest.dropWhile (fun x => x = ' '))
        else isoSplitGo n (c :: acc) rest := rfl
    rw [hunf, if_pos hc]
    simp
  | cons a d ih =>
    intro rest acc n c hd hc
    have haa := hd a (by simp)
    have hlen : (a :: d).length + 1 + n = (d.length + 1 + n) + 1 := by simp; omega
    rw [hlen]
    have hunf : isoSplitGo (d.length + 1 + n + 1) acc ((a :: d) ++ c :: rest) =
        if a = 'T' ∨ a = 'Z' then acc.reverse :: isoSplitGo (d.length + 1 + n) [] (d ++ c :: rest)
        else if a = ' ' then
          acc.reverse :: isoSplitGo (d.length + 1 + n) []
            ((d ++ c :: rest).dropWhile (fun x => x = ' '))
        else isoSplitGo (d.length + 1 + n) (a :: acc) (d ++ c :: rest) := rfl
    rw [hunf, if_neg (by tauto), if_neg haa.2.2,
      ih rest (a :: acc) n c (fun x hx => hd x (by simp [hx])) hc]
    simp

/-- A run of the ISO splitter cuts at a space after separator-free text, when
the remainder does not begin with another space. -/
theorem isoSplitGo_space (d : JStr) : ∀ (rest acc : JStr) (n : ℕ),
    (∀ x ∈ d, x ≠ 'T' ∧ x ≠ 'Z' ∧ x ≠ ' ') →
    rest.dropWhile (fun x => x = ' ') = rest →
    isoSplitGo (d.length + 1 + n) acc (d ++ ' ' :: rest) =
      (acc.reverse ++ d) :: isoSplitGo n [] rest := by
  induction d with
  | nil =>
    intro rest acc n _ hr
    have hlen : ([] : JStr).length + 1 + n = n + 1 := by simp; omega
    rw [hlen]
    have hunf : isoSplitGo (n + 1) acc ([] ++ ' ' :: rest) =
        if (' ' : Char) = 'T' ∨ (' ' : Char) = 'Z' then acc.reverse :: isoSplitGo n [] rest
        else if (' ' : Char) = ' ' then
          acc.reverse :: isoSplitGo n [] (rest.dropWhile (fun x => x = ' '))
        else isoSplitGo n (' ' :: acc) rest := rfl
    rw [hunf, if_neg (by simp), if_pos rfl, hr]
    simp
  | cons a d ih =>
    intro rest acc n hd hr
    have haa := hd a (by simp)
    have hlen : (a :: d).length + 1 + n = (d.length + 1 + n) + 1 := by simp; omega
    rw [hlen]
    have hunf : isoSplitGo (d.length + 1 + n + 1) acc ((a :: d) ++ ' ' :: rest) =
        if a = 'T' ∨ a = 'Z' then
          acc.reverse :: isoSplitGo (d.length + 1 + n) [] (d ++ ' ' :: rest)
        else if a = ' ' then
          acc.reverse :: isoSplitGo (d.length + 1 + n) []
            ((d ++ ' ' :: rest).dropWhile (fun x => x = ' '))
        else isoSplitGo (d.length + 1 + n) (a :: acc) (d ++ ' ' :: rest) := rfl
    rw [hunf, if_neg (by tauto), if_neg haa.2.2,
      ih rest (a :: acc) n (fun x hx => hd x (by simp [hx])) hr]
    simp

/-- `parseUnsignedDecimal` on a nonempty all-digit string yields its value. -/
theorem parseUnsignedDecimal_digitList (s : JStr) (hne : s ≠ [])
    (hd : ∀ c ∈ s, ∃ m, c = digitChar m) :
    parseUnsignedDecimal s = some (.num ((digitsVal s : ℚ))) := by
  have hdig : ∀ x ∈ s, x.isDigit = true := fun x hx => by
    obtain ⟨m, rfl⟩ := hd x hx; exact isDigit_digitChar m
  have hinf : s ≠ jstr "Infinity" := by
    intro he
    obtain ⟨c, rest, rfl⟩ : ∃ c rest, s = c :: rest := by
      cases s with
      | nil => exact absurd rfl hne
      | cons a l => exact ⟨a, l, rfl⟩
    obtain ⟨m, hm⟩ := hd c (by simp)
    have hcI : c = 'I' := by
      have := congrArg List.head? he
      simpa [jstr] using this
    rw [hcI] at hm
    exact (digitChar_props m).2.2.2.2.2.1 hm.symm
  rw [parseUnsignedDecimal, if_neg hinf]
  have htw := takeWhile_all_true (p := Char.isDigit) (l := s) hdig
  rw [htw.1, htw.2]
  simp only [List.head?_nil]
  have hcond : ¬((none : Option Char) = some '.') := by simp
  simp only [if_neg hcond]
  rw [if_neg (by simp [hne])]
  have hexp : parseExponent [] = some 0 := by rfl
  rw [hexp]
  simp only [List.append_nil, List.length_nil, pow_zero]
  simp only [Option.some.injEq, JSNum.num.injEq]
  rw [value_helper]
  norm_num

/-- `ToNumber` of a nonempty all-digit string is its value. -/
theorem jsStringToNumber_digitList (s : JStr) (hne : s ≠ [])
    (hd : ∀ c ∈ s, ∃ m, c = digitChar m) :
    jsStringToNumber s = .num ((digitsVal s : ℚ)) := by
  obtain ⟨c, rest, rfl⟩ : ∃ c rest, s = c :: rest := by
    cases s with
    | nil => exact absurd rfl hne
    | cons a l => exact ⟨a, l, rfl⟩
  obtain ⟨k, hk⟩ := hd c (by simp)
  have hnoletter : ∀ ch : Char, (c :: rest)[1]? = some ch →
      ch ≠ 'x' ∧ ch ≠ 'X' ∧ ch ≠ 'o' ∧ ch ≠ 'O' ∧ ch ≠ 'b' ∧ ch ≠ 'B' := by
    intro ch hch
    have hh : rest.head? = some ch := by
      cases rest with
      | nil => simp at hch
      | cons a l => simpa using hch
    obtain ⟨m, rfl⟩ := hd ch (List.mem_cons_of_mem _ (head?_some_mem hh))
    obtain ⟨_, _, _, _, _, _, _, _, c1, c2, c3, c4, c5, c6⟩ := digitChar_props m
    exact ⟨c1, c2, c3, c4, c5, c6⟩
  simp only [jsStringToNumber]
  have htr : jsTrim (c :: rest) = c :: rest :=
    jsTrim_eq_self (fun x hx => by obtain ⟨m, rfl⟩ := hd x hx; exact ws_digitChar m)
  rw [htr]
  rw [if_neg (by simp)]
  rw [if_neg (by
    rintro ⟨hh, hxx⟩
    rcases hxx with hxx | hxx
    · exact (hnoletter _ hxx).1 rfl
    · exact (hnoletter _ hxx).2.1 rfl)]
  rw [if_neg (by
    rintro ⟨hh, hxx⟩
    rcases hxx with hxx | hxx
    · exact (hnoletter _ hxx).2.2.1 rfl
    · exact (hnoletter _ hxx).2.2.2.1 rfl)]
  rw [if_neg (by
    rintro ⟨hh, hxx⟩
    rcases hxx with hxx | hxx
    · exact (hnoletter _ hxx).2.2.2.2.1 rfl
    · exact (hnoletter _ hxx).2.2.2.2.2 rfl)]
  rw [parseSignedDecimal]
  rw [if_neg (by
    simp only [List.head?_cons, Option.some.injEq]
    rw [hk]
    exact fun hcc => (digitChar_props k).2.2.2.2.1 hcc)]
  rw [if_neg (by
    simp only [List.head?_cons, Option.some.injEq]
    rw [hk]
    exact fun hcc => (digitChar_props k).2.2.2.1 hcc)]
  rw [parseUnsignedDecimal_digitList _ (by simp) hd]
  rfl

/-- `1 * capture || 0` of an all-digit capture is its value. -/
theorem capIntOr0_digitList (s : JStr) (hne : s ≠ [])
    (hd : ∀ c ∈ s, ∃ m, c = digitChar m) :
    capIntOr0 (some s) = (digitsVal s : ℤ) := by
  simp only [capIntOr0]
  rw [jsStringToNumber_digitList s hne hd]
  show qtrunc ((digitsVal s : ℚ)) = (digitsVal s : ℤ)
  rw [qtrunc]
  simp only [Rat.num_natCast, Rat.den_natCast, Nat.cast_one, Int.tdiv_one]

/-- The month argument of an all-digit capture is its value minus one. -/
theorem capMonthArg_digitList (s : JStr) (hne : s ≠ [])
    (hd : ∀ c ∈ s, ∃ m, c = digitChar m) :
    capMonthArg (some s) = (digitsVal s : ℤ) - 1 := by
  simp only [capMonthArg]
  rw [jsStringToNumber_digitList s hne hd]
  show qtrunc ((digitsVal s : ℚ)) - 1 = (digitsVal s : ℤ) - 1
  rw [qtrunc]
  simp only [Rat.num_natCast, Rat.den_natCast, Nat.cast_one, Int.tdiv_one]

/-- The zone captures carry their sign into the value. -/
theorem capIntOr0_signed (neg : Bool) (s : JStr) (hne : s ≠ [])
    (hd : ∀ c ∈ s, ∃ m, c = digitChar m) :
    capIntOr0 (some ((if neg then '-' else '+') :: s)) =
      zsignum neg * (digitsVal s : ℤ) := by
  have htr : ∀ c0 : Char, isJsWhitespace c0 = false →
      jsTrim (c0 :: s) = c0 :: s := fun c0 hc0 =>
    jsTrim_eq_self (by
      intro x hx
      rcases List.mem_cons.mp hx with rfl | hx
      · exact hc0
      · obtain ⟨m, rfl⟩ := hd x hx; exact ws_digitChar m)
  cases neg with
  | false =>
    simp only [if_false, Bool.false_eq_true, capIntOr0]
    simp only [jsStringToNumber]
    rw [htr '+' (by decide)]
    rw [if_neg (by simp)]
    rw [if_neg (by rintro ⟨hh, _⟩; simp at hh)]
    rw [if_neg (by rintro ⟨hh, _⟩; simp at hh)]
    rw [if_neg (by rintro ⟨hh, _⟩; simp at hh)]
    rw [parseSignedDecimal]
    rw [if_pos (by simp)]
    simp only [List.tail_cons]
    rw [parseUnsignedDecimal_digitList _ hne hd]
    show qtrunc ((digitsVal s : ℚ)) = zsignum false * (digitsVal s : ℤ)
    rw [qtrunc, zsignum]
    simp [Rat.num_natCast, Rat.den_natCast, Int.tdiv_one]
  | true =>
    simp only [if_true, capIntOr0]
    simp only [jsStringToNumber]
    rw [htr '-' (by decide)]
    rw [if_neg (by simp)]
    rw [if_neg (by rintro ⟨hh, _⟩; simp at hh)]
    rw [if_neg (by rintro ⟨hh, _⟩; simp at hh)]
    rw [if_neg (by rintro ⟨hh, _⟩; simp at hh)]
    rw [parseSignedDecimal]
    rw [if_neg (by simp)]
    rw [if_pos (by simp)]
    simp only [List.tail_cons]
    rw [parseUnsignedDecimal_digitList _ hne hd]
    show qtrunc (qneg ((digitsVal s : ℚ))) = zsignum true * (digitsVal s : ℤ)
    rw [qtrunc, qneg_eq, zsignum]
    simp [Rat.num_neg_eq_neg_num, Rat.den_neg_eq_den, Rat.num_natCast,
      Rat.den_natCast, Int.tdiv_one]

/-- A list of length 2 is a pair of elements. -/
theorem jstr_length_two {l : JStr} (h : l.length = 2) : ∃ a b, l = [a, b] := by
  rcases l with _ | ⟨a, _ | ⟨b, _ | ⟨c, t⟩⟩⟩ <;> simp at h
  exact ⟨a, b, rfl⟩

/-- A list of length 4 is a quadruple of elements. -/
theorem jstr_length_four {l : JStr} (h : l.length = 4) :
    ∃ a b c d, l = [a, b, c, d] := by
  rcases l with _ | ⟨a, _ | ⟨b, _ | ⟨c, _ | ⟨d, _ | ⟨e, t⟩⟩⟩⟩⟩ <;> simp at h
  exact ⟨a, b, c, d, rfl⟩

/-- `DATE_RE` matches an unsigned fixed-width date made of digits. -/
theorem matchDATE_mk (y0 y1 y2 y3 m0 m1 d0 d1 : Char)
    (h0 : y0.isDigit = true) (h1 : y1.isDigit = true) (h2 : y2.isDigit = true)
    (h3 : y3.isDigit = true) (h4 : m0.isDigit = true) (h5 : m1.isDigit = true)
    (h6 : d0.isDigit = true) (h7 : d1.isDigit = true)
    (hny : ¬(y0 = '+' ∨ y0 = '-')) :
    matchDATE [y0, y1, y2, y3, '-', m0, m1, '-', d0, d1] =
      some ([y0, y1, y2, y3], [m0, m1], [d0, d1]) := by
  simp only [matchDATE, List.head?_cons]
  rw [if_neg hny]
  rw [if_pos]
  · rfl
  · refine ⟨rfl, ?_, rfl, ?_, rfl, ?_⟩
    · exact show ([y0, y1, y2, y3].all Char.isDigit) = true by simp [h0, h1, h2, h3]
    · exact show ([m0, m1].all Char.isDigit) = true by simp [h4, h5]
    · exact show ([d0, d1].all Char.isDigit) = true by simp [h6, h7]

/-- `TIME_RE` matches a fixed-width digit time with no millisecond group. -/
theorem matchTIME_mk (a0 a1 b0 b1 c0 c1 : Char)
    (h0 : a0.isDigit = true) (h1 : a1.isDigit = true) (h2 : b0.isDigit = true)
    (h3 : b1.isDigit = true) (h4 : c0.isDigit = true) (h5 : c1.isDigit = true) :
    matchTIME [a0, a1, ':', b0, b1, ':', c0, c1] =
      some ([a0, a1], [b0, b1], [c0, c1], none) := by
  simp only [matchTIME]
  rw [if_pos]
  · rfl
  · refine ⟨Or.inl rfl, ?_, rfl, ?_, rfl, ?_, Or.inl rfl⟩
    · exact show ([a0, a1].all Char.isDigit) = true by simp [h0, h1]
    · exact show ([b0, b1].all Char.isDigit) = true by simp [h2, h3]
    · exact show ([c0, c1].all Char.isDigit) = true by simp [h4, h5]

/-- `ZONE_RE` matches a signed, colon-separated fixed-width digit offset. -/
theorem matchZONE_mk (neg : Bool) (a0 a1 b0 b1 : Char)
    (h0 : a0.isDigit = true) (h1 : a1.isDigit = true) (h2 : b0.isDigit = true)
    (h3 : b1.isDigit = true) :
    matchZONE ((if neg then '-' else '+') :: [a0, a1, ':', b0, b1]) =
      some ((if neg then '-' else '+') :: [a0, a1], [b0, b1]) := by
  cases neg <;>
    · simp only [if_true, if_false, Bool.false_eq_true, matchZONE, List.head?_cons]
      rw [if_pos]
      · rfl
      · refine ⟨by simp, ?_, Or.inr ⟨rfl, rfl, ?_⟩⟩
        · exact show ([a0, a1].all Char.isDigit) = true by simp [h0, h1]
        · exact show ([b0, b1].all Char.isDigit) = true by simp [h2, h3]

/-- `dropWhile` is the identity when the first element already fails the
predicate. -/
theorem dropWhile_eq_self_of_head {p : Char → Bool} {s : JStr}
    (h : ∀ c, s.head? = some c → p c = false) : s.dropWhile p = s := by
  cases s with
  | nil => rfl
  | cons a l =>
    rw [List.dropWhile_cons, h a rfl]
    simp

/-- Trimming only inspects the ends of a string. -/
theorem jsTrim_ends {s : JStr}
    (hh : ∀ c, s.head? = some c → isJsWhitespace c = false)
    (hl : ∀ c, s.getLast? = some c → isJsWhitespace c = false) : jsTrim s = s := by
  rw [jsTrim, dropWhile_eq_self_of_head hh,
    dropWhile_eq_self_of_head (fun c hc => hl c (by rwa [← List.head?_reverse])),
    List.reverse_reverse]

/-- Digit characters are not ISO separators. -/
theorem clean_digitChar {c : Char} (h : ∃ m, c = digitChar m) :
    c ≠ 'T' ∧ c ≠ 'Z' ∧ c ≠ ' ' := by
  obtain ⟨m, rfl⟩ := h
  obtain ⟨p1, p2, p3, _⟩ := digitChar_props2 m
  exact ⟨p1, p2, p3⟩

/-- The ISO splitter cuts a `date T time zone` string into its three parts. -/
theorem isoSplit_three (d t z : JStr)
    (hd : ∀ x ∈ d, x ≠ 'T' ∧ x ≠ 'Z' ∧ x ≠ ' ')
    (ht : ∀ x ∈ t, x ≠ 'T' ∧ x ≠ 'Z' ∧ x ≠ ' ')
    (hz : ∀ x ∈ z, x ≠ 'T' ∧ x ≠ 'Z' ∧ x ≠ ' ') :
    isoSplit (d ++ 'T' :: (t ++ ' ' :: z)) = [d, t, z] := by
  rw [isoSplit]
  have hlen : (d ++ 'T' :: (t ++ ' ' :: z)).length =
      d.length + 1 + (t.length + 1 + z.length) := by simp; omega
  have hzdrop : z.dropWhile (fun x => x = ' ') = z :=
    dropWhile_eq_self_of_forall (fun c hc => by simpa using (hz c hc).2.2)
  rw [hlen, isoSplitGo_sep d _ [] _ 'T' hd (Or.inl rfl),
    isoSplitGo_space t _ [] _ ht hzdrop, isoSplitGo_clean z [] z.length le_rfl hz]
  simp

/-- The ISO splitter cuts a `date time` string into its two parts. -/
theorem isoSplit_two (d t : JStr)
    (hd : ∀ x ∈ d, x ≠ 'T' ∧ x ≠ 'Z' ∧ x ≠ ' ')
    (ht : ∀ x ∈ t, x ≠ 'T' ∧ x ≠ 'Z' ∧ x ≠ ' ') :
    isoSplit (d ++ ' ' :: t) = [d, t] := by
  rw [isoSplit]
  have hlen : (d ++ ' ' :: t).length = d.length + 1 + t.length := by simp; omega
  have htdrop : t.dropWhile (fun x => x = ' ') = t :=
    dropWhile_eq_self_of_forall (fun c hc => by simpa using (ht c hc).2.2)
  rw [hlen, isoSplitGo_space d _ [] _ hd htdrop,
    isoSplitGo_clean t [] t.length le_rfl ht]
  simp

/-- The instant built from bounded fields is far inside the clip range. -/
theorem dtInstant_bound (Y Mo D h mi se : ℕ) (neg : Bool) (zh zm : ℕ)
    (hY2 : Y ≤ 9999) (hMo : Mo < 100) (hD : D < 100) (hh : h < 100) (hmi : mi < 100)
    (hse : se < 100) (hzh : zh < 100) (hzm : zm < 100) :
    -8640000000000000 ≤ dtInstant Y Mo D h mi se neg zh zm ∧
      dtInstant Y Mo D h mi se neg zh zm ≤ 8640000000000000 := by
  have hms := monthStart_bounds (inLeapYear ((Y : ℤ) + ((Mo : ℤ) - 1) / 12))
    (((Mo : ℤ) - 1) % 12)
  have hdf := dfy_bound ((Y : ℤ) + ((Mo : ℤ) - 1) / 12)
  have hq : qtrunc 0 = 0 := rfl
  simp only [dtInstant, MakeDate, MakeDay, MakeTime, zsignum, msPerDay, hq]
  cases neg <;> simp only [if_true, if_false, Bool.false_eq_true] <;> omega

/-- A digit-character assumption gives `Char.isDigit`. -/
theorem digit_of_mem {c : Char} (h : ∃ m, c = digitChar m) : c.isDigit = true := by
  obtain ⟨m, rfl⟩ := h
  exact isDigit_digitChar m

/-- `fromRaw` under the default configuration on a fully destructured
`date T time zone` input: the fields are parsed, the zone offset is added to
the clock fields, and the local rendering of the resulting instant (shifted
by the fixed local offset `L`) is produced. -/
theorem fromRaw_input_core (L : ℤ) (neg : Bool)
    (y0 y1 y2 y3 a0 a1 b0 b1 c0 c1 e0 e1 f0 f1 g0 g1 k0 k1 : Char)
    (hy : ∀ c ∈ [y0, y1, y2, y3], ∃ m, c = digitChar m)
    (ha : ∀ c ∈ [a0, a1], ∃ m, c = digitChar m)
    (hb : ∀ c ∈ [b0, b1], ∃ m, c = digitChar m)
    (hc : ∀ c ∈ [c0, c1], ∃ m, c = digitChar m)
    (he : ∀ c ∈ [e0, e1], ∃ m, c = digitChar m)
    (hf : ∀ c ∈ [f0, f1], ∃ m, c = digitChar m)
    (hg : ∀ c ∈ [g0, g1], ∃ m, c = digitChar m)
    (hk : ∀ c ∈ [k0, k1], ∃ m, c = digitChar m)
    (hclip :
      MakeDate
          (MakeDay (remapYear (digitsVal [y0, y1, y2, y3]))
            ((digitsVal [a0, a1] : ℤ) - 1) (digitsVal [b0, b1]))
          (MakeTime ((digitsVal [c0, c1] : ℤ) + zsignum neg * (digitsVal [g0, g1] : ℤ))
            ((digitsVal [e0, e1] : ℤ) + (digitsVal [k0, k1] : ℤ))
            (digitsVal [f0, f1] : ℤ) 0) ≤ 8640000000000000 ∧
        -8640000000000000 ≤
          MakeDate
            (MakeDay (remapYear (digitsVal [y0, y1, y2, y3]))
              ((digitsVal [a0, a1] : ℤ) - 1) (digitsVal [b0, b1]))
            (MakeTime ((digitsVal [c0, c1] : ℤ) + zsignum neg * (digitsVal [g0, g1] : ℤ))
              ((digitsVal [e0, e1] : ℤ) + (digitsVal [k0, k1] : ℤ))
              (digitsVal [f0, f1] : ℤ) 0)) :
    Backgrid.DatetimeFormatter.fromRaw Backgrid.DTdefaults L
        ([y0, y1, y2, y3, '-', a0, a1, '-', b0, b1] ++
          'T' :: ([c0, c1, ':', e0, e1, ':', f0, f1] ++
            ' ' :: ((if neg then '-' else '+') :: [g0, g1, ':', k0, k1]))) =
      localRender
        (MakeDate
            (MakeDay (remapYear (digitsVal [y0, y1, y2, y3]))
              ((digitsVal [a0, a1] : ℤ) - 1) (digitsVal [b0, b1]))
            (MakeTime ((digitsVal [c0, c1] : ℤ) + zsignum neg * (digitsVal [g0, g1] : ℤ))
              ((digitsVal [e0, e1] : ℤ) + (digitsVal [k0, k1] : ℤ))
              (digitsVal [f0, f1] : ℤ) 0) + L) := by
  have hsgn : ∀ x ∈ ((if neg then '-' else '+') :: [g0, g1, ':', k0, k1]),
      x ≠ 'T' ∧ x ≠ 'Z' ∧ x ≠ ' ' := by
    intro x hx
    simp only [List.mem_cons, List.not_mem_nil, or_false] at hx
    rcases hx with rfl | rfl | rfl | rfl | rfl | rfl
    · cases neg <;> simp
    · exact clean_digitChar (hg _ (by simp))
    · exact clean_digitChar (hg _ (by simp))
    · exact ⟨by decide, by decide, by decide⟩
    · exact clean_digitChar (hk _ (by simp))
    · exact clean_digitChar (hk _ (by simp))
  have hdate : ∀ x ∈ [y0, y1, y2, y3, '-', a0, a1, '-', b0, b1],
      x ≠ 'T' ∧ x ≠ 'Z' ∧ x ≠ ' ' := by
    intro x hx
    simp only [List.mem_cons, List.not_mem_nil, or_false] at hx
    rcases hx with rfl | rfl | rfl | rfl | rfl | rfl | rfl | rfl | rfl | rfl
    · exact clean_digitChar (hy _ (by simp))
    · exact clean_digitChar (hy _ (by simp))
    · exact clean_digitChar (hy _ (by simp))
    · exact clean_digitChar (hy _ (by simp))
    · exact ⟨by decide, by decide, by decide⟩
    · exact clean_digitChar (ha _ (by simp))
    · exact clean_digitChar (ha _ (by simp))
    · exact ⟨by decide, by decide, by decide⟩
    · exact clean_digitChar (hb _ (by simp))
    · exact clean_digitChar (hb _ (by simp))
  have htime : ∀ x ∈ [c0, c1, ':', e0, e1, ':', f0, f1],
      x ≠ 'T' ∧ x ≠ 'Z' ∧ x ≠ ' ' := by
    intro x hx
    simp only [List.mem_cons, List.not_mem_nil, or_false] at hx
    rcases hx with rfl | rfl | rfl | rfl | rfl | rfl | rfl | rfl
    · exact clean_digitChar (hc _ (by simp))
    · exact clean_digitChar (hc _ (by simp))
    · exact ⟨by decide, by decide, by decide⟩
    · exact clean_digitChar (he _ (by simp))
    · exact clean_digitChar (he _ (by simp))
    · exact ⟨by decide, by decide, by decide⟩
    · exact clean_digitChar (hf _ (by simp))
    · exact clean_digitChar (hf _ (by simp))
  have htrim : jsTrim ([y0, y1, y2, y3, '-', a0, a1, '-', b0, b1] ++
      'T' :: ([c0, c1, ':', e0, e1, ':', f0, f1] ++
        ' ' :: ((if neg then '-' else '+') :: [g0, g1, ':', k0, k1]))) =
      [y0, y1, y2, y3, '-', a0, a1, '-', b0, b1] ++
      'T' :: ([c0, c1, ':', e0, e1, ':', f0, f1] ++
        ' ' :: ((if neg then '-' else '+') :: [g0, g1, ':', k0, k1])) := by
    apply jsTrim_ends
    · intro c hcc
      simp only [List.cons_append, List.head?_cons, Option.some.injEq] at hcc
      subst hcc
      obtain ⟨m, rfl⟩ := hy y0 (by simp)
      exact ws_digitChar m
    · intro c hcc
      have hlast : ([y0, y1, y2, y3, '-', a0, a1, '-', b0, b1] ++
          'T' :: ([c0, c1, ':', e0, e1, ':', f0, f1] ++
            ' ' :: ((if neg then '-' else '+') :: [g0, g1, ':', k0, k1]))).getLast? =
          some k1 := by
        have hform : ([y0, y1, y2, y3, '-', a0, a1, '-', b0, b1] ++
            'T' :: ([c0, c1, ':', e0, e1, ':', f0, f1] ++
              ' ' :: ((if neg then '-' else '+') :: [g0, g1, ':', k0, k1]))) =
            ([y0, y1, y2, y3, '-', a0, a1, '-', b0, b1] ++
              'T' :: ([c0, c1, ':', e0, e1, ':', f0, f1] ++
                ' ' :: ((if neg then '-' else '+') :: [g0, g1, ':', k0]))) ++ [k1] := by
          simp
        rw [hform, List.getLast?_concat]
      rw [hlast] at hcc
      obtain rfl : k1 = c := by simpa using hcc
      obtain ⟨m, rfl⟩ := hk k1 (by simp)
      exact ws_digitChar m
  have hsplit := isoSplit_three _ _ _ hdate htime hsgn
  simp only [Backgrid.DatetimeFormatter.fromRaw]
  rw [htrim, hsplit]
  have hms0 : capMilliArg none = 0 := rfl
  simp only [Backgrid.DTdefaults, reduceIte, List.headD_cons]
  have hi1 : (([y0, y1, y2, y3, '-', a0, a1, '-', b0, b1] :: [c0, c1, ':', e0, e1, ':', f0, f1] ::
      ((if neg then '-' else '+') :: [g0, g1, ':', k0, k1]) :: []) : List JStr)[1]? =
      some [c0, c1, ':', e0, e1, ':', f0, f1] := rfl
  have hi2 : (([y0, y1, y2, y3, '-', a0, a1, '-', b0, b1] :: [c0, c1, ':', e0, e1, ':', f0, f1] ::
      ((if neg then '-' else '+') :: [g0, g1, ':', k0, k1]) :: []) : List JStr)[2]? =
      some ((if neg then '-' else '+') :: [g0, g1, ':', k0, k1]) := rfl
  rw [hi1, hi2]
  have hmd := matchDATE_mk y0 y1 y2 y3 a0 a1 b0 b1
    (digit_of_mem (hy y0 (by simp))) (digit_of_mem (hy y1 (by simp)))
    (digit_of_mem (hy y2 (by simp))) (digit_of_mem (hy y3 (by simp)))
    (digit_of_mem (ha a0 (by simp))) (digit_of_mem (ha a1 (by simp)))
    (digit_of_mem (hb b0 (by simp))) (digit_of_mem (hb b1 (by simp)))
    (by
      obtain ⟨m, rfl⟩ := hy y0 (by simp)
      have hp := digitChar_props m
      rintro (hq | hq)
      · exact hp.2.2.2.2.1 hq
      · exact hp.2.2.2.1 hq)
  have hmt := matchTIME_mk c0 c1 e0 e1 f0 f1
    (digit_of_mem (hc c0 (by simp))) (digit_of_mem (hc c1 (by simp)))
    (digit_of_mem (he e0 (by simp))) (digit_of_mem (he e1 (by simp)))
    (digit_of_mem (hf f0 (by simp))) (digit_of_mem (hf f1 (by simp)))
  have hmz := matchZONE_mk neg g0 g1 k0 k1
    (digit_of_mem (hg g0 (by simp))) (digit_of_mem (hg g1 (by simp)))
    (digit_of_mem (hk k0 (by simp))) (digit_of_mem (hk k1 (by simp)))
  have hbt : (some [c0, c1, ':', e0, e1, ':', f0, f1]).bind matchTIME =
      matchTIME [c0, c1, ':', e0, e1, ':', f0, f1] := rfl
  have hbz : (some ((if neg then '-' else '+') :: [g0, g1, ':', k0, k1])).bind matchZONE =
      matchZONE ((if neg then '-' else '+') :: [g0, g1, ':', k0, k1]) := rfl
  rw [hbt, hbz, hmd, hmt, hmz]
  have hmap1 : (some ([y0, y1, y2, y3], [a0, a1], [b0, b1])).map
      (fun z => z.1) = some [y0, y1, y2, y3] := rfl
  have hmap2 : (some ([y0, y1, y2, y3], [a0, a1], [b0, b1])).map
      (fun z => z.2.1) = some [a0, a1] := rfl
  have hmap3 : (some ([y0, y1, y2, y3], [a0, a1], [b0, b1])).map
      (fun z => z.2.2) = some [b0, b1] := rfl
  have hmap4 : (some ([c0, c1], [e0, e1], [f0, f1], (none : Option JStr))).map
      (fun z => z.1) = some [c0, c1] := rfl
  have hmap5 : (some ([c0, c1], [e0, e1], [f0, f1], (none : Option JStr))).map
      (fun z => z.2.1) = some [e0, e1] := rfl
  have hmap6 : (some ([c0, c1], [e0, e1], [f0, f1], (none : Option JStr))).map
      (fun z => z.2.2.1) = some [f0, f1] := rfl
  have hbind7 : (some ([c0, c1], [e0, e1], [f0, f1], (none : Option JStr))).bind
      (fun z => z.2.2.2) = none := rfl
  have hmap8 : (some ((if neg then '-' else '+') :: [g0, g1], [k0, k1])).map
      (fun z => z.1) = some ((if neg then '-' else '+') :: [g0, g1]) := rfl
  have hmap9 : (some ((if neg then '-' else '+') :: [g0, g1], [k0, k1])).map
      (fun z => z.2) = some [k0, k1] := rfl
  rw [hmap1, hmap2, hmap3, hmap4, hmap5, hmap6, hbind7, hmap8, hmap9, hms0]
  rw [capIntOr0_digitList [y0, y1, y2, y3] (by simp) hy,
    capMonthArg_digitList [a0, a1] (by simp) ha,
    capIntOr0_digitList [b0, b1] (by simp) hb,
    capIntOr0_digitList [c0, c1] (by simp) hc,
    capIntOr0_digitList [e0, e1] (by simp) he,
    capIntOr0_digitList [f0, f1] (by simp) hf,
    capIntOr0_signed neg [g0, g1] (by simp) hg,
    capIntOr0_digitList [k0, k1] (by simp) hk]
  rw [jsDateUTC, TimeClip, if_pos hclip]
  simp only [Option.map_some', localRender, jstr, List.append_assoc, List.cons_append,
    List.nil_append, Bool.false_eq_true, if_false, List.append_nil]

/-- `toRaw` under the default configuration on a fully destructured
`date time` local string (no zone): the fields are re-assembled as local
time, the fixed offset `L` is subtracted, and the UTC rendering with `T` and
`Z` is produced. -/
theorem toRaw_input_core (L : ℤ)
    (y0 y1 y2 y3 a0 a1 b0 b1 c0 c1 e0 e1 f0 f1 : Char)
    (hy : ∀ c ∈ [y0, y1, y2, y3], ∃ m, c = digitChar m)
    (ha : ∀ c ∈ [a0, a1], ∃ m, c = digitChar m)
    (hb : ∀ c ∈ [b0, b1], ∃ m, c = digitChar m)
    (hc : ∀ c ∈ [c0, c1], ∃ m, c = digitChar m)
    (he : ∀ c ∈ [e0, e1], ∃ m, c = digitChar m)
    (hf : ∀ c ∈ [f0, f1], ∃ m, c = digitChar m)
    (hclip :
      MakeDate
          (MakeDay (remapYear (digitsVal [y0, y1, y2, y3]))
            ((digitsVal [a0, a1] : ℤ) - 1) (digitsVal [b0, b1]))
          (MakeTime (digitsVal [c0, c1] : ℤ) (digitsVal [e0, e1] : ℤ)
            (digitsVal [f0, f1] : ℤ) 0) - L ≤ 8640000000000000 ∧
        -8640000000000000 ≤
          MakeDate
            (MakeDay (remapYear (digitsVal [y0, y1, y2, y3]))
              ((digitsVal [a0, a1] : ℤ) - 1) (digitsVal [b0, b1]))
            (MakeTime (digitsVal [c0, c1] : ℤ) (digitsVal [e0, e1] : ℤ)
              (digitsVal [f0, f1] : ℤ) 0) - L) :
    Backgrid.DatetimeFormatter.toRaw Backgrid.DTdefaults L
        ([y0, y1, y2, y3, '-', a0, a1, '-', b0, b1] ++
          ' ' :: [c0, c1, ':', e0, e1, ':', f0, f1]) =
      some (isoUTC
        (MakeDate
            (MakeDay (remapYear (digitsVal [y0, y1, y2, y3]))
              ((digitsVal [a0, a1] : ℤ) - 1) (digitsVal [b0, b1]))
            (MakeTime (digitsVal [c0, c1] : ℤ) (digitsVal [e0, e1] : ℤ)
              (digitsVal [f0, f1] : ℤ) 0) - L)) := by
  have hdate : ∀ x ∈ [y0, y1, y2, y3, '-', a0, a1, '-', b0, b1],
      x ≠ 'T' ∧ x ≠ 'Z' ∧ x ≠ ' ' := by
    intro x hx
    simp only [List.mem_cons, List.not_mem_nil, or_false] at hx
    rcases hx with rfl | rfl | rfl | rfl | rfl | rfl | rfl | rfl | rfl | rfl
    · exact clean_digitChar (hy _ (by simp))
    · exact clean_digitChar (hy _ (by simp))
    · exact clean_digitChar (hy _ (by simp))
    · exact clean_digitChar (hy _ (by simp))
    · exact ⟨by decide, by decide, by decide⟩
    · exact clean_digitChar (ha _ (by simp))
    · exact clean_digitChar (ha _ (by simp))
    · exact ⟨by decide, by decide, by decide⟩
    · exact clean_digitChar (hb _ (by simp))
    · exact clean_digitChar (hb _ (by simp))
  have htime : ∀ x ∈ [c0, c1, ':', e0, e1, ':', f0, f1],
      x ≠ 'T' ∧ x ≠ 'Z' ∧ x ≠ ' ' := by
    intro x hx
    simp only [List.mem_cons, List.not_mem_nil, or_false] at hx
    rcases hx with rfl | rfl | rfl | rfl | rfl | rfl | rfl | rfl
    · exact clean_digitChar (hc _ (by simp))
    · exact clean_digitChar (hc _ (by simp))
    · exact ⟨by decide, by decide, by decide⟩
    · exact clean_digitChar (he _ (by simp))
    · exact clean_digitChar (he _ (by simp))
    · exact ⟨by decide, by decide, by decide⟩
    · exact clean_digitChar (hf _ (by simp))
    · exact clean_digitChar (hf _ (by simp))
  have htrim : jsTrim ([y0, y1, y2, y3, '-', a0, a1, '-', b0, b1] ++
      ' ' :: [c0, c1, ':', e0, e1, ':', f0, f1]) =
      [y0, y1, y2, y3, '-', a0, a1, '-', b0, b1] ++
      ' ' :: [c0, c1, ':', e0, e1, ':', f0, f1] := by
    apply jsTrim_ends
    · intro c hcc
      simp only [List.cons_append, List.head?_cons, Option.some.injEq] at hcc
      subst hcc
      obtain ⟨m, rfl⟩ := hy y0 (by simp)
      exact ws_digitChar m
    · intro c hcc
      have hform : ([y0, y1, y2, y3, '-', a0, a1, '-', b0, b1] ++
          ' ' :: [c0, c1, ':', e0, e1, ':', f0, f1]) =
          ([y0, y1, y2, y3, '-', a0, a1, '-', b0, b1] ++
            ' ' :: [c0, c1, ':', e0, e1, ':', f0]) ++ [f1] := by
        simp
      rw [hform, List.getLast?_concat] at hcc
      obtain rfl : f1 = c := by simpa using hcc
      obtain ⟨m, rfl⟩ := hf f1 (by simp)
      exact ws_digitChar m
  have hsplit := isoSplit_two _ _ hdate htime
  simp only [Backgrid.DatetimeFormatter.toRaw]
  rw [htrim, hsplit]
  simp only [Backgrid.DTdefaults, reduceIte, List.headD_cons]
  have hi1 : (([y0, y1, y2, y3, '-', a0, a1, '-', b0, b1] ::
      [c0, c1, ':', e0, e1, ':', f0, f1] :: []) : List JStr)[1]? =
      some [c0, c1, ':', e0, e1, ':', f0, f1] := rfl
  have hi2 : (([y0, y1, y2, y3, '-', a0, a1, '-', b0, b1] ::
      [c0, c1, ':', e0, e1, ':', f0, f1] :: []) : List JStr)[2]? = none := rfl
  rw [hi1, hi2]
  have hmd := matchDATE_mk y0 y1 y2 y3 a0 a1 b0 b1
    (digit_of_mem (hy y0 (by simp))) (digit_of_mem (hy y1 (by simp)))
    (digit_of_mem (hy y2 (by simp))) (digit_of_mem (hy y3 (by simp)))
    (digit_of_mem (ha a0 (by simp))) (digit_of_mem (ha a1 (by simp)))
    (digit_of_mem (hb b0 (by simp))) (digit_of_mem (hb b1 (by simp)))
    (by
      obtain ⟨m, rfl⟩ := hy y0 (by simp)
      have hp := digitChar_props m
      rintro (hq | hq)
      · exact hp.2.2.2.2.1 hq
      · exact hp.2.2.2.1 hq)
  have hmt := matchTIME_mk c0 c1 e0 e1 f0 f1
    (digit_of_mem (hc c0 (by simp))) (digit_of_mem (hc c1 (by simp)))
    (digit_of_mem (he e0 (by simp))) (digit_of_mem (he e1 (by simp)))
    (digit_of_mem (hf f0 (by simp))) (digit_of_mem (hf f1 (by simp)))
  have hbt : (some [c0, c1, ':', e0, e1, ':', f0, f1]).bind matchTIME =
      matchTIME [c0, c1, ':', e0, e1, ':', f0, f1] := rfl
  have hbz : (none : Option JStr).bind matchZONE = none := rfl
  rw [hbt, hbz, hmd, hmt]
  have hmap1 : (some ([y0, y1, y2, y3], [a0, a1], [b0, b1])).map
      (fun w => w.1) = some [y0, y1, y2, y3] := rfl
  have hmap2 : (some ([y0, y1, y2, y3], [a0, a1], [b0, b1])).map
      (fun w => w.2.1) = some [a0, a1] := rfl
  have hmap3 : (some ([y0, y1, y2, y3], [a0, a1], [b0, b1])).map
      (fun w => w.2.2) = some [b0, b1] := rfl
  have hmap4 : (some ([c0, c1], [e0, e1], [f0, f1], (none : Option JStr))).map
      (fun w => w.1) = some [c0, c1] := rfl
  have hmap5 : (some ([c0, c1], [e0, e1], [f0, f1], (none : Option JStr))).map
      (fun w => w.2.1) = some [e0, e1] := rfl
  have hmap6 : (some ([c0, c1], [e0, e1], [f0, f1], (none : Option JStr))).map
      (fun w => w.2.2.1) = some [f0, f1] := rfl
  have hbind7 : (some ([c0, c1], [e0, e1], [f0, f1], (none : Option JStr))).bind
      (fun w => w.2.2.2) = none := rfl
  have hms0 : capMilliArg none = 0 := rfl
  rw [hmap1, hmap2, hmap3, hmap4, hmap5, hmap6, hbind7, hms0]
  rw [capIntOr0_digitList [y0, y1, y2, y3] (by simp) hy,
    capMonthArg_digitList [a0, a1] (by simp) ha,
    capIntOr0_digitList [b0, b1] (by simp) hb,
    capIntOr0_digitList [c0, c1] (by simp) hc,
    capIntOr0_digitList [e0, e1] (by simp) he,
    capIntOr0_digitList [f0, f1] (by simp) hf]
  rw [if_neg (by simp), if_neg (by simp), if_neg (by simp), if_neg (by simp)]
  rw [jsDateLocal, TimeClip, if_pos hclip]
  simp only [Option.map_some', isoUTC, jstr, List.append_assoc, List.cons_append,
    List.nil_append, Bool.false_eq_true, if_false, List.append_nil]

/-- `fromRaw` on a numeric-field input string: the string parses to the
zone-added instant and the local fields of that instant (shifted by `L`) are
rendered. -/
theorem fromRaw_mkInput (L : ℤ) (Y Mo D h mi se zh zm : ℕ) (neg : Bool)
    (hY1 : 1000 ≤ Y) (hY2 : Y ≤ 9999) (hMo : Mo < 100) (hD : D < 100) (hh2 : h < 100)
    (hmi : mi < 100) (hse : se < 100) (hzh : zh < 100) (hzm : zm < 100) :
    Backgrid.DatetimeFormatter.fromRaw Backgrid.DTdefaults L
        (mkDTInput Y Mo D h mi se neg zh zm) =
      localRender (dtInstant Y Mo D h mi se neg zh zm + L) := by
  obtain ⟨y0, y1, y2, y3, hY4⟩ :=
    jstr_length_four (lpad_digits_length 4 (by norm_num) (show Y < 10 ^ 4 by omega))
  obtain ⟨a0, a1, hA⟩ :=
    jstr_length_two (lpad_digits_length 2 (by norm_num) (show Mo < 10 ^ 2 by omega))
  obtain ⟨b0, b1, hB⟩ :=
    jstr_length_two (lpad_digits_length 2 (by norm_num) (show D < 10 ^ 2 by omega))
  obtain ⟨c0, c1, hC⟩ :=
    jstr_length_two (lpad_digits_length 2 (by norm_num) (show h < 10 ^ 2 by omega))
  obtain ⟨e0, e1, hE⟩ :=
    jstr_length_two (lpad_digits_length 2 (by norm_num) (show mi < 10 ^ 2 by omega))
  obtain ⟨f0, f1, hF⟩ :=
    jstr_length_two (lpad_digits_length 2 (by norm_num) (show se < 10 ^ 2 by omega))
  obtain ⟨g0, g1, hG⟩ :=
    jstr_length_two (lpad_digits_length 2 (by norm_num) (show zh < 10 ^ 2 by omega))
  obtain ⟨k0, k1, hK⟩ :=
    jstr_length_two (lpad_digits_length 2 (by norm_num) (show zm < 10 ^ 2 by omega))
  have hy : ∀ c ∈ [y0, y1, y2, y3], ∃ m, c = digitChar m := by
    rw [← hY4]; exact fun c hc => lpad_digits_mem hc
  have ha : ∀ c ∈ [a0, a1], ∃ m, c = digitChar m := by
    rw [← hA]; exact fun c hc => lpad_digits_mem hc
  have hb : ∀ c ∈ [b0, b1], ∃ m, c = digitChar m := by
    rw [← hB]; exact fun c hc => lpad_digits_mem hc
  have hc : ∀ c ∈ [c0, c1], ∃ m, c = digitChar m := by
    rw [← hC]; exact fun c hc => lpad_digits_mem hc
  have he : ∀ c ∈ [e0, e1], ∃ m, c = digitChar m := by
    rw [← hE]; exact fun c hc => lpad_digits_mem hc
  have hf : ∀ c ∈ [f0, f1], ∃ m, c = digitChar m := by
    rw [← hF]; exact fun c hc => lpad_digits_mem hc
  have hg : ∀ c ∈ [g0, g1], ∃ m, c = digitChar m := by
    rw [← hG]; exact fun c hc => lpad_digits_mem hc
  have hk : ∀ c ∈ [k0, k1], ∃ m, c = digitChar m := by
    rw [← hK]; exact fun c hc => lpad_digits_mem hc
  have hYv : digitsVal [y0, y1, y2, y3] = Y := by rw [← hY4]; exact lpad_digits_val Y 4
  have hAv : digitsVal [a0, a1] = Mo := by rw [← hA]; exact lpad_digits_val Mo 2
  have hBv : digitsVal [b0, b1] = D := by rw [← hB]; exact lpad_digits_val D 2
  have hCv : digitsVal [c0, c1] = h := by rw [← hC]; exact lpad_digits_val h 2
  have hEv : digitsVal [e0, e1] = mi := by rw [← hE]; exact lpad_digits_val mi 2
  have hFv : digitsVal [f0, f1] = se := by rw [← hF]; exact lpad_digits_val se 2
  have hGv : digitsVal [g0, g1] = zh := by rw [← hG]; exact lpad_digits_val zh 2
  have hKv : digitsVal [k0, k1] = zm := by rw [← hK]; exact lpad_digits_val zm 2
  have hrem : remapYear (Y : ℤ) = (Y : ℤ) := by
    rw [remapYear, if_neg (by omega)]
  have hbd := dtInstant_bound Y Mo D h mi se neg zh zm hY2 hMo hD hh2 hmi hse hzh hzm
  have hshape : mkDTInput Y Mo D h mi se neg zh zm =
      [y0, y1, y2, y3, '-', a0, a1, '-', b0, b1] ++
        'T' :: ([c0, c1, ':', e0, e1, ':', f0, f1] ++
          ' ' :: ((if neg then '-' else '+') :: [g0, g1, ':', k0, k1])) := by
    rw [mkDTInput, hY4, hA, hB, hC, hE, hF, hG, hK]
    simp
  rw [hshape, fromRaw_input_core L neg y0 y1 y2 y3 a0 a1 b0 b1 c0 c1 e0 e1 f0 f1 g0 g1
    k0 k1 hy ha hb hc he hf hg hk
    (by
      rw [hYv, hAv, hBv, hCv, hEv, hFv, hGv, hKv, hrem]
      exact ⟨hbd.2, hbd.1⟩)]
  rw [hYv, hAv, hBv, hCv, hEv, hFv, hGv, hKv, hrem]
  rfl

/-- A nonnegative getter value renders as its zero-padded digit string. -/
theorem renderNum_nonneg (v : ℤ) (hv : 0 ≤ v) (w : ℕ) :
    renderNum (some v) w = lpad (natDigits v.toNat) w '0' := by
  rw [renderNum]
  congr 1
  rw [optInt, intDigits, if_neg (by omega)]
  congr 1
  omega

/-- `toRaw` inverts the local rendering: re-parsing the local string, treating
it as local time and subtracting the offset, then rendering in UTC. -/
theorem toRaw_localRender (L u : ℤ) (hms : u % 1000 = 0)
    (hy1 : 100 ≤ jsYearOf u) (hy2 : jsYearOf u ≤ 9999)
    (hclip : u - L ≤ 8640000000000000 ∧ -8640000000000000 ≤ u - L) :
    Backgrid.DatetimeFormatter.toRaw Backgrid.DTdefaults L (localRender u) =
      some (isoUTC (u - L)) := by
  obtain ⟨hh0, hh1, hm0, hm1, hs0, hs1, hmo0, hmo1, hd0, hd1⟩ := getters_range u
  obtain ⟨y0, y1, y2, y3, hY4⟩ := jstr_length_four
    (lpad_digits_length 4 (by norm_num) (show (jsYearOf u).toNat < 10 ^ 4 by omega))
  obtain ⟨a0, a1, hA⟩ := jstr_length_two
    (lpad_digits_length 2 (by norm_num) (show (jsMonthOf u + 1).toNat < 10 ^ 2 by omega))
  obtain ⟨b0, b1, hB⟩ := jstr_length_two
    (lpad_digits_length 2 (by norm_num) (show (jsDateOf u).toNat < 10 ^ 2 by omega))
  obtain ⟨c0, c1, hC⟩ := jstr_length_two
    (lpad_digits_length 2 (by norm_num) (show (jsHoursOf u).toNat < 10 ^ 2 by omega))
  obtain ⟨e0, e1, hE⟩ := jstr_length_two
    (lpad_digits_length 2 (by norm_num) (show (jsMinutesOf u).toNat < 10 ^ 2 by omega))
  obtain ⟨f0, f1, hF⟩ := jstr_length_two
    (lpad_digits_length 2 (by norm_num) (show (jsSecondsOf u).toNat < 10 ^ 2 by omega))
  have hy : ∀ c ∈ [y0, y1, y2, y3], ∃ m, c = digitChar m := by
    rw [← hY4]; exact fun c hc => lpad_digits_mem hc
  have ha : ∀ c ∈ [a0, a1], ∃ m, c = digitChar m := by
    rw [← hA]; exact fun c hc => lpad_digits_mem hc
  have hb : ∀ c ∈ [b0, b1], ∃ m, c = digitChar m := by
    rw [← hB]; exact fun c hc => lpad_digits_mem hc
  have hc : ∀ c ∈ [c0, c1], ∃ m, c = digitChar m := by
    rw [← hC]; exact fun c hc => lpad_digits_mem hc
  have he : ∀ c ∈ [e0, e1], ∃ m, c = digitChar m := by
    rw [← hE]; exact fun c hc => lpad_digits_mem hc
  have hf : ∀ c ∈ [f0, f1], ∃ m, c = digitChar m := by
    rw [← hF]; exact fun c hc => lpad_digits_mem hc
  have hYc : (digitsVal [y0, y1, y2, y3] : ℤ) = jsYearOf u := by
    rw [show digitsVal [y0, y1, y2, y3] = (jsYearOf u).toNat from by
      rw [← hY4]; exact lpad_digits_val _ 4]
    omega
  have hAc : (digitsVal [a0, a1] : ℤ) - 1 = jsMonthOf u := by
    rw [show digitsVal [a0, a1] = (jsMonthOf u + 1).toNat from by
      rw [← hA]; exact lpad_digits_val _ 2]
    omega
  have hBc : (digitsVal [b0, b1] : ℤ) = jsDateOf u := by
    rw [show digitsVal [b0, b1] = (jsDateOf u).toNat from by
      rw [← hB]; exact lpad_digits_val _ 2]
    omega
  have hCc : (digitsVal [c0, c1] : ℤ) = jsHoursOf u := by
    rw [show digitsVal [c0, c1] = (jsHoursOf u).toNat from by
      rw [← hC]; exact lpad_digits_val _ 2]
    omega
  have hEc : (digitsVal [e0, e1] : ℤ) = jsMinutesOf u := by
    rw [show digitsVal [e0, e1] = (jsMinutesOf u).toNat from by
      rw [← hE]; exact lpad_digits_val _ 2]
    omega
  have hFc : (digitsVal [f0, f1] : ℤ) = jsSecondsOf u := by
    rw [show digitsVal [f0, f1] = (jsSecondsOf u).toNat from by
      rw [← hF]; exact lpad_digits_val _ 2]
    omega
  have hremY : remapYear (jsYearOf u) = jsYearOf u := by
    rw [remapYear, if_neg (by omega)]
  have hshape : localRender u = [y0, y1, y2, y3, '-', a0, a1, '-', b0, b1] ++
      ' ' :: [c0, c1, ':', e0, e1, ':', f0, f1] := by
    rw [localRender, renderNum_nonneg _ (by omega) 4, renderNum_nonneg _ (by omega) 2,
      renderNum_nonneg _ (by omega) 2, renderNum_nonneg _ (by omega) 2,
      renderNum_nonneg _ (by omega) 2, renderNum_nonneg _ (by omega) 2,
      hY4, hA, hB, hC, hE, hF]
    simp
  rw [hshape, toRaw_input_core L y0 y1 y2 y3 a0 a1 b0 b1 c0 c1 e0 e1 f0 f1
    hy ha hb hc he hf
    (by
      rw [hYc, hAc, hBc, hCc, hEc, hFc, hremY, recompose u hms]
      exact hclip)]
  rw [hYc, hAc, hBc, hCc, hEc, hFc, hremY, recompose u hms]

/-- The specification-side ISO parser reads back the UTC rendering of a time
value as that very instant (the `Z` offset contributing zero). -/
theorem specIsoInstant_isoUTC (t : ℤ) (hms : t % 1000 = 0)
    (hy1 : 0 ≤ jsYearOf t) (hy2 : jsYearOf t ≤ 9999) :
    specIsoInstant (isoUTC t) = some t := by
  obtain ⟨hh0, hh1, hm0, hm1, hs0, hs1, hmo0, hmo1, hd0, hd1⟩ := getters_range t
  obtain ⟨y0, y1, y2, y3, hY4⟩ := jstr_length_four
    (lpad_digits_length 4 (by norm_num) (show (jsYearOf t).toNat < 10 ^ 4 by omega))
  obtain ⟨a0, a1, hA⟩ := jstr_length_two
    (lpad_digits_length 2 (by norm_num) (show (jsMonthOf t + 1).toNat < 10 ^ 2 by omega))
  obtain ⟨b0, b1, hB⟩ := jstr_length_two
    (lpad_digits_length 2 (by norm_num) (show (jsDateOf t).toNat < 10 ^ 2 by omega))
  obtain ⟨c0, c1, hC⟩ := jstr_length_two
    (lpad_digits_length 2 (by norm_num) (show (jsHoursOf t).toNat < 10 ^ 2 by omega))
  obtain ⟨e0, e1, hE⟩ := jstr_length_two
    (lpad_digits_length 2 (by norm_num) (show (jsMinutesOf t).toNat < 10 ^ 2 by omega))
  obtain ⟨f0, f1, hF⟩ := jstr_length_two
    (lpad_digits_length 2 (by norm_num) (show (jsSecondsOf t).toNat < 10 ^ 2 by omega))
  have hy : ∀ c ∈ [y0, y1, y2, y3], ∃ m, c = digitChar m := by
    rw [← hY4]; exact fun c hc => lpad_digits_mem hc
  have ha : ∀ c ∈ [a0, a1], ∃ m, c = digitChar m := by
    rw [← hA]; exact fun c hc => lpad_digits_mem hc
  have hb : ∀ c ∈ [b0, b1], ∃ m, c = digitChar m := by
    rw [← hB]; exact fun c hc => lpad_digits_mem hc
  have hc : ∀ c ∈ [c0, c1], ∃ m, c = digitChar m := by
    rw [← hC]; exact fun c hc => lpad_digits_mem hc
  have he : ∀ c ∈ [e0, e1], ∃ m, c = digitChar m := by
    rw [← hE]; exact fun c hc => lpad_digits_mem hc
  have hf : ∀ c ∈ [f0, f1], ∃ m, c = digitChar m := by
    rw [← hF]; exact fun c hc => lpad_digits_mem hc
  have hYc : (digitsVal [y0, y1, y2, y3] : ℤ) = jsYearOf t := by
    rw [show digitsVal [y0, y1, y2, y3] = (jsYearOf t).toNat from by
      rw [← hY4]; exact lpad_digits_val _ 4]
    omega
  have hAc : (digitsVal [a0, a1] : ℤ) - 1 = jsMonthOf t := by
    rw [show digitsVal [a0, a1] = (jsMonthOf t + 1).toNat from by
      rw [← hA]; exact lpad_digits_val _ 2]
    omega
  have hBc : (digitsVal [b0, b1] : ℤ) = jsDateOf t := by
    rw [show digitsVal [b0, b1] = (jsDateOf t).toNat from by
      rw [← hB]; exact lpad_digits_val _ 2]
    omega
  have hCc : (digitsVal [c0, c1] : ℤ) = jsHoursOf t := by
    rw [show digitsVal [c0, c1] = (jsHoursOf t).toNat from by
      rw [← hC]; exact lpad_digits_val _ 2]
    omega
  have hEc : (digitsVal [e0, e1] : ℤ) = jsMinutesOf t := by
    rw [show digitsVal [e0, e1] = (jsMinutesOf t).toNat from by
      rw [← hE]; exact lpad_digits_val _ 2]
    omega
  have hFc : (digitsVal [f0, f1] : ℤ) = jsSecondsOf t := by
    rw [show digitsVal [f0, f1] = (jsSecondsOf t).toNat from by
      rw [← hF]; exact lpad_digits_val _ 2]
    omega
  have hshape : isoUTC t = [y0, y1, y2, y3, '-', a0, a1, '-', b0, b1] ++
      'T' :: ([c0, c1, ':', e0, e1, ':', f0, f1] ++ ['Z']) := by
    rw [isoUTC, renderNum_nonneg _ (by omega) 4, renderNum_nonneg _ (by omega) 2,
      renderNum_nonneg _ (by omega) 2, renderNum_nonneg _ (by omega) 2,
      renderNum_nonneg _ (by omega) 2, renderNum_nonneg _ (by omega) 2,
      hY4, hA, hB, hC, hE, hF]
    simp
  rw [hshape]
  simp only [specIsoInstant]
  have h10 : (([y0, y1, y2, y3, '-', a0, a1, '-', b0, b1] ++
      'T' :: ([c0, c1, ':', e0, e1, ':', f0, f1] ++ ['Z'])))[10]? = some 'T' := rfl
  rw [if_pos h10]
  have ht10 : (([y0, y1, y2, y3, '-', a0, a1, '-', b0, b1] ++
      'T' :: ([c0, c1, ':', e0, e1, ':', f0, f1] ++ ['Z']))).take 10 =
      [y0, y1, y2, y3, '-', a0, a1, '-', b0, b1] := rfl
  have ht8 : ((([y0, y1, y2, y3, '-', a0, a1, '-', b0, b1] ++
      'T' :: ([c0, c1, ':', e0, e1, ':', f0, f1] ++ ['Z']))).drop 11).take 8 =
      [c0, c1, ':', e0, e1, ':', f0, f1] := rfl
  have ht19 : (([y0, y1, y2, y3, '-', a0, a1, '-', b0, b1] ++
      'T' :: ([c0, c1, ':', e0, e1, ':', f0, f1] ++ ['Z']))).drop 19 = ['Z'] := rfl
  rw [ht10, ht8, ht19]
  have hmd := matchDATE_mk y0 y1 y2 y3 a0 a1 b0 b1
    (digit_of_mem (hy y0 (by simp))) (digit_of_mem (hy y1 (by simp)))
    (digit_of_mem (hy y2 (by simp))) (digit_of_mem (hy y3 (by simp)))
    (digit_of_mem (ha a0 (by simp))) (digit_of_mem (ha a1 (by simp)))
    (digit_of_mem (hb b0 (by simp))) (digit_of_mem (hb b1 (by simp)))
    (by
      obtain ⟨m, rfl⟩ := hy y0 (by simp)
      have hp := digitChar_props m
      rintro (hq | hq)
      · exact hp.2.2.2.2.1 hq
      · exact hp.2.2.2.1 hq)
  have hmt := matchTIME_mk c0 c1 e0 e1 f0 f1
    (digit_of_mem (hc c0 (by simp))) (digit_of_mem (hc c1 (by simp)))
    (digit_of_mem (he e0 (by simp))) (digit_of_mem (he e1 (by simp)))
    (digit_of_mem (hf f0 (by simp))) (digit_of_mem (hf f1 (by simp)))
  rw [hmd, hmt]
  rw [if_pos rfl]
  simp only [Option.map_some']
  rw [hYc, hAc, hBc, hCc, hEc, hFc, recompose t hms]
  simp

/-- **C4, counterexample.**  The claimed round trip fails on valid ISO-8601
input: for the compact form `2000-01-01T10:00:00+05:00` (offset attached to
the time, as ISO-8601 writes it), `TIME_RE` cannot match the time segment, so
the time and offset are silently dropped and the round trip returns midnight
UTC instead of `05:00` UTC.  Even for the space-separated offset form the
formatters DO parse, the offset is ADDED to the clock fields instead of
subtracted, yielding `15:00` UTC instead of `05:00` UTC.  (Local offset 0;
the instants are stated via the specification-side reference parser
`specIsoInstant`.) -/
theorem C4_counterexample_offset_handling :
    specIsoInstant (jstr "2000-01-01T10:00:00+05:00") = some 946702800000 ∧
    Backgrid.DatetimeFormatter.toRaw Backgrid.DTdefaults 0
        (Backgrid.DatetimeFormatter.fromRaw Backgrid.DTdefaults 0
          (jstr "2000-01-01T10:00:00+05:00")) =
      some (jstr "2000-01-01T00:00:00Z") ∧
    specIsoInstant (jstr "2000-01-01T00:00:00Z") = some 946684800000 ∧
    Backgrid.DatetimeFormatter.toRaw Backgrid.DTdefaults 0
        (Backgrid.DatetimeFormatter.fromRaw Backgrid.DTdefaults 0
          (jstr "2000-01-01T10:00:00 +05:00")) =
      some (jstr "2000-01-01T15:00:00Z") ∧
    specIsoInstant (jstr "2000-01-01T15:00:00Z") = some 946738800000 := by
  refine ⟨by decide, by decide, by decide, by decide, by decide⟩

/-- **C4 (amended).**  For the `DatetimeFormatter` with the default
configuration (`includeDate = includeTime = true`), a fixed local offset `L`
of whole minutes, and an input `YYYY-MM-DDTHH:mm:ss ±ZH:ZM` whose zone offset
is separated from the time by a space (the only offset placement the regexes
accept), `toRaw(fromRaw(s))` is an ISO-8601 UTC string (`T` separator,
trailing `Z`) — but the instant it denotes is the one obtained by ADDING the
zone offset hours (with their sign) and minutes (always positive) to the
clock fields, not by subtracting the offset as ISO-8601 semantics would.
The range hypotheses keep the intermediate local rendering and the final UTC
rendering inside the formatter's four-digit-year, no-1900-remapping range. -/
theorem C4_roundtrip_space_separated_offset (L : ℤ) (Y Mo D h mi se zh zm : ℕ)
    (neg : Bool)
    (hY1 : 1000 ≤ Y) (hY2 : Y ≤ 9999) (hMo : Mo < 100) (hD : D < 100) (hh : h < 100)
    (hmi : mi < 100) (hse : se < 100) (hzh : zh < 100) (hzm : zm < 100)
    (hL : L % 60000 = 0)
    (hloc1 : 100 ≤ jsYearOf (dtInstant Y Mo D h mi se neg zh zm + L))
    (hloc2 : jsYearOf (dtInstant Y Mo D h mi se neg zh zm + L) ≤ 9999)
    (hutc1 : 0 ≤ jsYearOf (dtInstant Y Mo D h mi se neg zh zm))
    (hutc2 : jsYearOf (dtInstant Y Mo D h mi se neg zh zm) ≤ 9999) :
    Backgrid.DatetimeFormatter.toRaw Backgrid.DTdefaults L
        (Backgrid.DatetimeFormatter.fromRaw Backgrid.DTdefaults L
          (mkDTInput Y Mo D h mi se neg zh zm)) =
      some (isoUTC (dtInstant Y Mo D h mi se neg zh zm)) ∧
    specIsoInstant (isoUTC (dtInstant Y Mo D h mi se neg zh zm)) =
      some (dtInstant Y Mo D h mi se neg zh zm) := by
  have hq : qtrunc 0 = 0 := rfl
  have hmsI : dtInstant Y Mo D h mi se neg zh zm % 1000 = 0 := by
    simp only [dtInstant, MakeDate, MakeTime, MakeDay, msPerDay, hq]
    omega
  have hyb := year_range_bound (dtInstant Y Mo D h mi se neg zh zm) hutc1 hutc2
  rw [fromRaw_mkInput L Y Mo D h mi se zh zm neg hY1 hY2 hMo hD hh hmi hse hzh hzm]
  constructor
  · have htr := toRaw_localRender L (dtInstant Y Mo D h mi se neg zh zm + L)
      (by omega) hloc1 hloc2 (by constructor <;> omega)
    rw [htr, add_sub_cancel_right]
  · exact specIsoInstant_isoUTC _ hmsI hutc1 hutc2

/-- Concrete run of the amended round trip: `2000-01-01T10:00:00 +05:00` with
local offset 0 round-trips to `isoUTC` of the zone-ADDED instant (15:00 UTC),
and that rendering denotes exactly that instant. -/
theorem C4_witness :
    Backgrid.DatetimeFormatter.toRaw Backgrid.DTdefaults 0
        (Backgrid.DatetimeFormatter.fromRaw Backgrid.DTdefaults 0
          (mkDTInput 2000 1 1 10 0 0 false 5 0)) =
      some (isoUTC (dtInstant 2000 1 1 10 0 0 false 5 0)) ∧
    specIsoInstant (isoUTC (dtInstant 2000 1 1 10 0 0 false 5 0)) =
      some (dtInstant 2000 1 1 10 0 0 false 5 0) :=
  C4_roundtrip_space_separated_offset 0 2000 1 1 10 0 0 5 0 false
    (by norm_num) (by norm_num) (by norm_num) (by norm_num) (by norm_num)
    (by norm_num) (by norm_num) (by norm_num) (by norm_num) (by decide)
    (by decide) (by decide) (by decide) (by decide)

/-! ## C5: totality of the formatters' fromRaw -/

/-- **C5, counterexample.**  `fromRaw` does NOT always succeed: the
`DatetimeFormatter` throws a `TypeError` on `null` and on `undefined` (its
first step is `String.prototype.trim.call(rawData)`), and the
`NumberFormatter` throws a `TypeError` on the string `"123"` — the value
survives the `isNaN`/`null` guard because its numeric coercion is a number,
and then `"123".toFixed` is not a function. -/
theorem C5_counterexample_fromRaw_throws :
    Backgrid.DatetimeFormatter.fromRawVal Backgrid.DTdefaults 0 .vNull = none ∧
    Backgrid.DatetimeFormatter.fromRawVal Backgrid.DTdefaults 0 .vUndefined = none ∧
    Backgrid.NumberFormatter.fromRawVal Backgrid.NFdefaults (.vStr (jstr "123")) = none := by
  refine ⟨rfl, rfl, by decide⟩

/-- **C5 (amended).**  Totality of `fromRaw` holds per formatter and per input
type: the identity formatter never throws on any value; the `NumberFormatter`
never throws on numbers (including `NaN` and the infinities), on `null`, on
`undefined`, or on strings whose numeric coercion is `NaN` (all of the latter
map to the empty string); the `DatetimeFormatter` never throws on strings or
numbers.  The exceptions — datetime on `null`/`undefined`, number formatter
on number-coercible non-numbers — are the counterexample above. -/
theorem C5_fromRaw_totality :
    (∀ v, Backgrid.Formatter.fromRawVal v = some v) ∧
    (∀ cfg x, (Backgrid.NumberFormatter.fromRawVal cfg (.vNum x)).isSome = true) ∧
    (∀ cfg, Backgrid.NumberFormatter.fromRawVal cfg .vNull = some []) ∧
    (∀ cfg, Backgrid.NumberFormatter.fromRawVal cfg .vUndefined = some []) ∧
    (∀ cfg s, jsStringToNumber s = JSNum.nan →
      Backgrid.NumberFormatter.fromRawVal cfg (.vStr s) = some []) ∧
    (∀ cfg L s, (Backgrid.DatetimeFormatter.fromRawVal cfg L (.vStr s)).isSome = true) ∧
    (∀ cfg L x, (Backgrid.DatetimeFormatter.fromRawVal cfg L (.vNum x)).isSome = true) := by
  refine ⟨fun v => rfl, ?_, ?_, ?_, ?_, fun cfg L s => rfl, fun cfg L x => rfl⟩
  · intro cfg x
    by_cases hx : jsIsNaN (JSVal.vNum x) = true
    · simp [Backgrid.NumberFormatter.fromRawVal, hx]
    · simp [Backgrid.NumberFormatter.fromRawVal, hx]
  · intro cfg
    simp [Backgrid.NumberFormatter.fromRawVal, jsIsNaN]
  · intro cfg
    simp [Backgrid.NumberFormatter.fromRawVal, jsIsNaN]
  · intro cfg s hs
    simp [Backgrid.NumberFormatter.fromRawVal, jsIsNaN, hs]

/-- Concrete runs of the totality statement: the unparsable string `"12x3"`
(numeric coercion `NaN`) formats to the empty string, and formatting an
actual number succeeds. -/
theorem C5_witness :
    Backgrid.NumberFormatter.fromRawVal Backgrid.NFdefaults (.vStr (jstr "12x3")) =
      some [] ∧
    (Backgrid.NumberFormatter.fromRawVal Backgrid.NFdefaults
      (.vNum (.num (mkRat 37 10)))).isSome = true :=
  ⟨C5_fromRaw_totality.2.2.2.2.1 Backgrid.NFdefaults (jstr "12x3") (by decide),
    C5_fromRaw_totality.2.1 Backgrid.NFdefaults (.num (mkRat 37 10))⟩
